/-
  Verification of the TrafoLandscape graph/state machine
  (drtransformer/landscape.py) against its natural-language specification.

  The Python class is shallowly embedded: the mutable node/edge dictionaries
  become association lists threaded through pure functions, Python `assert`,
  KeyError, TypeError and IndexError become an explicit `Except Err` monad,
  floating-point occupancies and rates become exact rationals, and the
  external collaborators (ViennaRNA energy model, fraying, guide graph,
  flooding, coarse graining, numeric integrator), which live outside this
  module, become an `Oracles` parameter record of arbitrary pure functions.
  Coarse-grained edge weights, which the source computes as
  k0 * e^(-bar/RT), are represented by storing the exponent argument `bar`
  exactly and recovering the stored real weight through `weightOf`.
-/
import Mathlib

set_option linter.unusedVariables false

/-! ## Association-list primitives (Python dict, insertion ordered) -/

/-- Lookup of the first binding of a key (Python `d[k]` / `k in d`). -/
def lget {K V : Type} [DecidableEq K] : List (K × V) → K → Option V
  | [], _ => none
  | (k, v) :: rest, key => if k = key then some v else lget rest key

/-- Update the value at a key in place, keeping dict order (`d[k] = f(d[k])`).
No effect when the key is absent; every call site guards presence. -/
def lset {K V : Type} [DecidableEq K] (f : V → V) : List (K × V) → K → List (K × V)
  | [], _ => []
  | (k, v) :: rest, key => if k = key then (k, f v) :: rest else (k, v) :: lset f rest key

/-- Remove the binding of a key (`del d[k]`). -/
def ldel {K V : Type} [DecidableEq K] : List (K × V) → K → List (K × V)
  | [], _ => []
  | (k, v) :: rest, key => if k = key then rest else (k, v) :: ldel rest key

/-- Dict assignment `d[k] = v`: overwrite in place when present, append
otherwise. -/
def dinsert {K V : Type} [DecidableEq K] (l : List (K × V)) (k : K) (v : V) :
    List (K × V) :=
  if (lget l k).isSome then lset (fun _ => v) l k else l ++ [(k, v)]

/-- Insert into a list used as a set (Python `set.add`). -/
def sinsert {K : Type} [DecidableEq K] (l : List K) (x : K) : List K :=
  if x ∈ l then l else l ++ [x]

/-- Deduplicate keeping first occurrences (Python `set(iterable)` as far as
membership and cardinality are concerned). -/
def sdedup {K : Type} [DecidableEq K] (l : List K) : List K :=
  l.foldl sinsert []

/-- Python truthiness of an optional set attribute: `None` and the empty
set are falsy, a non-empty set is truthy. -/
def truthyL : Option (List String) → Bool
  | none => false
  | some [] => false
  | some (_ :: _) => true

/-! ## Data model -/

/-- One node record of `TrafoLandscape._nodes` (landscape.py, `addnode`). -/
structure NodeData where
  structure_ : Option String
  occupancy : ℚ
  identity : String
  energy : Option ℤ
  active : Bool
  pruned : ℕ
  lminreps : Option (List String)
  hiddennodes : Option (List String)
  occtransfer : Option (List String)
deriving DecidableEq, Repr

/-- One fine-grained edge record of `TrafoLandscape._edges`. -/
structure EdgeData where
  weight : Option ℚ
  saddle_energy : Option ℤ
deriving DecidableEq, Repr

/-- One coarse-grained edge record of `TrafoLandscape._cg_edges`.  The source
stores `saddle_energy` and `weight = k0 * e**(-bar/RT)` with
`bar = (saddle_energy - energy(source))/100`; since the weight is a fixed
real-valued function of `bar`, we store `bar` exactly and recover the
weight through `weightOf` below. -/
structure CgEdgeData where
  saddle_energy : ℤ
  bar : ℚ
deriving DecidableEq, Repr

/-- The `TrafoLandscape` instance state: the graph store plus the scalar
configuration attributes set in `__init__`. -/
structure TrafoLandscape where
  sequence : String
  temperature : ℚ
  prefixStr : String
  nodeID : ℕ
  nodes : List (String × NodeData)
  edges : List ((String × String) × EdgeData)
  cg_edges : List ((String × String) × CgEdgeData)
  k0 : ℚ
  minh : ℤ
  fpwm : ℤ
  mfree : ℕ
  transcript_length : ℕ
deriving DecidableEq, Repr

/-- Python-level faults surfaced by the embedded operations. -/
inductive Err where
  | assertionError
  | typeError
  | keyError
  | indexError
  | fuelExhausted
deriving DecidableEq, Repr

/-- The external collaborators consumed by the core, §6 of the spec:
energy model (mfe backtracking and structure evaluation),
`find_fraying_neighbors`, `get_guide_graph`, `neighborhood_flooding`,
`top_down_coarse_graining` and the `mx_simulate` integrator.  They are
outside this module and enter the embedding as arbitrary pure functions. -/
structure Oracles where
  mfe : ℕ → String
  eval_structure : String → ℤ
  fraying : String → List String → List String
  guide : String → List String → List (String × ℤ) × List (String × String)
  flooding : String → ℤ → ℤ → List (String × NodeData) → List (String × String) →
      List ((String × String) × EdgeData) →
      List (String × ℤ) × List ((String × String) × ℤ)
  coarse : List (String × NodeData) → List ((String × String) × EdgeData) → ℤ →
      List (String × ℤ) × List ((String × String) × ℤ) × List (String × List String)
  mx_simulate : TrafoLandscape → List String → List ℚ → List ℚ → Option (List ℚ) →
      ℚ → ℚ → List (ℚ × List ℚ)

namespace TrafoLandscape

/-- `RT` property: thermal energy, the 37 °C value rescaled to the
configured temperature when it differs from 37 (landscape.py lines 55-61). -/
def RT (temperature : ℚ) : ℚ :=
  if temperature ≠ 37 then
    (0.61632077549999997 / 310.15) * (273.15 + temperature)
  else 0.61632077549999997

/-- `has_node`. -/
def has_node (s : TrafoLandscape) (n : String) : Bool :=
  (lget s.nodes n).isSome

/-- `has_edge`. -/
def has_edge (s : TrafoLandscape) (s1 s2 : String) : Bool :=
  (lget s.edges (s1, s2)).isSome

/-- `has_cg_edge`. -/
def has_cg_edge (s : TrafoLandscape) (s1 s2 : String) : Bool :=
  (lget s.cg_edges (s1, s2)).isSome

/-- `get_rate`: the `weight` attribute of a present edge, the constant `0`
otherwise.  A present edge may carry weight `None`, hence the `Option`. -/
def get_rate (s : TrafoLandscape) (s1 s2 : String) : Option ℚ :=
  match lget s.edges (s1, s2) with
  | some e => e.weight
  | none => some 0

/-- `get_saddle`: the `saddle_energy` attribute of a present edge, `None`
otherwise. -/
def get_saddle (s : TrafoLandscape) (s1 s2 : String) : Option ℤ :=
  match lget s.edges (s1, s2) with
  | some e => e.saddle_energy
  | none => none

/-- Keys of `active_local_mins`: active nodes with falsy `lminreps`,
in dict order. -/
def activeLocalMins (s : TrafoLandscape) : List String :=
  s.nodes.filterMap fun kd =>
    if kd.2.active ∧ ¬ truthyL kd.2.lminreps then some kd.1 else none

/-- Keys of `hidden_nodes`: nodes with truthy `lminreps`, in dict order. -/
def hiddenNodes (s : TrafoLandscape) : List String :=
  s.nodes.filterMap fun kd => if truthyL kd.2.lminreps then some kd.1 else none

/-- Total occupancy over all stored nodes: the conserved quantity. -/
def totOcc (s : TrafoLandscape) : ℚ :=
  (s.nodes.map fun kd => kd.2.occupancy).sum

/-! ## Node field updates (in-place dict value assignment) -/

def setActive (s : TrafoLandscape) (k : String) (b : Bool) : TrafoLandscape :=
  { s with nodes := lset (fun d => { d with active := b }) s.nodes k }

def setPruned (s : TrafoLandscape) (k : String) (p : ℕ) : TrafoLandscape :=
  { s with nodes := lset (fun d => { d with pruned := p }) s.nodes k }

def setOcc (s : TrafoLandscape) (k : String) (q : ℚ) : TrafoLandscape :=
  { s with nodes := lset (fun d => { d with occupancy := q }) s.nodes k }

def addOcc (s : TrafoLandscape) (k : String) (q : ℚ) : TrafoLandscape :=
  { s with nodes := lset (fun d => { d with occupancy := d.occupancy + q }) s.nodes k }

def setOcctransfer (s : TrafoLandscape) (k : String) (t : Option (List String)) :
    TrafoLandscape :=
  { s with nodes := lset (fun d => { d with occtransfer := t }) s.nodes k }

def setLminreps (s : TrafoLandscape) (k : String) (t : Option (List String)) :
    TrafoLandscape :=
  { s with nodes := lset (fun d => { d with lminreps := t }) s.nodes k }

def setHiddennodes (s : TrafoLandscape) (k : String) (t : Option (List String)) :
    TrafoLandscape :=
  { s with nodes := lset (fun d => { d with hiddennodes := t }) s.nodes k }

/-- Current occupancy of a key (call sites guarantee presence). -/
def occOf (s : TrafoLandscape) (k : String) : ℚ :=
  match lget s.nodes k with
  | some d => d.occupancy
  | none => 0

/-! ## addnode / addedge -/

/-- `addnode` (landscape.py lines 88-126): asserts the key is fresh, derives
the energy from the structure through the energy model when not given,
autogenerates the identity from the prefixed counter when not given, and
appends the record. -/
def addnode (o : Oracles) (s : TrafoLandscape) (key : String)
    (structure_ : Option String) (occupancy : ℚ)
    (identity : Option String) (energy : Option ℤ)
    (active : Bool) (pruned : ℕ)
    (lminreps : Option (List String))
    (hiddennodes : Option (List String))
    (occtransfer : Option (List String)) :
    Except Err TrafoLandscape := do
  if (lget s.nodes key).isSome then throw .assertionError
  let energy : Option ℤ :=
    match energy, structure_ with
    | some e, _ => some e
    | none, some st => some (o.eval_structure st)
    | none, none => none
  let (identity, nodeID) :=
    match identity with
    | none => (s.prefixStr ++ toString s.nodeID, s.nodeID + 1)
    | some i => (i, s.nodeID)
  pure { s with nodeID := nodeID,
                nodes := s.nodes ++ [(key,
                  { structure_ := structure_, occupancy := occupancy,
                    identity := identity, energy := energy, active := active,
                    pruned := pruned, lminreps := lminreps,
                    hiddennodes := hiddennodes, occtransfer := occtransfer })] }

/-- `addedge` as called from `expand` (always with the `saddle_energy`
keyword): asserts both endpoints exist, creates the record with weight
`None` if absent, then updates `saddle_energy`. -/
def addedge (s : TrafoLandscape) (n1 n2 : String) (se : ℤ) :
    Except Err TrafoLandscape := do
  if (lget s.nodes n1).isNone then throw .assertionError
  if (lget s.nodes n2).isNone then throw .assertionError
  match lget s.edges (n1, n2) with
  | none =>
      pure { s with edges := s.edges ++ [((n1, n2),
        { weight := none, saddle_energy := some se })] }
  | some _ =>
      let edges2 := lset (fun e => { e with saddle_energy := some se }) s.edges (n1, n2)
      pure { s with edges := edges2 }

/-! ## expand (landscape.py lines 181-292) -/

/-- The merge pattern of `expand` for a candidate structure key: create the
node (occupancy 0, active) when absent, reactivate it when inactive,
tracking the new-node and reactivated-node sets. -/
def mergeStructure (o : Oracles) (acc : TrafoLandscape × List String × List String)
    (key : String) : Except Err (TrafoLandscape × List String × List String) := do
  let (s, nn, ron) := acc
  match lget s.nodes key with
  | none => do
      let s ← addnode o s key (some key) 0 none none true 0 none none none
      pure (s, sinsert nn key, ron)
  | some d =>
      if d.active then pure (s, nn, ron)
      else pure (s.setActive key true, nn, sinsert ron key)

/-- The merge pattern of `expand` step 3 for a flooding-result node: merge
like `mergeStructure` but with the collaborator-provided energy, then the
internal-consistency assert that the stored energy equals the freshly
computed one (landscape.py line 278). -/
def mergeFloodNode (o : Oracles) (acc : TrafoLandscape × List String × List String)
    (p : String × ℤ) : Except Err (TrafoLandscape × List String × List String) := do
  let (s, nn, ron) := acc
  let (node, en) := p
  let acc2 ← match lget s.nodes node with
    | none => do
        let s ← addnode o s node (some node) 0 none (some en) true 0 none none none
        pure (s, sinsert nn node, ron)
    | some d =>
        if d.active then pure (s, nn, ron)
        else pure (s.setActive node true, nn, sinsert ron node)
  let (s, nn, ron) := acc2
  match lget s.nodes node with
  | some d => if d.energy = some en then pure (s, nn, ron) else throw .assertionError
  | none => throw .keyError

/-- The fine-grained-edge snapshot of `expand` step 2: previous edges whose
endpoints are both active and whose `saddle_energy` is known.  A Python
`KeyError` for a dangling endpoint is surfaced as an error. -/
def activeEdgeSnapshot (s : TrafoLandscape) :
    Except Err (List ((String × String) × EdgeData)) :=
  s.edges.foldlM (fun acc e => do
      let a1 ← match lget s.nodes e.1.1 with
        | some d => pure d.active
        | none => throw Err.keyError
      let a2 ← match lget s.nodes e.1.2 with
        | some d => pure d.active
        | none => throw Err.keyError
      if a1 ∧ a2 ∧ e.2.saddle_energy.isSome then pure (acc ++ [e]) else pure acc)
    []

/-- `expand`: advance the transcript cursor by one symbol (clamped), pad the
current-prefix mfe structure with placeholder dots, then either bootstrap a
single full-occupancy node into an empty graph, or merge the mfe structure,
the fraying candidates, the guide-graph candidates and the flooding result
into the graph, returning the sets of new and reactivated nodes. -/
def expand (o : Oracles) (s0 : TrafoLandscape) :
    Except Err (TrafoLandscape × List String × List String) := do
  let fseq := s0.sequence
  let tl1 := min (s0.transcript_length + 1) fseq.length
  let s : TrafoLandscape := { s0 with transcript_length := tl1 }
  let seq := fseq.take tl1
  let future := String.mk (List.replicate (fseq.length - tl1) '.')
  let mfess := o.mfe tl1 ++ future
  if s.nodes.isEmpty then do
    let s ← addnode o s mfess (some mfess) 1 none none true 0 none none none
    pure (s, [mfess], [])
  else do
    let parents := (activeLocalMins s).map (fun x => x.take tl1)
    let fns := o.fraying seq parents
    let acc ← mergeStructure o (s, [], []) mfess
    let acc ← fns.foldlM (fun acc fn => mergeStructure o acc (fn ++ future)) acc
    let (s, nn, ron) := acc
    let trimmedActive := s.nodes.filterMap fun kd =>
      if kd.2.active then some (kd.1.take tl1) else none
    let (gnodes, gedges) := o.guide seq trimmedActive
    if gnodes.any (fun p => p.1 = "") then throw .assertionError
    let acc ← gnodes.foldlM (fun acc p => mergeStructure o acc (p.1 ++ future)) (s, nn, ron)
    let (s, nn, ron) := acc
    let gedges2 := gedges.map fun p => (p.1 ++ future, p.2 ++ future)
    let ndata0 := s.nodes.filter fun kd => kd.2.active
    let edata0 ← activeEdgeSnapshot s
    let (ndata, edata) := o.flooding fseq s.fpwm s.minh ndata0 gedges2 edata0
    let acc ← ndata.foldlM (fun acc p => mergeFloodNode o acc p) (s, nn, ron)
    let (s, nn, ron) := acc
    let s ← edata.foldlM (fun s e => addedge s e.1.1 e.1.2 e.2) s
    pure (s, nn, ron)

/-! ## get_coarse_network (landscape.py lines 294-348) -/

/-- One iteration of the loop at lines 305-314 for key `n`: clear
`lminreps`/`hiddennodes`, and when the node is inactive with nonzero
occupancy, redistribute its occupancy equally over its `occtransfer`
targets (each asserted active; iterating `None` is a `TypeError`) and
zero it. -/
def cgTransferTo (n : String) (len : ℕ) (s : TrafoLandscape) (tn : String) :
    Except Err TrafoLandscape := do
  match lget s.nodes tn with
  | none => throw .keyError
  | some td => do
      if ¬ td.active then throw .assertionError
      pure (s.addOcc tn (occOf s n / (len : ℚ)))

/-- One iteration of the loop at lines 305-314 for key `n`: clear
`lminreps`/`hiddennodes`, and when the node is inactive with nonzero
occupancy, redistribute its occupancy equally over its `occtransfer`
targets (each asserted active; iterating `None` is a `TypeError`) and
zero it. -/
def cgTransferStep (s : TrafoLandscape) (n : String) : Except Err TrafoLandscape := do
  let s := s.setLminreps n (some [])
  let s := s.setHiddennodes n (some [])
  match lget s.nodes n with
  | none => throw .keyError
  | some d =>
    if ¬ d.active ∧ d.occupancy ≠ 0 then do
      match d.occtransfer with
      | none => throw .typeError
      | some ts => do
          let s ← ts.foldlM (cgTransferTo n ts.length) s
          pure (s.setOcc n 0)
    else pure s

/-- Lines 305-314 over all node keys in dict order. -/
def cgPhase1 (s : TrafoLandscape) : Except Err TrafoLandscape :=
  (s.nodes.map Prod.fst).foldlM cgTransferStep s

/-- The active-active restriction of the fine edge set (line 316), with a
`KeyError` for a dangling endpoint. -/
def cgActiveEdges (s : TrafoLandscape) :
    Except Err (List ((String × String) × EdgeData)) :=
  s.edges.foldlM (fun acc e => do
      let a1 ← match lget s.nodes e.1.1 with
        | some d => pure d.active
        | none => throw Err.keyError
      let a2 ← match lget s.nodes e.1.2 with
        | some d => pure d.active
        | none => throw Err.keyError
      if a1 ∧ a2 then pure (acc ++ [e]) else pure acc)
    []

/-- Lines 321-327: store the coarse edges, each with its saddle energy and
the Arrhenius exponent `bar = (saddle_energy - energy(source))/100` taken
from the collaborator's representative node data (a missing source
representative is a `KeyError`). -/
def buildCgEdges (cgn : List (String × ℤ)) :
    List ((String × String) × ℤ) → List ((String × String) × CgEdgeData) →
    Except Err (List ((String × String) × CgEdgeData))
  | [], acc => pure acc
  | e :: rest, acc =>
      match lget cgn e.1.1 with
      | none => throw Err.keyError
      | some ex =>
          buildCgEdges cgn rest (dinsert acc e.1
            { saddle_energy := e.2, bar := ((e.2 : ℚ) - (ex : ℚ)) / 100 })

/-- One hidden node of a representative/hidden-set pair: assert it active
and add the representative to its `lminreps` set. -/
def cgMapHiddenStep (lmin : String) (s : TrafoLandscape) (hn : String) :
    Except Err TrafoLandscape := do
  match lget s.nodes hn with
  | none => throw .keyError
  | some hd => do
      if ¬ hd.active then throw .assertionError
      match hd.lminreps with
      | none => throw .typeError
      | some l => pure (s.setLminreps hn (some (sinsert l lmin)))

/-- Lines 329-334 for one representative/hidden-set pair: assert both sides
active, add the representative to each hidden node's `lminreps`, and set the
representative's `hiddennodes`. -/
def cgMapStep (s : TrafoLandscape) (p : String × List String) :
    Except Err TrafoLandscape := do
  match lget s.nodes p.1 with
  | none => throw .keyError
  | some d => do
      if ¬ d.active then throw .assertionError
      let s ← p.2.foldlM (cgMapHiddenStep p.1) s
      pure (s.setHiddennodes p.1 (some p.2))

/-- One representative receiving an equal share of a hidden node's
occupancy. -/
def cgHiddenTo (hn : String) (len : ℕ) (s : TrafoLandscape) (lrep : String) :
    Except Err TrafoLandscape := do
  match lget s.nodes lrep with
  | none => throw .keyError
  | some _ => pure (s.addOcc lrep (occOf s hn / (len : ℚ)))

/-- Lines 337-347 for one hidden node `hn`.  `nlast` is the leftover loop
variable `n` from the loop at line 305, i.e. the last node key in dict
order: the source's sanity check at lines 338-339 tests that stale variable
rather than `hn` (flagged as a latent defect in the spec's design notes, and
embedded as written).  Then the hidden node's occupancy is split equally
over its `lminreps` representatives, zeroed, and the node deactivated. -/
def cgHiddenStep (nlast : String) (s : TrafoLandscape) (hn : String) :
    Except Err TrafoLandscape := do
  match lget s.nodes nlast with
  | none => throw .keyError
  | some dl => do
    if ¬ dl.active ∧ dl.occupancy ≠ 0 then throw .assertionError
    match lget s.nodes hn with
    | none => throw .keyError
    | some hd => do
      let s ←
        if hd.occupancy ≠ 0 then
          match hd.lminreps with
          | none => throw .typeError
          | some reps => reps.foldlM (cgHiddenTo hn reps.length) s
        else pure s
      let s := s.setOcc hn 0
      pure (s.setActive hn false)

/-- One hidden node processed with the stale loop variable (the last node
key in dict order, `None` when the graph is empty, in which case Python
would raise a `NameError`). -/
def cgHiddenIter (nlastOpt : Option String) (s : TrafoLandscape) (hn : String) :
    Except Err TrafoLandscape :=
  match nlastOpt with
  | none => throw Err.keyError
  | some nlast => cgHiddenStep nlast s hn

/-- `get_coarse_network`: transfer stranded occupancy off inactive nodes,
restrict to the active subgraph, invoke the coarse-graining collaborator,
rebuild the coarse edge set, record the representative/hidden partition on
the nodes, and migrate every hidden node's occupancy to its representatives
before deactivating it.  Returns the coarse node and edge counts. -/
def get_coarse_network (o : Oracles) (s0 : TrafoLandscape) :
    Except Err (TrafoLandscape × ℕ × ℕ) := do
  let s ← cgPhase1 s0
  let ndata := s.nodes.filter fun kd => kd.2.active
  let edata ← cgActiveEdges s
  let (cg_ndata, cg_edata, cg_mapping) := o.coarse ndata edata s.minh
  if ¬ cg_ndata.all (fun p => (lget ndata p.1).isSome) then throw .assertionError
  let cg2 ← buildCgEdges cg_ndata cg_edata []
  let s : TrafoLandscape := { s with cg_edges := cg2 }
  let s ← cg_mapping.foldlM cgMapStep s
  let s ← (hiddenNodes s).foldlM (cgHiddenIter ((s.nodes.map Prod.fst).getLast?)) s
  pure (s, cg_ndata.length, cg_edata.length)

/-! ## prune (landscape.py lines 394-457) -/

/-- Stable insertion into a ≤-sorted list: equal elements keep their
original relative order, matching Python's stable `sorted`. -/
def stInsert {α : Type} (le : α → α → Bool) (x : α) : List α → List α
  | [] => [x]
  | y :: ys => if le y x then y :: stInsert le x ys else x :: y :: ys

/-- Stable sort (insertion sort), matching Python's stable `sorted`. -/
def stSort {α : Type} (le : α → α → Bool) (l : List α) : List α :=
  l.foldl (fun acc x => stInsert le x acc) []

/-- Lines 397-410: visit the active local minima in ascending occupancy
order; skip members of `keep` (membership in `None` is a `TypeError`),
reset each visited minimum's `pruned` to 0, stop once deactivating the
candidate would push the shed occupancy over `pmin`, and otherwise
deactivate its hidden dependents (each asserted to hold zero occupancy)
and the minimum itself, collecting the newly inactive minima. -/
def pruneHiddenStep (s : TrafoLandscape) (hn : String) : Except Err TrafoLandscape := do
  match lget s.nodes hn with
  | none => throw Err.keyError
  | some hd => do
      if hd.occupancy ≠ 0 then throw Err.assertionError
      pure (s.setActive hn false)

/-- Lines 397-410, body (see the doc comment above). -/
def prunePhase1 (pmin : ℚ) (keep : Option (List String)) :
    List String → TrafoLandscape → ℚ → List String →
    Except Err (TrafoLandscape × List String)
  | [], s, _, acc => pure (s, acc)
  | lm :: rest, s, tot, acc => do
      let isKept ← match keep with
        | none => throw Err.typeError
        | some ks => pure (decide (lm ∈ ks))
      if isKept then prunePhase1 pmin keep rest s tot acc
      else
        let s := s.setPruned lm 0
        let occ := occOf s lm
        if tot + occ > pmin then pure (s, acc)
        else do
          let hns ← match lget s.nodes lm with
            | none => throw Err.keyError
            | some d => match d.hiddennodes with
              | none => throw Err.typeError
              | some hs => pure hs
          let s ← hns.foldlM pruneHiddenStep s
          let s := s.setActive lm false
          prunePhase1 pmin keep rest s (tot + occ) (acc ++ [lm])

/-- `get_active_nbrs` (lines 412-432): walk the coarse edges out of `lm`,
yielding active targets directly and recursing through inactive targets
when no active one was found, with the shared mutable `forbidden` set
threaded through.  The fuel argument bounds the recursion depth; the
caller supplies one more than the node count, which the source's
forbidden-set discipline never exceeds. -/
def get_active_nbrs (s : TrafoLandscape) :
    ℕ → String → List String → Except Err (List String × List String)
  | 0, _, _ => throw .fuelExhausted
  | fuel + 1, lm, forbidden => do
      let forbidden := sinsert forbidden lm
      let (found, direct, remaining) ← s.cg_edges.foldlM
        (fun acc e => do
          let (found, direct, remaining) := acc
          let (x, y) := e.1
          if x = y then throw Err.assertionError
          if x = lm ∧ y ∉ forbidden then
            match lget s.nodes y with
            | none => throw Err.keyError
            | some yd =>
              if yd.active then pure (true, direct ++ [y], remaining)
              else pure (found, direct, remaining ++ [y])
          else pure (found, direct, remaining))
        (false, [], [])
      if found then pure (direct, forbidden)
      else
        remaining.foldlM (fun acc r => do
            let (ys, forbidden) := acc
            match lget s.nodes r with
            | none => throw Err.keyError
            | some rd => do
              if rd.active then throw Err.assertionError
              let (ys2, forbidden2) ← get_active_nbrs s fuel r forbidden
              pure (ys ++ ys2, forbidden2))
          ([], forbidden)

/-- Lines 434-437: set each newly deactivated minimum's `occtransfer` to
the set of active neighbours found through the coarse graph, asserting the
set non-empty. -/
def prunePhase2Step (s : TrafoLandscape) (lm : String) : Except Err TrafoLandscape := do
  match lget s.nodes lm with
  | none => throw Err.keyError
  | some d => do
      if d.active then throw Err.assertionError
      let (ys, _) ← get_active_nbrs s (s.nodes.length + 1) lm []
      let ts := sdedup ys
      if ts.length = 0 then throw Err.assertionError
      pure (s.setOcctransfer lm (some ts))

/-- Lines 434-437, the fold over the newly deactivated minima. -/
def prunePhase2 (s : TrafoLandscape) (newInactive : List String) :
    Except Err TrafoLandscape :=
  newInactive.foldlM prunePhase2Step s

/-- Lines 439-456 for one node key: reset `pruned` on active nodes,
increment it on inactive ones (recording newly pruned nodes), and once it
exceeds `delth`, delete the node together with every fine-grained edge
touching it (recording deleted nodes). -/
def pruneFinalStep (delth : ℤ) (acc : TrafoLandscape × List String × List String)
    (node : String) : Except Err (TrafoLandscape × List String × List String) := do
  let (s, pn, dn) := acc
  match lget s.nodes node with
  | none => throw .keyError
  | some d =>
    if d.active then
      pure (s.setPruned node 0, pn, dn)
    else
      let p2 := d.pruned + 1
      let s := s.setPruned node p2
      let pn := if p2 = 1 then sinsert pn node else pn
      if (p2 : ℤ) > delth then
        let edges2 := s.edges.filter fun e =>
          decide (e.1.1 ≠ node) && decide (e.1.2 ≠ node)
        let nodes2 := ldel s.nodes node
        pure ({ s with edges := edges2, nodes := nodes2 }, pn, sinsert dn node)
      else pure (s, pn, dn)

/-- `prune`: deactivate low-occupancy local minima up to the `pmin` budget,
compute their occupancy-transfer targets through the coarse graph, then age
every inactive node and evict those whose `pruned` counter exceeds `delth`.
Returns the newly pruned and the deleted key sets. -/
def prune (s0 : TrafoLandscape) (pmin : ℚ) (delth : ℤ)
    (keep : Option (List String)) :
    Except Err (TrafoLandscape × List String × List String) := do
  let lms := stSort (fun a b => decide (occOf s0 a ≤ occOf s0 b)) (activeLocalMins s0)
  let (s, newInactive) ← prunePhase1 pmin keep lms s0 0 []
  let s ← prunePhase2 s newInactive
  let keys := s.nodes.map Prod.fst
  keys.foldlM (pruneFinalStep delth) (s, [], [])

/-! ## simulate (landscape.py lines 369-392) -/

/-- `np.isclose(a, b)` at numpy's default tolerances
(`rtol = 1e-05`, `atol = 1e-08`), in exact rational arithmetic. -/
def np_isclose (a b : ℚ) : Bool :=
  decide (|a - b| ≤ 1 / 100000000 + (1 / 100000) * |b|)

/-- `simulate`: assert `sum(p0)` close to 1; for a one-node system emit the
trivial probability-1 samples at `times[0]` (when distinct from the first
forced time) and at every forced time, the last requested time being
appended to the forced times when absent; otherwise hand over to the
external integrator. -/
def simulate (o : Oracles) (s : TrafoLandscape) (snodes : List String)
    (p0 : List ℚ) (times : List ℚ) (force : Option (List ℚ)) (atol rtol : ℚ) :
    Except Err (List (ℚ × List ℚ)) := do
  if ¬ np_isclose p0.sum 1 then throw .assertionError
  if snodes.length = 1 then
    match times with
    | [] => throw .indexError
    | t0 :: ts =>
      let tlast := (t0 :: ts).getLastD 0
      let force2 ← match force with
        | none => pure [tlast]
        | some [] => throw Err.indexError
        | some (f0 :: fs) =>
          pure (if (f0 :: fs).getLastD 0 < tlast then (f0 :: fs) ++ [tlast] else f0 :: fs)
      let headSample := match force2 with
        | [] => []
        | ff :: _ => if t0 ≠ ff then [(t0, [(1 : ℚ)])] else []
      pure (headSample ++ force2.map fun ft => (ft, [(1 : ℚ)]))
  else
    pure (o.mx_simulate s snodes p0 times force atol rtol)

/-! ## The coarse edge weight (stored field recovered from `bar`) -/

/-- The real-valued weight the source stores on a coarse edge record:
`weight = k0 * e**(-bar/RT)` (landscape.py line 327). -/
noncomputable def weightOf (k0 temperature : ℚ) (c : CgEdgeData) : ℝ :=
  (k0 : ℝ) * Real.exp (-((c.bar : ℝ) / (RT temperature : ℝ)))

/-- The weight formula in the words of the specification: an Arrhenius rate
`k0 · exp(−((saddle − energy(source))/100) / RT)` where `RT` is the 37 °C
reference value rescaled linearly in absolute temperature (Kelvin). -/
noncomputable def specWeight (k0 temperature : ℚ) (se ex : ℤ) : ℝ :=
  (k0 : ℝ) *
    Real.exp (-((((se : ℝ) - (ex : ℝ)) / 100) /
      ((0.61632077549999997 * ((273.15 + temperature) / 310.15) : ℚ) : ℝ)))

end TrafoLandscape

/-! ## Lemmas about the association-list primitives -/

theorem lget_append {K V : Type} [DecidableEq K] (l1 l2 : List (K × V)) (k : K) :
    lget (l1 ++ l2) k = match lget l1 k with
      | some v => some v
      | none => lget l2 k := by
  induction l1 with
  | nil => simp [lget]
  | cons p rest ih =>
      obtain ⟨k1, v1⟩ := p
      by_cases h : k1 = k <;> simp [lget, h, ih]

theorem lget_eq_none_iff {K V : Type} [DecidableEq K] (l : List (K × V)) (k : K) :
    lget l k = none ↔ k ∉ l.map Prod.fst := by
  induction l with
  | nil => simp [lget]
  | cons p rest ih =>
      obtain ⟨k1, v1⟩ := p
      by_cases h : k1 = k
      · subst h
        simp [lget]
      · simp only [lget, if_neg h, ih, List.map_cons, List.mem_cons]
        constructor
        · intro hn hc
          rcases hc with hc | hc
          · exact h hc.symm
          · exact hn hc
        · intro hn hc
          exact hn (Or.inr hc)

theorem lget_isSome_iff {K V : Type} [DecidableEq K] (l : List (K × V)) (k : K) :
    (lget l k).isSome = true ↔ k ∈ l.map Prod.fst := by
  rw [← Decidable.not_iff_not, ← lget_eq_none_iff]
  cases lget l k <;> simp

theorem lget_lset_self {K V : Type} [DecidableEq K] (f : V → V) (l : List (K × V)) (k : K) :
    lget (lset f l k) k = (lget l k).map f := by
  induction l with
  | nil => simp [lget, lset]
  | cons p rest ih =>
      obtain ⟨k1, v1⟩ := p
      by_cases h : k1 = k <;> simp [lget, lset, h, ih]

theorem lget_lset_ne {K V : Type} [DecidableEq K] (f : V → V) (l : List (K × V))
    (k k' : K) (h : k' ≠ k) : lget (lset f l k) k' = lget l k' := by
  induction l with
  | nil => simp [lset]
  | cons p rest ih =>
      obtain ⟨k1, v1⟩ := p
      by_cases h1 : k1 = k
      · subst h1
        have h2 : ¬ (k1 = k') := fun hc => h hc.symm
        simp [lget, lset, h2]
      · simp only [lset, if_neg h1, lget]
        rw [ih]

theorem lset_map_fst {K V : Type} [DecidableEq K] (f : V → V) (l : List (K × V)) (k : K) :
    (lset f l k).map Prod.fst = l.map Prod.fst := by
  induction l with
  | nil => simp [lset]
  | cons p rest ih =>
      obtain ⟨k1, v1⟩ := p
      by_cases h : k1 = k <;> simp [lset, h, ih]

theorem ldel_sublist {K V : Type} [DecidableEq K] (l : List (K × V)) (k : K) :
    (ldel l k).Sublist l := by
  induction l with
  | nil => simp [ldel]
  | cons p rest ih =>
      obtain ⟨k1, v1⟩ := p
      by_cases h : k1 = k
      · simp only [ldel, if_pos h]
        exact List.sublist_cons_self _ _
      · simp only [ldel, if_neg h]
        exact ih.cons₂ _

theorem lget_ldel_ne {K V : Type} [DecidableEq K] (l : List (K × V)) (k k' : K)
    (h : k' ≠ k) : lget (ldel l k) k' = lget l k' := by
  induction l with
  | nil => simp [ldel]
  | cons p rest ih =>
      obtain ⟨k1, v1⟩ := p
      by_cases h1 : k1 = k
      · subst h1
        have h2 : ¬ (k1 = k') := fun hc => h hc.symm
        simp [lget, ldel, h2]
      · simp only [ldel, if_neg h1, lget]
        rw [ih]

theorem lget_ldel_self {K V : Type} [DecidableEq K] (l : List (K × V)) (k : K)
    (hnd : (l.map Prod.fst).Nodup) : lget (ldel l k) k = none := by
  induction l with
  | nil => simp [ldel, lget]
  | cons p rest ih =>
      obtain ⟨k1, v1⟩ := p
      simp only [List.map_cons, List.nodup_cons] at hnd
      by_cases h : k1 = k
      · subst h
        simp only [ldel, if_pos rfl]
        rw [lget_eq_none_iff]
        exact hnd.1
      · simp [ldel, lget, h, ih hnd.2]

theorem mem_sinsert {K : Type} [DecidableEq K] (l : List K) (x y : K) :
    y ∈ sinsert l x ↔ y ∈ l ∨ y = x := by
  unfold sinsert
  by_cases h : x ∈ l
  · simp only [if_pos h]
    exact ⟨Or.inl, fun hy => hy.elim id (fun he => he ▸ h)⟩
  · simp [if_neg h]

/-! ## Occupancy-sum lemmas -/

/-- The occupancy sum of a raw node list. -/
def listOcc (l : List (String × NodeData)) : ℚ :=
  (l.map fun kd => kd.2.occupancy).sum

theorem totOcc_eq_listOcc (s : TrafoLandscape) : s.totOcc = listOcc s.nodes := rfl

theorem listOcc_append (l1 l2 : List (String × NodeData)) :
    listOcc (l1 ++ l2) = listOcc l1 + listOcc l2 := by
  simp [listOcc]

theorem listOcc_lset_pres (f : NodeData → NodeData)
    (hf : ∀ d, (f d).occupancy = d.occupancy) (l : List (String × NodeData)) (k : String) :
    listOcc (lset f l k) = listOcc l := by
  induction l with
  | nil => simp [lset]
  | cons p rest ih =>
      obtain ⟨k1, v1⟩ := p
      by_cases h : k1 = k
      · simp [lset, if_pos h, listOcc, hf]
      · simp only [lset, if_neg h, listOcc, List.map_cons, List.sum_cons] at ih ⊢
        rw [ih]

theorem listOcc_lset_add (q : ℚ) (l : List (String × NodeData)) (k : String) (d : NodeData)
    (hd : lget l k = some d) :
    listOcc (lset (fun d => { d with occupancy := d.occupancy + q }) l k) =
      listOcc l + q := by
  induction l with
  | nil => simp [lget] at hd
  | cons p rest ih =>
      obtain ⟨k1, v1⟩ := p
      by_cases h : k1 = k
      · simp only [lset, if_pos h, listOcc, List.map_cons, List.sum_cons]
        ring
      · simp only [lget, if_neg h] at hd
        simp only [lset, if_neg h, listOcc, List.map_cons, List.sum_cons] at ih ⊢
        rw [ih hd]
        ring

theorem listOcc_lset_zero (l : List (String × NodeData)) (k : String) (d : NodeData)
    (hd : lget l k = some d) :
    listOcc (lset (fun d => { d with occupancy := 0 }) l k) =
      listOcc l - d.occupancy := by
  induction l with
  | nil => simp [lget] at hd
  | cons p rest ih =>
      obtain ⟨k1, v1⟩ := p
      by_cases h : k1 = k
      · simp only [lget, if_pos h] at hd
        injection hd with hd
        subst hd
        simp only [lset, if_pos h, listOcc, List.map_cons, List.sum_cons]
        ring
      · simp only [lget, if_neg h] at hd
        simp only [lset, if_neg h, listOcc, List.map_cons, List.sum_cons] at ih ⊢
        rw [ih hd]
        ring

theorem listOcc_ldel (l : List (String × NodeData)) (k : String) (d : NodeData)
    (hd : lget l k = some d) :
    listOcc (ldel l k) = listOcc l - d.occupancy := by
  induction l with
  | nil => simp [lget] at hd
  | cons p rest ih =>
      obtain ⟨k1, v1⟩ := p
      by_cases h : k1 = k
      · simp only [lget, if_pos h] at hd
        injection hd with hd
        subst hd
        simp only [ldel, if_pos h, listOcc, List.map_cons, List.sum_cons]
        ring
      · simp only [lget, if_neg h] at hd
        simp only [ldel, if_neg h, listOcc, List.map_cons, List.sum_cons] at ih ⊢
        rw [ih hd]
        ring

/-! ## Reduction lemmas for the error monad -/

theorem exBind_ok {ε α β : Type} (a : α) (f : α → Except ε β) :
    (Except.ok a : Except ε α) >>= f = f a := rfl

theorem exBind_error {ε α β : Type} (e : ε) (f : α → Except ε β) :
    (Except.error e : Except ε α) >>= f = Except.error e := rfl

theorem exPure {ε α : Type} (a : α) : (pure a : Except ε α) = Except.ok a := rfl

theorem exMap_ok {ε α β : Type} (a : α) (f : α → β) :
    (Except.ok a : Except ε α).map f = Except.ok (f a) := rfl

theorem exMap_error {ε α β : Type} (e : ε) (f : α → β) :
    (Except.error e : Except ε α).map f = Except.error e := rfl

/-! ## Concrete fixtures used by witnesses and counterexamples -/

open TrafoLandscape

/-- Trivial collaborator instantiation: every collaborator returns the
empty or constant answer.  Its coarse-graining mapping is always empty,
hence trivially a partition. -/
def trivO : Oracles :=
  { mfe := fun _ => "x", eval_structure := fun _ => 0,
    fraying := fun _ _ => [], guide := fun _ _ => ([], []),
    flooding := fun _ _ _ _ _ _ => ([], []),
    coarse := fun _ _ _ => ([], [], []),
    mx_simulate := fun _ _ _ _ _ _ _ => [] }

/-- A freshly initialised empty landscape over a 2-symbol sequence. -/
def emptyTL : TrafoLandscape :=
  { sequence := "AA", temperature := 37, prefixStr := "", nodeID := 0,
    nodes := [], edges := [], cg_edges := [],
    k0 := 200000, minh := 0, fpwm := 0, mfree := 6, transcript_length := 0 }

/-- A local-minimum node record with the given occupancy (post
coarse-graining shape: both partition sets present and empty). -/
def lmNode (occ : ℚ) : NodeData :=
  { structure_ := none, occupancy := occ, identity := "i", energy := some 0,
    active := true, pruned := 0, lminreps := some [], hiddennodes := some [],
    occtransfer := none }

/-- The two-minimum landscape of spec Scenario B: active local minima
A (occupancy 0.7) and B (occupancy 0.3) joined by coarse edges. -/
def sAB : TrafoLandscape :=
  { sequence := "AA", temperature := 37, prefixStr := "", nodeID := 2,
    nodes := [("A", lmNode (7/10)), ("B", lmNode (3/10))],
    edges := [],
    cg_edges := [(("A", "B"), { saddle_energy := 0, bar := 0 }),
                 (("B", "A"), { saddle_energy := 0, bar := 0 })],
    k0 := 200000, minh := 0, fpwm := 0, mfree := 6, transcript_length := 2 }

/-- The landscape state after `prune(pmin=0.3, delth=10, keep=set())`
on `sAB`. -/
def c2run : Except Err TrafoLandscape :=
  (prune sAB (3/10) 10 (some [])).map (fun r => r.1)

/-- Collaborator instantiation for the Scenario B continuation: the
coarse-graining partition returns the single remaining representative A. -/
def c2O : Oracles :=
  { trivO with coarse := fun _ _ _ => ([("A", 0)], [], []) }

/-- The landscape state after the `get_coarse_network` call following the
Scenario B `prune` call. -/
def c2cg : Except Err TrafoLandscape := do
  let s1 ← c2run
  let (s2, _) ← get_coarse_network c2O s1
  pure s2

/-! ## C7 -/

/-- C7: for every pair of structure keys with no fine-grained edge,
`get_rate` returns the zero sentinel and `get_saddle` returns the absent
sentinel; neither lookup can fault, irrespective of whether the keys are
nodes of the graph. -/
theorem c7_lookup_sentinels (s : TrafoLandscape) (s1 s2 : String)
    (h : s.has_edge s1 s2 = false) :
    s.get_rate s1 s2 = some 0 ∧ s.get_saddle s1 s2 = none := by
  unfold TrafoLandscape.has_edge at h
  unfold TrafoLandscape.get_rate TrafoLandscape.get_saddle
  cases hE : lget s.edges (s1, s2) with
  | none => simp
  | some e =>
      rw [hE] at h
      simp at h

/-- Witness for C7 at a concrete landscape and a non-edge key pair whose
keys are not even nodes. -/
theorem c7_lookup_sentinels_witness :
    sAB.has_edge "Q" "R" = false ∧
      (sAB.get_rate "Q" "R" = some 0 ∧ sAB.get_saddle "Q" "R" = none) :=
  ⟨by decide, c7_lookup_sentinels sAB "Q" "R" (by decide)⟩

/-! ## C4 -/

/-- C4: every `simulate` call whose initial probability vector does not sum
to approximately 1 (numpy `isclose` tolerances) returns the precondition
fault and produces no samples, on both the single-node fast path and the
integrator path. -/
theorem c4_simulate_precondition (o : Oracles) (s : TrafoLandscape)
    (snodes : List String) (p0 times : List ℚ) (force : Option (List ℚ))
    (atol rtol : ℚ) (h : np_isclose p0.sum 1 = false) :
    simulate o s snodes p0 times force atol rtol = .error .assertionError := by
  unfold TrafoLandscape.simulate
  simp [h]
  rfl

/-- The isclose check really rejects 0.99. -/
theorem isclose99 : np_isclose ([(99 : ℚ)/100].sum) 1 = false := by
  simp only [List.sum_cons, List.sum_nil, add_zero, np_isclose,
    decide_eq_false_iff_not, abs_le, not_and, not_le]
  norm_num

/-- Witness for C4: `p0 = [0.99]` (spec Scenario C). -/
theorem c4_simulate_precondition_witness :
    np_isclose ([(99 : ℚ)/100].sum) 1 = false ∧
      simulate trivO sAB ["A"] [(99 : ℚ)/100] [0, 1, 2] none (1/10000) (1/10000) =
        .error .assertionError :=
  ⟨isclose99,
   c4_simulate_precondition trivO sAB ["A"] [(99 : ℚ)/100] [0, 1, 2] none
     (1/10000) (1/10000) isclose99⟩

/-! ## C2 -/

/-- The node record of B after the Scenario B `prune` call: deactivated,
aged once, transfer target recorded, occupancy still in place. -/
def sBpruned : NodeData :=
  { structure_ := none, occupancy := 3/10, identity := "i", energy := some 0,
    active := false, pruned := 1, lminreps := some [], hiddennodes := some [],
    occtransfer := some ["A"] }

/-- The landscape after the Scenario B `prune` call. -/
def sABfinal : TrafoLandscape :=
  { sAB with nodes := [("A", lmNode (7/10)), ("B", sBpruned)] }

/-- B deactivated (phase 1 of the Scenario B `prune` call). -/
def sABd : TrafoLandscape :=
  { sAB with nodes := [("A", lmNode (7/10)),
                       ("B", { lmNode (3/10) with active := false })] }

/-- The B node record after phase 2: deactivated, transfer target recorded. -/
def sBe : NodeData :=
  { lmNode (3/10) with active := false, occtransfer := some ["A"] }

/-- B deactivated with its transfer target recorded (phase 2). -/
def sABe : TrafoLandscape :=
  { sAB with nodes := [("A", lmNode (7/10)), ("B", sBe)] }

/-- Evaluation of the Scenario B `prune` call. -/
theorem c2prune_eval : prune sAB (3/10) 10 (some []) = .ok (sABfinal, ["B"], []) := by
  simp only [prune]
  rw [show stSort (fun a b => decide (occOf sAB a ≤ occOf sAB b)) (activeLocalMins sAB)
        = ["B", "A"] from by
    simp [stSort, stInsert, activeLocalMins, sAB, lmNode, truthyL, occOf, lget, sinsert]
    norm_num]
  rw [show prunePhase1 (3/10) (some []) ["B", "A"] sAB 0 [] = .ok (sABd, ["B"]) from by
    simp [prunePhase1, pruneHiddenStep, sAB, sABd, lmNode, occOf, lget, lset,
      setPruned, setActive, truthyL, exPure, exBind_ok]]
  rw [exBind_ok]
  rw [show prunePhase2 sABd ["B"] = .ok sABe from by
    simp [prunePhase2, prunePhase2Step, get_active_nbrs, sABd, sABe, sBe, sAB,
      lmNode, lget, lset, setOcctransfer, sinsert, sdedup, exPure, exBind_ok]]
  rw [exBind_ok]
  simp [pruneFinalStep, sABe, sBe, sABfinal, sBpruned, sAB, lmNode, lget, lset, setPruned,
    exPure, exBind_ok, sinsert]

/-- C2 counterexample: on the exact Scenario B landscape, the single call
`prune(pmin=0.3, delth=10, keep=set())` does deactivate B with `pruned = 1`,
but it does not transfer B's occupancy: A still holds 0.7 (not 1.0) and B
still holds 0.3 when the call returns. -/
theorem c2_prune_transfer_cex :
    c2run = .ok sABfinal ∧
      occOf sABfinal "A" = 7/10 ∧ ¬ occOf sABfinal "A" = 1 ∧
      occOf sABfinal "B" = 3/10 := by
  refine ⟨?_, ?_, ?_, ?_⟩
  · simp only [c2run, c2prune_eval, exMap_ok]
  · simp [occOf, sABfinal, sAB, lmNode, lget]
  · simp [occOf, sABfinal, sAB, lmNode, lget]
    norm_num
  · simp [occOf, sABfinal, sBpruned, sAB, lmNode, lget]

/-- B's record after the stranded-occupancy transfer of the following
`get_coarse_network` call. -/
def sB0 : NodeData := { sBpruned with occupancy := 0 }

/-- State after the transfer loop of `get_coarse_network` on `sABfinal`. -/
def sCG1 : TrafoLandscape :=
  { sAB with nodes := [("A", lmNode 1), ("B", sB0)] }

/-- State returned by `get_coarse_network` on `sABfinal` (coarse edges are
rebuilt from the collaborator output, here the single representative A). -/
def sABcg : TrafoLandscape :=
  { sAB with nodes := [("A", lmNode 1), ("B", sB0)], cg_edges := [] }

/-- Evaluation of the `get_coarse_network` call that follows the Scenario B
`prune` call: it is this call, not `prune`, that moves B's 0.3 onto A. -/
theorem c2cg_eval : get_coarse_network c2O sABfinal = .ok (sABcg, 1, 0) := by
  simp only [get_coarse_network]
  rw [show cgPhase1 sABfinal = .ok sCG1 from by
    simp [cgPhase1, cgTransferStep, cgTransferTo, sABfinal, sCG1, sBpruned, sB0,
      sAB, lmNode, occOf, lget, lset, setLminreps, setHiddennodes, setOcc, addOcc,
      exPure, exBind_ok, exBind_error]
    norm_num]
  rw [exBind_ok]
  rw [show cgActiveEdges sCG1 = .ok [] from by
    simp [cgActiveEdges, sCG1, sAB, sB0, sBpruned, lmNode, exPure, exBind_ok]]
  rw [exBind_ok]
  simp [c2O, trivO, buildCgEdges, cgMapStep, cgMapHiddenStep, cgHiddenIter,
    hiddenNodes, sCG1, sABcg, sB0, sBpruned, sAB, lmNode, truthyL, lget,
    exPure, exBind_ok]

/-- C2 amended: the single `prune(pmin=0.3, delth=10, keep=set())` call on
the Scenario B landscape deactivates B with `pruned = 1` and records A as
B's occupancy-transfer target, but leaves both occupancies unchanged
(A at 0.7, B at 0.3); the 0.3 moves to A (making A's occupancy 1.0 and B's
0) only at the next `get_coarse_network` call. -/
theorem c2_prune_transfer_amended :
    prune sAB (3/10) 10 (some []) = .ok (sABfinal, ["B"], []) ∧
    lget sABfinal.nodes "B" = some sBpruned ∧
    sBpruned.active = false ∧ sBpruned.pruned = 1 ∧
    sBpruned.occtransfer = some ["A"] ∧ sBpruned.occupancy = 3/10 ∧
    occOf sABfinal "A" = 7/10 ∧
    get_coarse_network c2O sABfinal = .ok (sABcg, 1, 0) ∧
    occOf sABcg "A" = 1 ∧ occOf sABcg "B" = 0 := by
  refine ⟨c2prune_eval, ?_, rfl, rfl, rfl, rfl, ?_, c2cg_eval, ?_, ?_⟩
  · simp [sABfinal, sAB, lmNode, lget]
  · simp [occOf, sABfinal, sAB, lmNode, lget]
  · simp [occOf, sABcg, sAB, lmNode, lget]
  · simp [occOf, sABcg, sB0, sBpruned, sAB, lmNode, lget]

/-! ## C3 -/

/-- The isclose check accepts an exact 1. -/
theorem isclose_one : np_isclose ([(1 : ℚ)].sum) 1 = true := by
  simp only [List.sum_cons, List.sum_nil, add_zero, np_isclose,
    decide_eq_true_eq, abs_le]
  norm_num

/-- A single-node `simulate` call requesting times 0, 1 and 2. -/
def c3run : Except Err (List (ℚ × List ℚ)) :=
  simulate trivO sAB ["A"] [1] [0, 1, 2] none (1/10000) (1/10000)

/-- C3 counterexample: a single-node `simulate` call with `p0` summing to 1
and requested times `[0, 1, 2]` produces samples at times 0 and 2 only;
the requested time 1 never appears in the output, so the output does not
contain a sample at each requested time. -/
theorem c3_single_node_times_cex :
    c3run = .ok [((0 : ℚ), [(1 : ℚ)]), (2, [1])] ∧
      (1 : ℚ) ∈ ([0, 1, 2] : List ℚ) ∧
      (1 : ℚ) ∉ ([((0 : ℚ), [(1 : ℚ)]), (2, [1])].map Prod.fst) := by
  refine ⟨?_, by norm_num, by norm_num⟩
  unfold c3run TrafoLandscape.simulate
  rw [isclose_one]
  norm_num [exPure, exBind_ok]

/-- C3 amended: for a single-node `simulate` call with `p0` summing to
approximately 1 and the default `force = None`, every produced sample
carries probability vector `[1]`, and the samples are exactly one at
`times[0]` and one at `times[-1]` (merged into one when the two coincide);
intermediate requested times are not sampled. -/
theorem c3_single_node_times_amended (o : Oracles) (s : TrafoLandscape)
    (n : String) (p0 : List ℚ) (t0 : ℚ) (ts : List ℚ) (atol rtol : ℚ)
    (hp : np_isclose p0.sum 1 = true) :
    simulate o s [n] p0 (t0 :: ts) none atol rtol =
      .ok (if t0 = (t0 :: ts).getLastD 0
           then [((t0 :: ts).getLastD 0, [(1 : ℚ)])]
           else [(t0, [(1 : ℚ)]), ((t0 :: ts).getLastD 0, [1])]) := by
  unfold TrafoLandscape.simulate
  rw [hp]
  simp only [Bool.not_true, List.length_singleton, exPure, exBind_ok, if_false,
    Bool.false_eq_true, reduceIte]
  rw [if_neg (by simp)]
  by_cases ht : t0 = (t0 :: ts).getLastD 0
  · rw [if_neg (not_not_intro ht), if_pos ht]
    simp
  · rw [if_pos ht, if_neg ht]
    simp

/-- Witness for C3 amended at requested times 5 and 7. -/
theorem c3_single_node_times_amended_witness :
    np_isclose ([(1 : ℚ)].sum) 1 = true ∧
      simulate trivO sAB ["A"] [1] [5, 7] none 0 0 =
        .ok (if (5 : ℚ) = ((5 : ℚ) :: [7]).getLastD 0
             then [(((5 : ℚ) :: [7]).getLastD 0, [(1 : ℚ)])]
             else [((5 : ℚ), [(1 : ℚ)]), (((5 : ℚ) :: [7]).getLastD 0, [1])]) :=
  ⟨isclose_one,
   c3_single_node_times_amended trivO sAB "A" [1] 5 [7] 0 0 isclose_one⟩

/-! ## C9 -/

/-- The node record the bootstrap `expand` creates: the padded mfe
structure with occupancy 1, active, with the autogenerated identity. -/
def bootstrapNode (o : Oracles) (s0 : TrafoLandscape) (key : String) : NodeData :=
  { structure_ := some key, occupancy := 1,
    identity := s0.prefixStr ++ toString s0.nodeID,
    energy := some (o.eval_structure key), active := true, pruned := 0,
    lminreps := none, hiddennodes := none, occtransfer := none }

/-- The landscape the bootstrap `expand` returns. -/
def bootstrapState (o : Oracles) (s0 : TrafoLandscape) (key : String) :
    TrafoLandscape :=
  { s0 with transcript_length := 1, nodeID := s0.nodeID + 1,
            nodes := [(key, bootstrapNode o s0 key)] }

/-- C9: on an empty landscape (no nodes, transcript cursor at 0, non-empty
sequence), a single `expand()` call creates exactly one node, keyed by the
one-symbol-transcript mfe structure padded with placeholder dots to the
full sequence length, with occupancy 1 and active status, leaves the edge
set unchanged, and returns that node as the only new node together with an
empty set of reactivated nodes. -/
theorem c9_bootstrap_expand (o : Oracles) (s0 : TrafoLandscape) (key : String)
    (hn : s0.nodes = []) (htl : s0.transcript_length = 0)
    (hlen : 1 ≤ s0.sequence.length)
    (hkey : key = o.mfe 1 ++ String.mk (List.replicate (s0.sequence.length - 1) '.')) :
    expand o s0 = .ok (bootstrapState o s0 key, [key], []) ∧
      (bootstrapState o s0 key).nodes =
        [(key, bootstrapNode o s0 key)] ∧
      (bootstrapNode o s0 key).occupancy = 1 ∧
      (bootstrapNode o s0 key).active = true ∧
      (bootstrapState o s0 key).edges = s0.edges := by
  refine ⟨?_, rfl, rfl, rfl, rfl⟩
  unfold TrafoLandscape.expand
  rw [htl, hn]
  simp only [zero_add, Nat.min_eq_left hlen, List.isEmpty_nil, if_true, reduceIte]
  unfold TrafoLandscape.addnode
  simp [lget, hkey, bootstrapState, bootstrapNode, exPure, exBind_ok]

/-- Witness for C9 at the concrete empty landscape over the sequence AA. -/
theorem c9_bootstrap_expand_witness :
    emptyTL.nodes = [] ∧ emptyTL.transcript_length = 0 ∧
      1 ≤ emptyTL.sequence.length ∧
      (expand trivO emptyTL =
          .ok (bootstrapState trivO emptyTL "x.", ["x."], []) ∧
        (bootstrapState trivO emptyTL "x.").nodes =
          [("x.", bootstrapNode trivO emptyTL "x.")] ∧
        (bootstrapNode trivO emptyTL "x.").occupancy = 1 ∧
        (bootstrapNode trivO emptyTL "x.").active = true ∧
        (bootstrapState trivO emptyTL "x.").edges = emptyTL.edges) :=
  ⟨rfl, rfl, by decide,
   c9_bootstrap_expand trivO emptyTL "x." rfl rfl (by decide) (by decide)⟩

/-! ## C10 -/

theorem exThrow {ε α : Type} (e : ε) : (throw e : Except ε α) = Except.error e := rfl

theorem stInsert_ne_nil {α : Type} (le : α → α → Bool) (x : α) (l : List α) :
    stInsert le x l ≠ [] := by
  cases l with
  | nil => simp [stInsert]
  | cons y ys =>
      simp only [stInsert]
      split <;> simp

theorem stSort_foldl_ne_nil {α : Type} (le : α → α → Bool) :
    ∀ (l acc : List α), acc ≠ [] →
      List.foldl (fun acc x => stInsert le x acc) acc l ≠ [] := by
  intro l
  induction l with
  | nil =>
      intro acc h
      simpa using h
  | cons x xs ih =>
      intro acc h
      rw [List.foldl_cons]
      exact ih _ (stInsert_ne_nil le x acc)

theorem stSort_ne_nil {α : Type} (le : α → α → Bool) (l : List α) (h : l ≠ []) :
    stSort le l ≠ [] := by
  cases l with
  | nil => exact absurd rfl h
  | cons x xs =>
      unfold stSort
      rw [List.foldl_cons]
      exact stSort_foldl_ne_nil le xs _ (stInsert_ne_nil le x [])

theorem lget_lset_isSome {K V : Type} [DecidableEq K] (f : V → V) (l : List (K × V))
    (k k' : K) : (lget (lset f l k) k').isSome = (lget l k').isSome := by
  by_cases h : k' = k
  · subst h
    rw [lget_lset_self]
    cases lget l k' <;> simp
  · rw [lget_lset_ne f l k k' h]

/-- The ageing/eviction loop of `prune` (lines 439-456) cannot fault when
every visited key is present and the keys are distinct. -/
theorem pruneFinal_fold_ok (delth : ℤ) :
    ∀ (keys : List String) (s : TrafoLandscape) (pn dn : List String),
      (∀ k ∈ keys, (lget s.nodes k).isSome = true) → keys.Nodup →
      ∃ r, List.foldlM (TrafoLandscape.pruneFinalStep delth) (s, pn, dn) keys =
        .ok r := by
  intro keys
  induction keys with
  | nil =>
      intro s pn dn _ _
      exact ⟨(s, pn, dn), rfl⟩
  | cons k ks ih =>
      intro s pn dn hall hnd
      have hk : (lget s.nodes k).isSome = true := hall k (List.mem_cons_self k ks)
      obtain ⟨d, hd⟩ := Option.isSome_iff_exists.mp hk
      have hkn : k ∉ ks := (List.nodup_cons.mp hnd).1
      have hnd2 : ks.Nodup := (List.nodup_cons.mp hnd).2
      rw [List.foldlM_cons]
      simp only [TrafoLandscape.pruneFinalStep, hd]
      by_cases hact : d.active = true
      · rw [if_pos hact]
        have hall2 : ∀ k' ∈ ks, (lget (s.setPruned k 0).nodes k').isSome = true := by
          intro k' hk'
          rw [TrafoLandscape.setPruned, lget_lset_isSome]
          exact hall k' (List.mem_cons_of_mem k hk')
        obtain ⟨r, hr⟩ := ih (s.setPruned k 0) pn dn hall2 hnd2
        exact ⟨r, by rw [exPure, exBind_ok, hr]⟩
      · rw [if_neg hact]
        by_cases hdel : ((d.pruned + 1 : ℕ) : ℤ) > delth
        · rw [if_pos hdel]
          set s1 := (s.setPruned k (d.pruned + 1)) with hs1
          have hall2 : ∀ k' ∈ ks,
              (lget (ldel s1.nodes k) k').isSome = true := by
            intro k' hk'
            have hne : k' ≠ k := fun hc => hkn (hc ▸ hk')
            rw [lget_ldel_ne _ _ _ hne, hs1, TrafoLandscape.setPruned, lget_lset_isSome]
            exact hall k' (List.mem_cons_of_mem k hk')
          obtain ⟨r, hr⟩ := ih
            { s1 with
              edges := s1.edges.filter fun e => decide (e.1.1 ≠ k) && decide (e.1.2 ≠ k),
              nodes := ldel s1.nodes k }
            (if d.pruned + 1 = 1 then sinsert pn k else pn) (sinsert dn k) hall2 hnd2
          exact ⟨r, by rw [exPure, exBind_ok, hr]⟩
        · rw [if_neg hdel]
          have hall2 : ∀ k' ∈ ks,
              (lget (s.setPruned k (d.pruned + 1)).nodes k').isSome = true := by
            intro k' hk'
            rw [TrafoLandscape.setPruned, lget_lset_isSome]
            exact hall k' (List.mem_cons_of_mem k hk')
          obtain ⟨r, hr⟩ := ih (s.setPruned k (d.pruned + 1))
            (if d.pruned + 1 = 1 then sinsert pn k else pn) dn hall2 hnd2
          exact ⟨r, by rw [exPure, exBind_ok, hr]⟩

/-- C10: whenever the landscape has at least one active local minimum,
calling `prune` with the `keep` argument left at its default `None` fails
with a type fault at the membership test of the first visited minimum;
with no active local minima at all the same call runs to completion. -/
theorem c10_prune_keep_default (s : TrafoLandscape) (pmin : ℚ) (delth : ℤ) :
    (activeLocalMins s ≠ [] → prune s pmin delth none = .error .typeError) ∧
    ((s.nodes.map Prod.fst).Nodup → activeLocalMins s = [] →
      ∃ r, prune s pmin delth none = .ok r) := by
  constructor
  · intro hne
    have hsne := stSort_ne_nil (fun a b => decide (occOf s a ≤ occOf s b)) _ hne
    obtain ⟨lm, rest, heq⟩ := List.exists_cons_of_ne_nil hsne
    simp only [TrafoLandscape.prune, heq]
    rw [show TrafoLandscape.prunePhase1 pmin none (lm :: rest) s 0 [] =
          .error .typeError from by
      simp [TrafoLandscape.prunePhase1, exThrow, exBind_error]]
    rw [exBind_error]
  · intro hnd hempty
    simp only [TrafoLandscape.prune, hempty]
    rw [show stSort (fun a b => decide (occOf s a ≤ occOf s b)) [] = [] from rfl]
    rw [show TrafoLandscape.prunePhase1 pmin none [] s 0 [] = .ok (s, []) from rfl]
    rw [exBind_ok]
    rw [show TrafoLandscape.prunePhase2 s [] = .ok s from rfl]
    rw [exBind_ok]
    have hall : ∀ k ∈ s.nodes.map Prod.fst, (lget s.nodes k).isSome = true := by
      intro k hk
      rw [lget_isSome_iff]
      exact hk
    exact pruneFinal_fold_ok delth (s.nodes.map Prod.fst) s [] [] hall hnd

/-- A landscape whose only node is inactive (no active local minima). -/
def sInact : TrafoLandscape :=
  { sAB with nodes := [("N", { lmNode 0 with active := false })] }

/-- Witness for C10: on `sAB` (two active minima) the `keep`-omitted call
faults; on `sInact` (no active minima) it completes. -/
theorem c10_prune_keep_default_witness :
    activeLocalMins sAB ≠ [] ∧ prune sAB 1 1 none = .error .typeError ∧
      (sInact.nodes.map Prod.fst).Nodup ∧ activeLocalMins sInact = [] ∧
      (∃ r, prune sInact 1 1 none = .ok r) :=
  ⟨by simp [activeLocalMins, sAB, lmNode, truthyL],
   (c10_prune_keep_default sAB 1 1).1
     (by simp [activeLocalMins, sAB, lmNode, truthyL]),
   by simp [sInact, sAB, lmNode],
   by simp [activeLocalMins, sInact, sAB, lmNode, truthyL],
   (c10_prune_keep_default sInact 1 1).2
     (by simp [sInact, sAB, lmNode])
     (by simp [activeLocalMins, sInact, sAB, lmNode, truthyL])⟩

/-! ## C8 -/

theorem lget_dinsert {K V : Type} [DecidableEq K] (l : List (K × V)) (k k' : K) (v : V) :
    lget (dinsert l k v) k' = if k' = k then some v else lget l k' := by
  unfold dinsert
  by_cases hp : (lget l k).isSome = true
  · obtain ⟨w, hw⟩ := Option.isSome_iff_exists.mp hp
    rw [if_pos hp]
    by_cases h : k' = k
    · subst h
      rw [lget_lset_self, hw, if_pos rfl]
      rfl
    · rw [lget_lset_ne _ _ _ _ h, if_neg h]
  · rw [if_neg hp]
    rw [lget_append]
    by_cases h : k' = k
    · subst h
      have : lget l k' = none := by
        cases hl : lget l k'
        · rfl
        · rw [hl] at hp
          simp at hp
      rw [this, if_pos rfl]
      simp [lget]
    · rw [if_neg h]
      cases hl : lget l k'
      · have hne : ¬ (k = k') := fun hc => h hc.symm
        simp [lget, hne]
      · rfl

/-- Every edge record produced by the coarse-edge construction loop carries
the Arrhenius exponent computed from its own saddle energy and the source
representative's energy in the collaborator data. -/
theorem buildCgEdges_mem (cgn : List (String × ℤ)) :
    ∀ (cge : List ((String × String) × ℤ))
      (acc l : List ((String × String) × CgEdgeData)),
      TrafoLandscape.buildCgEdges cgn cge acc = .ok l →
      (∀ xy c, lget acc xy = some c → ∃ ex : ℤ, lget cgn xy.1 = some ex ∧
          c.bar = ((c.saddle_energy : ℚ) - (ex : ℚ)) / 100) →
      ∀ xy c, lget l xy = some c → ∃ ex : ℤ, lget cgn xy.1 = some ex ∧
          c.bar = ((c.saddle_energy : ℚ) - (ex : ℚ)) / 100 := by
  intro cge
  induction cge with
  | nil =>
      intro acc l hok hacc
      injection hok with hok
      exact hok ▸ hacc
  | cons e rest ih =>
      intro acc l hok hacc
      unfold TrafoLandscape.buildCgEdges at hok
      cases hex : lget cgn e.1.1 with
      | none =>
          rw [hex] at hok
          exact absurd hok (by simp [exThrow])
      | some ex =>
          rw [hex] at hok
          refine ih _ l hok ?_
          intro xy c hxy
          rw [lget_dinsert] at hxy
          by_cases h : xy = e.1
          · rw [if_pos h] at hxy
            injection hxy with hxy
            subst hxy
            exact ⟨ex, h ▸ hex, rfl⟩
          · rw [if_neg h] at hxy
            exact hacc xy c hxy

/-- Generic preservation of a state projection along a monadic fold. -/
theorem foldlM_proj_pres {σ α β : Type} (proj : σ → β)
    (f : σ → α → Except Err σ)
    (hf : ∀ s a s', f s a = .ok s' → proj s' = proj s) :
    ∀ (l : List α) (s s' : σ),
      List.foldlM f s l = .ok s' → proj s' = proj s := by
  intro l
  induction l with
  | nil =>
      intro s s' h
      injection h with h
      rw [h]
  | cons a as ih =>
      intro s s' h
      rw [List.foldlM_cons] at h
      cases hfa : f s a with
      | error e =>
          rw [hfa, exBind_error] at h
          exact absurd h (by simp)
      | ok s1 =>
          rw [hfa, exBind_ok] at h
          rw [ih s1 s' h, hf s a s1 hfa]


/-- Generic invariant propagation along a monadic fold, with membership of
the visited element available to the step lemma. -/
theorem foldlM_inv_mem {σ α : Type} (f : σ → α → Except Err σ) (P : σ → Prop) :
    ∀ (l : List α),
      (∀ s a s', a ∈ l → P s → f s a = .ok s' → P s') →
      ∀ (s s' : σ), P s → List.foldlM f s l = .ok s' → P s' := by
  intro l
  induction l with
  | nil =>
      intro _ s s' hp h
      injection h with h
      rw [← h]
      exact hp
  | cons a as ih =>
      intro hf s s' hp h
      rw [List.foldlM_cons] at h
      cases hfa : f s a with
      | error e =>
          rw [hfa, exBind_error] at h
          exact absurd h (by simp)
      | ok s1 =>
          rw [hfa, exBind_ok] at h
          exact ih (fun s a s' ha => hf s a s' (List.mem_cons_of_mem _ ha))
            s1 s' (hf s a s1 (List.mem_cons_self a as) hp hfa) h

/-- Generic invariant propagation along a monadic fold, indexed by the
remaining work list. -/
theorem foldlM_inv_rem {σ α : Type} (f : σ → α → Except Err σ)
    (Q : σ → List α → Prop)
    (hf : ∀ s a s' rest, Q s (a :: rest) → f s a = .ok s' → Q s' rest) :
    ∀ (l : List α) (s s' : σ), Q s l → List.foldlM f s l = .ok s' → Q s' [] := by
  intro l
  induction l with
  | nil =>
      intro s s' hq h
      injection h with h
      rw [← h]
      exact hq
  | cons a as ih =>
      intro s s' hq h
      rw [List.foldlM_cons] at h
      cases hfa : f s a with
      | error e =>
          rw [hfa, exBind_error] at h
          exact absurd h (by simp)
      | ok s1 =>
          rw [hfa, exBind_ok] at h
          exact ih s1 s' (hf s a s1 as hq hfa) h

/-- The scalar/coarse-edge projection used by the frame lemmas. -/
def cgFrame (s : TrafoLandscape) :
    List ((String × String) × CgEdgeData) × ℚ × ℚ :=
  (s.cg_edges, s.k0, s.temperature)

theorem cgFrame_setLminreps (s : TrafoLandscape) (k : String) (t : Option (List String)) :
    cgFrame (s.setLminreps k t) = cgFrame s := rfl

/-- `cgMapHiddenStep` only rewrites node attributes. -/
theorem cgMapHiddenStep_frame (lmin : String) (s : TrafoLandscape) (hn : String)
    (s' : TrafoLandscape) (h : TrafoLandscape.cgMapHiddenStep lmin s hn = .ok s') :
    cgFrame s' = cgFrame s := by
  unfold TrafoLandscape.cgMapHiddenStep at h
  cases htl : lget s.nodes hn with
  | none =>
      rw [htl] at h
      exact absurd h (by simp [exThrow])
  | some hd =>
      simp only [htl] at h
      by_cases hha : ¬ hd.active = true
      · rw [if_pos hha] at h
        exact absurd h (by simp [exThrow, exBind_error])
      · rw [if_neg hha] at h
        simp only [exPure, exBind_ok] at h
        cases hrep : hd.lminreps with
        | none =>
            simp only [hrep] at h
            exact absurd h (by simp [exThrow])
        | some l =>
            simp only [hrep, exPure] at h
            injection h with h
            rw [← h]
            rfl

/-- `cgMapStep` only rewrites node attributes. -/
theorem cgMapStep_frame (s : TrafoLandscape) (p : String × List String)
    (s' : TrafoLandscape) (h : TrafoLandscape.cgMapStep s p = .ok s') :
    cgFrame s' = cgFrame s := by
  unfold TrafoLandscape.cgMapStep at h
  cases hl : lget s.nodes p.1 with
  | none =>
      rw [hl] at h
      exact absurd h (by simp [exThrow])
  | some d =>
      simp only [hl] at h
      by_cases hact : ¬ d.active = true
      · rw [if_pos hact] at h
        exact absurd h (by simp [exThrow, exBind_error])
      · rw [if_neg hact] at h
        simp only [exPure, exBind_ok] at h
        cases hfold : List.foldlM (TrafoLandscape.cgMapHiddenStep p.1) s p.2 with
        | error e =>
            rw [hfold, exBind_error] at h
            exact absurd h (by simp)
        | ok s1 =>
            rw [hfold, exBind_ok] at h
            injection h with h
            rw [← h]
            exact foldlM_proj_pres cgFrame _
              (fun t a t' ht => cgMapHiddenStep_frame p.1 t a t' ht) p.2 s s1 hfold

theorem cgTransferTo_frame (n : String) (len : ℕ) (s : TrafoLandscape) (tn : String)
    (s' : TrafoLandscape) (h : TrafoLandscape.cgTransferTo n len s tn = .ok s') :
    cgFrame s' = cgFrame s := by
  unfold TrafoLandscape.cgTransferTo at h
  cases htl : lget s.nodes tn with
  | none =>
      rw [htl] at h
      exact absurd h (by simp [exThrow])
  | some td =>
      simp only [htl] at h
      by_cases hta : ¬ td.active = true
      · rw [if_pos hta] at h
        exact absurd h (by simp [exThrow, exBind_error])
      · rw [if_neg hta] at h
        simp only [exPure, exBind_ok] at h
        injection h with h
        rw [← h]
        rfl

theorem cgTransferStep_frame (s : TrafoLandscape) (n : String)
    (s' : TrafoLandscape) (h : TrafoLandscape.cgTransferStep s n = .ok s') :
    cgFrame s' = cgFrame s := by
  simp only [TrafoLandscape.cgTransferStep] at h
  cases hl : lget ((s.setLminreps n (some [])).setHiddennodes n (some [])).nodes n with
  | none =>
      rw [hl] at h
      exact absurd h (by simp [exThrow])
  | some d =>
      simp only [hl] at h
      by_cases hc : (¬ d.active = true ∧ ¬ d.occupancy = 0)
      · rw [if_pos hc] at h
        cases hot : d.occtransfer with
        | none =>
            simp only [hot] at h
            exact absurd h (by simp [exThrow])
        | some ts =>
            simp only [hot] at h
            cases hfold : List.foldlM (TrafoLandscape.cgTransferTo n ts.length)
                ((s.setLminreps n (some [])).setHiddennodes n (some [])) ts with
            | error e =>
                rw [hfold, exBind_error] at h
                exact absurd h (by simp)
            | ok s1 =>
                rw [hfold, exBind_ok] at h
                injection h with h
                rw [← h]
                have h1 := foldlM_proj_pres cgFrame _
                  (fun t a t' ht => cgTransferTo_frame n ts.length t a t' ht) ts _ s1 hfold
                rw [show cgFrame (s1.setOcc n 0) = cgFrame s1 from rfl, h1]
                rfl
      · rw [if_neg hc] at h
        injection h with h
        rw [← h]
        rfl

theorem cgPhase1_frame (s s' : TrafoLandscape)
    (h : TrafoLandscape.cgPhase1 s = .ok s') : cgFrame s' = cgFrame s :=
  foldlM_proj_pres cgFrame _ (fun t a t' ht => cgTransferStep_frame t a t' ht)
    (s.nodes.map Prod.fst) s s' h

theorem cgHiddenTo_frame (hn : String) (len : ℕ) (s : TrafoLandscape) (lrep : String)
    (s' : TrafoLandscape) (h : TrafoLandscape.cgHiddenTo hn len s lrep = .ok s') :
    cgFrame s' = cgFrame s := by
  unfold TrafoLandscape.cgHiddenTo at h
  cases htl : lget s.nodes lrep with
  | none =>
      rw [htl] at h
      exact absurd h (by simp [exThrow])
  | some _ =>
      simp only [htl, exPure] at h
      injection h with h
      rw [← h]
      rfl

theorem cgHiddenStep_frame (nlast : String) (s : TrafoLandscape) (hn : String)
    (s' : TrafoLandscape) (h : TrafoLandscape.cgHiddenStep nlast s hn = .ok s') :
    cgFrame s' = cgFrame s := by
  unfold TrafoLandscape.cgHiddenStep at h
  cases hnl : lget s.nodes nlast with
  | none =>
      rw [hnl] at h
      exact absurd h (by simp [exThrow])
  | some dl =>
      simp only [hnl] at h
      by_cases hck : (¬ dl.active = true ∧ ¬ dl.occupancy = 0)
      · rw [if_pos hck] at h
        exact absurd h (by simp [exThrow, exBind_error])
      · rw [if_neg hck] at h
        simp only [exPure, exBind_ok] at h
        cases hhl : lget s.nodes hn with
        | none =>
            simp only [hhl] at h
            exact absurd h (by simp [exThrow])
        | some hd =>
            simp only [hhl] at h
            by_cases hocc : ¬ hd.occupancy = 0
            · rw [if_pos hocc] at h
              cases hrep : hd.lminreps with
              | none =>
                  simp only [hrep] at h
                  exact absurd h (by simp [exThrow, exBind_error])
              | some reps =>
                  simp only [hrep] at h
                  cases hfold : List.foldlM (TrafoLandscape.cgHiddenTo hn reps.length) s reps with
                  | error e =>
                      rw [hfold, exBind_error] at h
                      exact absurd h (by simp)
                  | ok s1 =>
                      rw [hfold, exBind_ok] at h
                      injection h with h
                      rw [← h]
                      have h1 := foldlM_proj_pres cgFrame _
                        (fun t a t' ht => cgHiddenTo_frame hn reps.length t a t' ht)
                        reps _ s1 hfold
                      rw [show cgFrame ((s1.setOcc hn 0).setActive hn false) =
                            cgFrame s1 from rfl, h1]
            · rw [if_neg hocc] at h
              try simp only [exPure, exBind_ok] at h
              injection h with h
              rw [← h]
              rfl

/-- Decomposition of a successful `get_coarse_network` run: the stored
coarse-edge set is exactly the one the construction loop built from the
collaborator output on the post-transfer active subgraph, and the scalar
configuration is untouched. -/
theorem get_coarse_network_destruct (o : Oracles) (s0 s' : TrafoLandscape)
    (cnt : ℕ × ℕ)
    (hok : TrafoLandscape.get_coarse_network o s0 = .ok (s', cnt)) :
    ∃ (sA : TrafoLandscape) (ed : List ((String × String) × EdgeData))
      (cg2 : List ((String × String) × CgEdgeData)),
      TrafoLandscape.cgPhase1 s0 = .ok sA ∧
      TrafoLandscape.cgActiveEdges sA = .ok ed ∧
      TrafoLandscape.buildCgEdges
        (o.coarse (sA.nodes.filter fun kd => kd.2.active) ed sA.minh).1
        (o.coarse (sA.nodes.filter fun kd => kd.2.active) ed sA.minh).2.1 [] = .ok cg2 ∧
      s'.cg_edges = cg2 ∧ s'.k0 = s0.k0 ∧ s'.temperature = s0.temperature := by
  simp only [TrafoLandscape.get_coarse_network] at hok
  cases hA : TrafoLandscape.cgPhase1 s0 with
  | error e =>
      rw [hA, exBind_error] at hok
      exact absurd hok (by simp)
  | ok sA =>
  rw [hA, exBind_ok] at hok
  cases hE : TrafoLandscape.cgActiveEdges sA with
  | error e =>
      rw [hE, exBind_error] at hok
      exact absurd hok (by simp)
  | ok ed =>
  rw [hE, exBind_ok] at hok
  refine ⟨sA, ed, ?_⟩
  set cgn := (o.coarse (sA.nodes.filter fun kd => kd.2.active) ed sA.minh).1 with hcgn
  set cge := (o.coarse (sA.nodes.filter fun kd => kd.2.active) ed sA.minh).2.1 with hcge
  set cgm := (o.coarse (sA.nodes.filter fun kd => kd.2.active) ed sA.minh).2.2 with hcgm
  by_cases hall : ¬ (cgn.all fun p => (lget (sA.nodes.filter fun kd => kd.2.active) p.1).isSome) = true
  · rw [if_pos hall] at hok
    exact absurd hok (by simp [exThrow, exBind_error])
  · rw [if_neg hall] at hok
    simp only [exPure, exBind_ok] at hok
    cases hB : TrafoLandscape.buildCgEdges cgn cge [] with
    | error e =>
        rw [hB, exBind_error] at hok
        exact absurd hok (by simp)
    | ok cg2 =>
    rw [hB, exBind_ok] at hok
    refine ⟨cg2, rfl, hE, rfl, ?_⟩
    cases hM : List.foldlM TrafoLandscape.cgMapStep { sA with cg_edges := cg2 } cgm with
    | error e =>
        rw [hM, exBind_error] at hok
        exact absurd hok (by simp)
    | ok sM =>
    rw [hM, exBind_ok] at hok
    cases hH : List.foldlM
        (TrafoLandscape.cgHiddenIter ((List.map Prod.fst sM.nodes).getLast?))
        sM (TrafoLandscape.hiddenNodes sM) with
    | error e =>
        rw [hH, exBind_error] at hok
        exact absurd hok (by simp)
    | ok sH =>
    rw [hH, exBind_ok] at hok
    try simp only [exPure] at hok
    injection hok with hok
    have hs' : s' = sH := (congrArg Prod.fst hok).symm
    have hfrM : cgFrame sM = cgFrame { sA with cg_edges := cg2 } :=
      foldlM_proj_pres cgFrame _ (fun t a t' ht => cgMapStep_frame t a t' ht) cgm _ sM hM
    have hfrH : cgFrame sH = cgFrame sM := by
      refine foldlM_proj_pres cgFrame _ ?_ (TrafoLandscape.hiddenNodes sM) sM sH hH
      intro t a t' ht
      cases hnl : (List.map Prod.fst sM.nodes).getLast? with
      | none =>
          rw [hnl] at ht
          exact absurd ht (by simp [TrafoLandscape.cgHiddenIter, exThrow])
      | some nlast =>
          rw [hnl] at ht
          exact cgHiddenStep_frame nlast t a t' ht
    have hfrA : cgFrame sA = cgFrame s0 := cgPhase1_frame s0 sA hA
    have hfr : cgFrame s' = cgFrame { sA with cg_edges := cg2 } := by
      rw [hs', hfrH, hfrM]
    refine ⟨?_, ?_, ?_⟩
    · exact congrArg Prod.fst hfr
    · have h1 : s'.k0 = sA.k0 := congrArg (fun q => q.2.1) hfr
      have h2 : sA.k0 = s0.k0 := congrArg (fun q => q.2.1) hfrA
      rw [h1, h2]
    · have h1 : s'.temperature = sA.temperature := congrArg (fun q => q.2.2) hfr
      have h2 : sA.temperature = s0.temperature := congrArg (fun q => q.2.2) hfrA
      rw [h1, h2]

/-- The `RT` property is the 37 °C reference value rescaled linearly in
absolute temperature, at every configured temperature (at 37 °C the two
branches agree exactly). -/
theorem RT_linear (t : ℚ) :
    TrafoLandscape.RT t = 0.61632077549999997 * ((273.15 + t) / 310.15) := by
  unfold TrafoLandscape.RT
  by_cases h : t = 37
  · rw [if_neg (not_not_intro h), h]
    norm_num
  · rw [if_pos h]
    ring

/-- C8: every coarse edge record stored by `get_coarse_network` carries the
Arrhenius data of the source representative: its stored weight equals
`k0 * exp(-((saddle_energy - energy(x))/100) / RT)` where `energy(x)` is
the source representative's energy in the coarse-graining collaborator
output and `RT` is the 37 °C reference value `0.61632077549999997`
rescaled linearly in absolute temperature (Kelvin). -/
theorem c8_coarse_edge_weight (o : Oracles) (s0 s' : TrafoLandscape) (cnt : ℕ × ℕ)
    (hok : TrafoLandscape.get_coarse_network o s0 = .ok (s', cnt))
    (x y : String) (c : CgEdgeData)
    (hc : lget s'.cg_edges (x, y) = some c) :
    ∃ (sA : TrafoLandscape) (ed : List ((String × String) × EdgeData)) (ex : ℤ),
      TrafoLandscape.cgPhase1 s0 = .ok sA ∧
      TrafoLandscape.cgActiveEdges sA = .ok ed ∧
      lget (o.coarse (sA.nodes.filter fun kd => kd.2.active) ed sA.minh).1 x = some ex ∧
      c.bar = ((c.saddle_energy : ℚ) - (ex : ℚ)) / 100 ∧
      TrafoLandscape.weightOf s'.k0 s'.temperature c =
        TrafoLandscape.specWeight s'.k0 s'.temperature c.saddle_energy ex := by
  obtain ⟨sA, ed, cg2, hA, hE, hB, hcg, hk0, htemp⟩ :=
    get_coarse_network_destruct o s0 s' cnt hok
  rw [hcg] at hc
  obtain ⟨ex, hex, hbar⟩ :=
    buildCgEdges_mem _ _ [] cg2 hB (by intro xy c h; simp [lget] at h) (x, y) c hc
  refine ⟨sA, ed, ex, hA, hE, hex, hbar, ?_⟩
  unfold TrafoLandscape.weightOf TrafoLandscape.specWeight
  rw [hbar, RT_linear s'.temperature]
  push_cast
  ring_nf

/-- Collaborator instantiation for the C8 witness: two representatives with
energy 0 and one coarse edge with saddle energy 250. -/
def c8O : Oracles :=
  { trivO with coarse := fun _ _ _ => ([("A", 0), ("B", 0)], [(("A", "B"), 250)], []) }

/-- The coarse edge record the C8 witness run stores. -/
def c8edge : CgEdgeData := { saddle_energy := 250, bar := 5/2 }

/-- The state the C8 witness run returns. -/
def c8s : TrafoLandscape := { sAB with cg_edges := [(("A", "B"), c8edge)] }

/-- Evaluation of the C8 witness run. -/
theorem c8cg_eval : TrafoLandscape.get_coarse_network c8O sAB = .ok (c8s, 2, 1) := by
  simp only [TrafoLandscape.get_coarse_network]
  rw [show TrafoLandscape.cgPhase1 sAB = .ok sAB from by
    simp [TrafoLandscape.cgPhase1, TrafoLandscape.cgTransferStep, sAB, lmNode, lget,
      lset, TrafoLandscape.setLminreps, TrafoLandscape.setHiddennodes,
      exPure, exBind_ok]]
  rw [exBind_ok]
  rw [show TrafoLandscape.cgActiveEdges sAB = .ok [] from by
    simp [TrafoLandscape.cgActiveEdges, sAB, exPure]]
  rw [exBind_ok]
  simp [c8O, trivO, TrafoLandscape.buildCgEdges, TrafoLandscape.cgMapStep,
    TrafoLandscape.cgHiddenIter, TrafoLandscape.hiddenNodes, c8s, c8edge, sAB,
    lmNode, truthyL, lget, lset, dinsert, sinsert, exPure, exBind_ok]
  norm_num

/-- Witness for C8 at the concrete run `c8cg_eval`: the stored edge (A, B)
with saddle energy 250 and source energy 0. -/
theorem c8_coarse_edge_weight_witness :
    TrafoLandscape.get_coarse_network c8O sAB = .ok (c8s, 2, 1) ∧
      lget c8s.cg_edges ("A", "B") = some c8edge ∧
      (∃ (sA : TrafoLandscape) (ed : List ((String × String) × EdgeData)) (ex : ℤ),
        TrafoLandscape.cgPhase1 sAB = .ok sA ∧
        TrafoLandscape.cgActiveEdges sA = .ok ed ∧
        lget (c8O.coarse (sA.nodes.filter fun kd => kd.2.active) ed sA.minh).1 "A" =
          some ex ∧
        c8edge.bar = ((c8edge.saddle_energy : ℚ) - (ex : ℚ)) / 100 ∧
        TrafoLandscape.weightOf c8s.k0 c8s.temperature c8edge =
          TrafoLandscape.specWeight c8s.k0 c8s.temperature c8edge.saddle_energy ex) :=
  ⟨c8cg_eval, by simp [c8s, c8edge, sAB, lget],
   c8_coarse_edge_weight c8O sAB c8s (2, 1) c8cg_eval "A" "B" c8edge
     (by simp [c8s, c8edge, sAB, lget])⟩

/-! ## C5 -/

/-- Deactivating an already-inactive node record is the identity. -/
theorem ndEta_active_false (d : NodeData) (h : d.active = false) :
    ({ d with active := false } : NodeData) = d := by
  cases d
  simp only at h
  simp [h]

theorem mem_stInsert {α : Type} (le : α → α → Bool) (x y : α) (l : List α) :
    y ∈ stInsert le x l ↔ y = x ∨ y ∈ l := by
  induction l with
  | nil => simp [stInsert]
  | cons z zs ih =>
      simp only [stInsert]
      split
      · simp only [List.mem_cons, ih]
        tauto
      · rw [List.mem_cons]

theorem mem_stSort_aux {α : Type} (le : α → α → Bool) :
    ∀ (l acc : List α) (y : α),
      y ∈ List.foldl (fun acc x => stInsert le x acc) acc l ↔ y ∈ acc ∨ y ∈ l := by
  intro l
  induction l with
  | nil => simp
  | cons x xs ih =>
      intro acc y
      rw [List.foldl_cons, ih, mem_stInsert]
      simp only [List.mem_cons]
      tauto

theorem mem_stSort {α : Type} (le : α → α → Bool) (l : List α) (y : α) :
    y ∈ stSort le l ↔ y ∈ l := by
  unfold stSort
  rw [mem_stSort_aux]
  simp

theorem mem_of_lget {K V : Type} [DecidableEq K] (l : List (K × V)) (k : K) (v : V)
    (h : lget l k = some v) : (k, v) ∈ l := by
  induction l with
  | nil => simp [lget] at h
  | cons p rest ih =>
      obtain ⟨k1, v1⟩ := p
      by_cases hk : k1 = k
      · subst hk
        simp only [lget, if_pos rfl] at h
        injection h with h
        subst h
        exact List.mem_cons_self _ _
      · simp only [lget, if_neg hk] at h
        exact List.mem_cons_of_mem _ (ih h)

theorem lget_of_mem_nodup {K V : Type} [DecidableEq K] (l : List (K × V)) (k : K) (v : V)
    (hnd : (l.map Prod.fst).Nodup) (h : (k, v) ∈ l) : lget l k = some v := by
  induction l with
  | nil => simp at h
  | cons p rest ih =>
      obtain ⟨k1, v1⟩ := p
      simp only [List.map_cons, List.nodup_cons] at hnd
      rcases List.mem_cons.mp h with heq | hmem
      · injection heq with h1 h2
        simp [lget, h1.symm, h2]
      · have hk : k1 ≠ k := by
          intro hc
          exact hnd.1 (hc ▸ (List.mem_map.mpr ⟨(k, v), hmem, rfl⟩))
        simp only [lget, if_neg hk]
        exact ih hnd.2 hmem

/-- Membership in `activeLocalMins` under distinct keys gives the record. -/
theorem activeLocalMins_mem (s : TrafoLandscape) (k : String)
    (hnd : (s.nodes.map Prod.fst).Nodup)
    (h : k ∈ TrafoLandscape.activeLocalMins s) :
    ∃ d, lget s.nodes k = some d ∧ d.active = true ∧ truthyL d.lminreps = false := by
  unfold TrafoLandscape.activeLocalMins at h
  obtain ⟨⟨k1, d⟩, hmem, hcond⟩ := List.mem_filterMap.mp h
  by_cases hc : d.active = true ∧ ¬ truthyL d.lminreps = true
  · rw [if_pos hc] at hcond
    injection hcond with hcond
    subst hcond
    exact ⟨d, lget_of_mem_nodup _ _ _ hnd hmem, hc.1, by simpa using hc.2⟩
  · rw [if_neg hc] at hcond
    exact absurd hcond (by simp)

/-- Invariant of `prune` phases 1 and 2 relative to the entry state: keys
and fine edges are untouched, and every node inactive at entry keeps its
record unchanged. -/
def P1Inv (s cur : TrafoLandscape) : Prop :=
  cur.nodes.map Prod.fst = s.nodes.map Prod.fst ∧
  cur.edges = s.edges ∧
  (∀ k d, lget s.nodes k = some d → d.active = false → lget cur.nodes k = some d)

theorem pruneHiddenStep_inv (s t : TrafoLandscape) (hn : String) (t' : TrafoLandscape)
    (hinv : P1Inv s t) (h : TrafoLandscape.pruneHiddenStep t hn = .ok t') :
    P1Inv s t' := by
  unfold TrafoLandscape.pruneHiddenStep at h
  cases hl : lget t.nodes hn with
  | none =>
      rw [hl] at h
      exact absurd h (by simp [exThrow])
  | some hd =>
      simp only [hl] at h
      by_cases hocc : ¬ hd.occupancy = 0
      · rw [if_pos hocc] at h
        exact absurd h (by simp [exThrow, exBind_error])
      · rw [if_neg hocc] at h
        simp only [exPure, exBind_ok] at h
        injection h with h
        subst h
        obtain ⟨h1, h2, h3⟩ := hinv
        refine ⟨by rw [TrafoLandscape.setActive, lset_map_fst]; exact h1, h2, ?_⟩
        intro k d hk hdact
        by_cases hkk : k = hn
        · subst hkk
          have := h3 k d hk hdact
          rw [TrafoLandscape.setActive, lget_lset_self, this,
            show (some d).map (fun d => ({ d with active := false} : NodeData)) =
              some { d with active := false } from rfl,
            ndEta_active_false d hdact]
        · rw [TrafoLandscape.setActive, lget_lset_ne _ _ _ _ hkk]
          exact h3 k d hk hdact

theorem setPruned_inv (s t : TrafoLandscape) (lm : String) (p : ℕ) (dlm : NodeData)
    (hlm : lget s.nodes lm = some dlm) (hact : dlm.active = true)
    (hinv : P1Inv s t) : P1Inv s (t.setPruned lm p) := by
  obtain ⟨h1, h2, h3⟩ := hinv
  refine ⟨by rw [TrafoLandscape.setPruned, lset_map_fst]; exact h1, h2, ?_⟩
  intro k d hk hdact
  by_cases hkk : k = lm
  · subst hkk
    rw [hk] at hlm
    injection hlm with hlm
    rw [← hlm] at hact
    rw [hact] at hdact
    cases hdact
  · rw [TrafoLandscape.setPruned, lget_lset_ne _ _ _ _ hkk]
    exact h3 k d hk hdact

theorem setActive_false_inv (s t : TrafoLandscape) (lm : String) (dlm : NodeData)
    (hlm : lget s.nodes lm = some dlm) (hact : dlm.active = true)
    (hinv : P1Inv s t) : P1Inv s (t.setActive lm false) := by
  obtain ⟨h1, h2, h3⟩ := hinv
  refine ⟨by rw [TrafoLandscape.setActive, lset_map_fst]; exact h1, h2, ?_⟩
  intro k d hk hdact
  by_cases hkk : k = lm
  · subst hkk
    rw [hk] at hlm
    injection hlm with hlm
    rw [← hlm] at hact
    rw [hact] at hdact
    cases hdact
  · rw [TrafoLandscape.setActive, lget_lset_ne _ _ _ _ hkk]
    exact h3 k d hk hdact

/-- Phase 1 of `prune` preserves `P1Inv` and only ever deactivates minima
drawn from its work list. -/
theorem prunePhase1_inv (s : TrafoLandscape) (pmin : ℚ) (keep : Option (List String)) :
    ∀ (lms : List String) (cur : TrafoLandscape) (tot : ℚ) (acc : List String)
      (s1 : TrafoLandscape) (acc' : List String),
      (∀ lm ∈ lms, ∃ d, lget s.nodes lm = some d ∧ d.active = true) →
      P1Inv s cur →
      TrafoLandscape.prunePhase1 pmin keep lms cur tot acc = .ok (s1, acc') →
      P1Inv s s1 ∧ (∀ x ∈ acc', x ∈ acc ∨ x ∈ lms) := by
  intro lms
  induction lms with
  | nil =>
      intro cur tot acc s1 acc' _ hinv h
      unfold TrafoLandscape.prunePhase1 at h
      try simp only [exPure] at h
      injection h with h
      refine ⟨?_, ?_⟩
      · rw [show s1 = cur from (congrArg Prod.fst h).symm]
        exact hinv
      · intro x hx
        left
        rw [show acc' = acc from (congrArg (fun q => q.2) h).symm] at hx
        exact hx
  | cons lm rest ih =>
      intro cur tot acc s1 acc' hact hinv h
      have hlm := hact lm (List.mem_cons_self lm rest)
      obtain ⟨dlm, hdlm, hdact⟩ := hlm
      have hrest : ∀ x ∈ rest, ∃ d, lget s.nodes x = some d ∧ d.active = true :=
        fun x hx => hact x (List.mem_cons_of_mem lm hx)
      unfold TrafoLandscape.prunePhase1 at h
      cases keep with
      | none => exact absurd h (by simp [exThrow, exBind_error])
      | some ks =>
      simp only [exPure, exBind_ok] at h
      by_cases hkept : decide (lm ∈ ks) = true
      · rw [if_pos (by simpa using hkept)] at h
        obtain ⟨hinv', hacc⟩ := ih cur tot acc s1 acc' hrest hinv h
        exact ⟨hinv', fun x hx => (hacc x hx).elim Or.inl
          (fun hr => Or.inr (List.mem_cons_of_mem lm hr))⟩
      · rw [if_neg (by simpa using hkept)] at h
        have hinv1 : P1Inv s (cur.setPruned lm 0) :=
          setPruned_inv s cur lm 0 dlm hdlm hdact hinv
        by_cases hbreak :
            tot + TrafoLandscape.occOf (cur.setPruned lm 0) lm > pmin
        · rw [if_pos hbreak] at h
          try simp only [exPure] at h
          injection h with h
          refine ⟨?_, ?_⟩
          · rw [show s1 = cur.setPruned lm 0 from (congrArg Prod.fst h).symm]
            exact hinv1
          · intro x hx
            left
            rw [show acc' = acc from (congrArg (fun q => q.2) h).symm] at hx
            exact hx
        · rw [if_neg hbreak] at h
          cases hgl : lget (cur.setPruned lm 0).nodes lm with
          | none =>
              rw [hgl] at h
              exact absurd h (by simp [exThrow, exBind_error])
          | some dcur =>
          simp only [hgl] at h
          cases hhn : dcur.hiddennodes with
          | none =>
              simp only [hhn] at h
              exact absurd h (by simp [exThrow, exBind_error])
          | some hs =>
          simp only [hhn, exPure, exBind_ok] at h
          cases hfold : List.foldlM TrafoLandscape.pruneHiddenStep (cur.setPruned lm 0) hs with
          | error e =>
              rw [hfold, exBind_error] at h
              exact absurd h (by simp)
          | ok cur2 =>
          rw [hfold, exBind_ok] at h
          have hinv2 : P1Inv s cur2 :=
            foldlM_inv_mem _ (P1Inv s) hs
              (fun t a t' _ hp ht => pruneHiddenStep_inv s t a t' hp ht)
              _ cur2 hinv1 hfold
          have hinv3 : P1Inv s (cur2.setActive lm false) :=
            setActive_false_inv s cur2 lm dlm hdlm hdact hinv2
          obtain ⟨hinv', hacc⟩ := ih _ _ _ s1 acc' hrest hinv3 h
          refine ⟨hinv', ?_⟩
          intro x hx
          rcases hacc x hx with hx1 | hx2
          · rcases List.mem_append.mp hx1 with hxa | hxl
            · exact Or.inl hxa
            · exact Or.inr (List.mem_cons.mpr (Or.inl (List.mem_singleton.mp hxl)))
          · exact Or.inr (List.mem_cons_of_mem lm hx2)

theorem prunePhase2Step_inv (s t : TrafoLandscape) (lm : String) (t' : TrafoLandscape)
    (dlm : NodeData) (hlm : lget s.nodes lm = some dlm) (hact : dlm.active = true)
    (hinv : P1Inv s t) (h : TrafoLandscape.prunePhase2Step t lm = .ok t') :
    P1Inv s t' := by
  unfold TrafoLandscape.prunePhase2Step at h
  cases hl : lget t.nodes lm with
  | none =>
      rw [hl] at h
      exact absurd h (by simp [exThrow])
  | some d =>
      simp only [hl] at h
      by_cases hdact : d.active = true
      · rw [if_pos hdact] at h
        exact absurd h (by simp [exThrow, exBind_error])
      · rw [if_neg hdact] at h
        cases hg : TrafoLandscape.get_active_nbrs t (t.nodes.length + 1) lm [] with
        | error e =>
            rw [hg, exBind_error] at h
            exact absurd h (by simp)
        | ok pr =>
        rw [hg, exBind_ok] at h
        by_cases hlen : (sdedup pr.1).length = 0
        · rw [if_pos hlen] at h
          exact absurd h (by simp [exThrow, exBind_error])
        · rw [if_neg hlen] at h
          try simp only [exPure, exBind_ok] at h
          injection h with h
          subst h
          obtain ⟨h1, h2, h3⟩ := hinv
          refine ⟨by rw [TrafoLandscape.setOcctransfer, lset_map_fst]; exact h1, h2, ?_⟩
          intro k dk hk hdk
          by_cases hkk : k = lm
          · subst hkk
            rw [hk] at hlm
            injection hlm with hlm
            rw [← hlm] at hact
            rw [hact] at hdk
            cases hdk
          · rw [TrafoLandscape.setOcctransfer, lget_lset_ne _ _ _ _ hkk]
            exact h3 k dk hk hdk

theorem prunePhase2_inv (s : TrafoLandscape) (ni : List String)
    (hni : ∀ lm ∈ ni, ∃ d, lget s.nodes lm = some d ∧ d.active = true)
    (cur s2 : TrafoLandscape) (hinv : P1Inv s cur)
    (h : TrafoLandscape.prunePhase2 cur ni = .ok s2) : P1Inv s s2 := by
  unfold TrafoLandscape.prunePhase2 at h
  refine foldlM_inv_mem _ (P1Inv s) ni ?_ cur s2 hinv h
  intro t a t' ha hp ht
  obtain ⟨dlm, hdlm, hact⟩ := hni a ha
  exact prunePhase2Step_inv s t a t' dlm hdlm hact hp ht

/-- Full behaviour of the ageing/eviction loop of `prune` on distinct
present keys: active nodes get `pruned := 0`; inactive nodes age by one and
are deleted, together with every fine edge touching them, exactly when the
aged counter exceeds `delth`; keys outside the work list and the edge set
are otherwise untouched. -/
theorem pruneFinal_fold_spec (delth : ℤ) :
    ∀ (keys : List String) (t : TrafoLandscape) (pn dn : List String)
      (r : TrafoLandscape × List String × List String),
      keys.Nodup → (t.nodes.map Prod.fst).Nodup →
      (∀ k ∈ keys, (lget t.nodes k).isSome = true) →
      List.foldlM (TrafoLandscape.pruneFinalStep delth) (t, pn, dn) keys = .ok r →
      (∀ k, k ∉ keys → lget r.1.nodes k = lget t.nodes k) ∧
      (∀ e, e ∈ r.1.edges → e ∈ t.edges) ∧
      (∀ k d, lget t.nodes k = some d → k ∈ keys →
        if d.active = true
        then lget r.1.nodes k = some { d with pruned := 0 }
        else if ((d.pruned : ℤ) + 1) > delth
          then lget r.1.nodes k = none ∧ ∀ e ∈ r.1.edges, e.1.1 ≠ k ∧ e.1.2 ≠ k
          else lget r.1.nodes k = some { d with pruned := d.pruned + 1 }) := by
  intro keys
  induction keys with
  | nil =>
      intro t pn dn r _ _ _ h
      injection h with h
      subst h
      exact ⟨fun k _ => rfl, fun e he => he, fun k d _ hk => absurd hk (by simp)⟩
  | cons k1 ks ih =>
      intro t pn dn r hnd hndt hall h
      have hk1 : (lget t.nodes k1).isSome = true := hall k1 (List.mem_cons_self k1 ks)
      obtain ⟨d1, hd1⟩ := Option.isSome_iff_exists.mp hk1
      have hk1n : k1 ∉ ks := (List.nodup_cons.mp hnd).1
      have hnd2 : ks.Nodup := (List.nodup_cons.mp hnd).2
      rw [List.foldlM_cons] at h
      simp only [TrafoLandscape.pruneFinalStep, hd1] at h
      by_cases hact : d1.active = true
      · -- active: reset pruned
        rw [if_pos hact] at h
        rw [exPure, exBind_ok] at h
        set t1 := t.setPruned k1 0 with ht1
        have hndt1 : (t1.nodes.map Prod.fst).Nodup := by
          rw [ht1, TrafoLandscape.setPruned, lset_map_fst]
          exact hndt
        have hall1 : ∀ k ∈ ks, (lget t1.nodes k).isSome = true := by
          intro k hk
          rw [ht1, TrafoLandscape.setPruned, lget_lset_isSome]
          exact hall k (List.mem_cons_of_mem k1 hk)
        obtain ⟨ihA, ihB, ihC⟩ := ih t1 pn dn r hnd2 hndt1 hall1 h
        have hkeep : lget t1.nodes k1 = some { d1 with pruned := 0 } := by
          rw [ht1, TrafoLandscape.setPruned, lget_lset_self, hd1]
          rfl
        refine ⟨?_, ?_, ?_⟩
        · intro k hk
          have hk2 : k ∉ ks := fun hc => hk (List.mem_cons_of_mem k1 hc)
          have hk3 : k ≠ k1 := fun hc => hk (hc ▸ List.mem_cons_self k1 ks)
          rw [ihA k hk2, ht1, TrafoLandscape.setPruned, lget_lset_ne _ _ _ _ hk3]
        · intro e he
          exact ihB e he
        · intro k d hkd hk
          rcases List.mem_cons.mp hk with hkk | hkk
          · subst hkk
            rw [hd1] at hkd
            injection hkd with hkd
            subst hkd
            rw [if_pos hact]
            rw [ihA k hk1n, hkeep]
          · have hk3 : k ≠ k1 := fun hc => hk1n (hc ▸ hkk)
            have hkd1 : lget t1.nodes k = some d := by
              rw [ht1, TrafoLandscape.setPruned, lget_lset_ne _ _ _ _ hk3]
              exact hkd
            exact ihC k d hkd1 hkk
      · -- inactive: age, maybe delete
        rw [if_neg hact] at h
        have hactf : d1.active = false := by
          cases hda : d1.active
          · rfl
          · exact absurd hda hact
        by_cases hdel : ((d1.pruned : ℤ) + 1) > delth
        · -- deletion
          rw [if_pos (by exact_mod_cast hdel)] at h
          rw [exPure, exBind_ok] at h
          set tp := t.setPruned k1 (d1.pruned + 1) with htp
          set t1 : TrafoLandscape :=
            { tp with
              edges := tp.edges.filter fun e => decide (e.1.1 ≠ k1) && decide (e.1.2 ≠ k1),
              nodes := ldel tp.nodes k1 } with ht1
          have hndtp : (tp.nodes.map Prod.fst).Nodup := by
            rw [htp, TrafoLandscape.setPruned, lset_map_fst]
            exact hndt
          have hndt1 : (t1.nodes.map Prod.fst).Nodup := by
            rw [ht1]
            exact ((ldel_sublist tp.nodes k1).map Prod.fst).nodup hndtp
          have hall1 : ∀ k ∈ ks, (lget t1.nodes k).isSome = true := by
            intro k hk
            have hk3 : k ≠ k1 := fun hc => hk1n (hc ▸ hk)
            rw [ht1]
            show (lget (ldel tp.nodes k1) k).isSome = true
            rw [lget_ldel_ne _ _ _ hk3, htp, TrafoLandscape.setPruned, lget_lset_isSome]
            exact hall k (List.mem_cons_of_mem k1 hk)
          obtain ⟨ihA, ihB, ihC⟩ := ih t1 _ _ r hnd2 hndt1 hall1 h
          have hgone : lget t1.nodes k1 = none := by
            rw [ht1]
            show lget (ldel tp.nodes k1) k1 = none
            exact lget_ldel_self _ _ hndtp
          refine ⟨?_, ?_, ?_⟩
          · intro k hk
            have hk2 : k ∉ ks := fun hc => hk (List.mem_cons_of_mem k1 hc)
            have hk3 : k ≠ k1 := fun hc => hk (hc ▸ List.mem_cons_self k1 ks)
            rw [ihA k hk2, ht1]
            show lget (ldel tp.nodes k1) k = lget t.nodes k
            rw [lget_ldel_ne _ _ _ hk3, htp, TrafoLandscape.setPruned,
              lget_lset_ne _ _ _ _ hk3]
          · intro e he
            have he1 := ihB e he
            rw [ht1] at he1
            have he2 := List.mem_filter.mp he1
            exact he2.1
          · intro k d hkd hk
            rcases List.mem_cons.mp hk with hkk | hkk
            · subst hkk
              rw [hd1] at hkd
              injection hkd with hkd
              subst hkd
              rw [if_neg hact, if_pos hdel]
              constructor
              · rw [ihA k hk1n, hgone]
              · intro e he
                have he1 := ihB e he
                rw [ht1] at he1
                have he2 := (List.mem_filter.mp he1).2
                constructor
                · simpa using (Bool.and_elim_left he2)
                · simpa using (Bool.and_elim_right he2)
            · have hk3 : k ≠ k1 := fun hc => hk1n (hc ▸ hkk)
              have hkd1 : lget t1.nodes k = some d := by
                rw [ht1]
                show lget (ldel tp.nodes k1) k = some d
                rw [lget_ldel_ne _ _ _ hk3, htp, TrafoLandscape.setPruned,
                  lget_lset_ne _ _ _ _ hk3]
                exact hkd
              exact ihC k d hkd1 hkk
        · -- survives another round
          rw [if_neg (by exact_mod_cast hdel)] at h
          rw [exPure, exBind_ok] at h
          set t1 := t.setPruned k1 (d1.pruned + 1) with ht1
          have hndt1 : (t1.nodes.map Prod.fst).Nodup := by
            rw [ht1, TrafoLandscape.setPruned, lset_map_fst]
            exact hndt
          have hall1 : ∀ k ∈ ks, (lget t1.nodes k).isSome = true := by
            intro k hk
            rw [ht1, TrafoLandscape.setPruned, lget_lset_isSome]
            exact hall k (List.mem_cons_of_mem k1 hk)
          obtain ⟨ihA, ihB, ihC⟩ := ih t1 _ _ r hnd2 hndt1 hall1 h
          have hkeep : lget t1.nodes k1 = some { d1 with pruned := d1.pruned + 1 } := by
            rw [ht1, TrafoLandscape.setPruned, lget_lset_self, hd1]
            rfl
          refine ⟨?_, ?_, ?_⟩
          · intro k hk
            have hk2 : k ∉ ks := fun hc => hk (List.mem_cons_of_mem k1 hc)
            have hk3 : k ≠ k1 := fun hc => hk (hc ▸ List.mem_cons_self k1 ks)
            rw [ihA k hk2, ht1, TrafoLandscape.setPruned, lget_lset_ne _ _ _ _ hk3]
          · intro e he
            exact ihB e he
          · intro k d hkd hk
            rcases List.mem_cons.mp hk with hkk | hkk
            · subst hkk
              rw [hd1] at hkd
              injection hkd with hkd
              subst hkd
              rw [if_neg hact, if_neg hdel]
              rw [ihA k hk1n, hkeep]
            · have hk3 : k ≠ k1 := fun hc => hk1n (hc ▸ hkk)
              have hkd1 : lget t1.nodes k = some d := by
                rw [ht1, TrafoLandscape.setPruned, lget_lset_ne _ _ _ _ hk3]
                exact hkd
              exact ihC k d hkd1 hkk

/-- C5: across any successful `prune` call (distinct node keys assumed,
as every reachable landscape satisfies): every node left active has
`pruned = 0`; every node that entered the call inactive either ages by
exactly one round, or, exactly when the aged counter first exceeds
`delth`, is deleted together with every fine-grained edge touching it. -/
theorem c5_pruned_counter (s : TrafoLandscape) (pmin : ℚ) (delth : ℤ)
    (keep : Option (List String)) (s' : TrafoLandscape) (pn dn : List String)
    (hnd : (s.nodes.map Prod.fst).Nodup)
    (h : TrafoLandscape.prune s pmin delth keep = .ok (s', pn, dn)) :
    (∀ k d', lget s'.nodes k = some d' → d'.active = true → d'.pruned = 0) ∧
    (∀ k d, lget s.nodes k = some d → d.active = false →
      if ((d.pruned : ℤ) + 1) > delth
      then lget s'.nodes k = none ∧ ∀ e ∈ s'.edges, e.1.1 ≠ k ∧ e.1.2 ≠ k
      else ∃ d', lget s'.nodes k = some d' ∧ d'.active = false ∧
        d'.pruned = d.pruned + 1) := by
  simp only [TrafoLandscape.prune] at h
  cases h1 : TrafoLandscape.prunePhase1 pmin keep
      (stSort (fun a b => decide (TrafoLandscape.occOf s a ≤ TrafoLandscape.occOf s b))
        (TrafoLandscape.activeLocalMins s)) s 0 [] with
  | error e =>
      rw [h1, exBind_error] at h
      exact absurd h (by simp)
  | ok p1 =>
  obtain ⟨s1, ni⟩ := p1
  rw [h1, exBind_ok] at h
  have hlms : ∀ lm ∈
      stSort (fun a b => decide (TrafoLandscape.occOf s a ≤ TrafoLandscape.occOf s b))
        (TrafoLandscape.activeLocalMins s),
      ∃ d, lget s.nodes lm = some d ∧ d.active = true := by
    intro lm hlm
    obtain ⟨d, hd, hact, _⟩ :=
      activeLocalMins_mem s lm hnd ((mem_stSort _ _ _).mp hlm)
    exact ⟨d, hd, hact⟩
  obtain ⟨hinv1, hni⟩ := prunePhase1_inv s pmin keep _ s 0 [] s1 ni hlms
    ⟨rfl, rfl, fun k d hk _ => hk⟩ h1
  cases h2 : TrafoLandscape.prunePhase2 s1 ni with
  | error e =>
      rw [h2, exBind_error] at h
      exact absurd h (by simp)
  | ok s2 =>
  rw [h2, exBind_ok] at h
  have hni2 : ∀ lm ∈ ni, ∃ d, lget s.nodes lm = some d ∧ d.active = true := by
    intro lm hlm
    rcases hni lm hlm with hc | hc
    · simp at hc
    · exact hlms lm hc
  have hinv2 : P1Inv s s2 := prunePhase2_inv s ni hni2 s1 s2 hinv1 h2
  obtain ⟨hkeys, hedges, hinact⟩ := hinv2
  have hndk : (s2.nodes.map Prod.fst).Nodup := by
    rw [hkeys]
    exact hnd
  have hall : ∀ k ∈ s2.nodes.map Prod.fst, (lget s2.nodes k).isSome = true := by
    intro k hk
    rw [lget_isSome_iff]
    exact hk
  obtain ⟨spA, spB, spC⟩ :=
    pruneFinal_fold_spec delth (s2.nodes.map Prod.fst) s2 [] [] (s', pn, dn)
      hndk hndk hall h
  dsimp only at spA spB spC
  constructor
  · intro k d' hk' hact'
    by_cases hkin : k ∈ s2.nodes.map Prod.fst
    · have hpres := hall k hkin
      obtain ⟨d2, hd2⟩ := Option.isSome_iff_exists.mp hpres
      have := spC k d2 hd2 hkin
      by_cases hda : d2.active = true
      · rw [if_pos hda] at this
        rw [hk'] at this
        injection this with this
        rw [this]
      · rw [if_neg hda] at this
        by_cases hdd : ((d2.pruned : ℤ) + 1) > delth
        · rw [if_pos hdd] at this
          obtain ⟨hnone, _⟩ := this
          rw [hk'] at hnone
          cases hnone
        · rw [if_neg hdd] at this
          rw [hk'] at this
          injection this with this
          rw [this] at hact'
          exact absurd hact' hda
    · rw [spA k hkin] at hk'
      exact absurd (lget_isSome_iff s2.nodes k |>.mp (by rw [hk']; rfl)) hkin
  · intro k d hk hdact
    have hs2 : lget s2.nodes k = some d := hinact k d hk hdact
    have hkin : k ∈ s2.nodes.map Prod.fst := by
      rw [← lget_isSome_iff, hs2]
      rfl
    have := spC k d hs2 hkin
    rw [if_neg (by rw [hdact]; exact Bool.false_ne_true)] at this
    by_cases hdd : ((d.pruned : ℤ) + 1) > delth
    · rw [if_pos hdd] at this
      rw [if_pos hdd]
      exact this
    · rw [if_neg hdd] at this
      rw [if_neg hdd]
      exact ⟨{ d with pruned := d.pruned + 1 }, this, hdact, rfl⟩

/-- Inactive single-node fixture for exercising the deletion branch of
the final prune loop. -/
def c5nd : NodeData :=
  { structure_ := none, occupancy := 0, identity := "0", energy := some 0,
    active := false, pruned := 0, lminreps := none, hiddennodes := none,
    occtransfer := none }

def c5s : TrafoLandscape :=
  { sequence := "AA", temperature := 37, prefixStr := "", nodeID := 1,
    nodes := [("N", c5nd)], edges := [], cg_edges := [],
    k0 := 200000, minh := 0, fpwm := 0, mfree := 6, transcript_length := 2 }

def c5sDel : TrafoLandscape := { c5s with nodes := [] }

theorem c5_pruned_counter_witness :
    TrafoLandscape.prune c5s 0 0 (some []) = .ok (c5sDel, ["N"], ["N"]) ∧
    ((∀ k d', lget c5sDel.nodes k = some d' → d'.active = true → d'.pruned = 0) ∧
     (∀ k d, lget c5s.nodes k = some d → d.active = false →
       if ((d.pruned : ℤ) + 1) > 0
       then lget c5sDel.nodes k = none ∧ ∀ e ∈ c5sDel.edges, e.1.1 ≠ k ∧ e.1.2 ≠ k
       else ∃ d', lget c5sDel.nodes k = some d' ∧ d'.active = false ∧
         d'.pruned = d.pruned + 1)) := by
  have hprune : TrafoLandscape.prune c5s 0 0 (some []) = .ok (c5sDel, ["N"], ["N"]) := by
    rfl
  exact ⟨hprune,
    c5_pruned_counter c5s 0 0 (some []) c5sDel ["N"] ["N"] (by decide) hprune⟩

/-! ## Exclusivity of lminreps and hiddennodes (claim C6 machinery) -/

/-- A node-data record whose `lminreps`/`hiddennodes` flags are not both
truthy. -/
def ExclND (d : NodeData) : Prop :=
  truthyL d.lminreps = false ∨ truthyL d.hiddennodes = false

/-- Every binding of a node dict satisfies the exclusivity invariant. -/
def ExclusiveL (l : List (String × NodeData)) : Prop :=
  ∀ k d, lget l k = some d → ExclND d

/-- The landscape-level exclusivity invariant of `lminreps` vs
`hiddennodes` (landscape.py lines 105-106: "a node should have either
lminreps or hiddennodes set, but not both"). -/
def Exclusive (s : TrafoLandscape) : Prop :=
  ExclusiveL s.nodes

/-- The partition contract of the `top_down_coarse_graining` collaborator
(spec section on coarse graining; the collaborator itself is outside
landscape.py): no representative key of the returned mapping occurs in any
entry's hidden set. -/
def PartitionOracle (o : Oracles) : Prop :=
  ∀ nd ed mh p q, p ∈ (o.coarse nd ed mh).2.2 → q ∈ (o.coarse nd ed mh).2.2 →
    p.1 ∉ q.2

/-- Every binding carries freshly reset (empty) partition sets, the state
lines 306-307 put every node in. -/
def ClearedL (l : List (String × NodeData)) : Prop :=
  ∀ k d, lget l k = some d → d.lminreps = some [] ∧ d.hiddennodes = some []

/-- Every binding of `cur` has the `lminreps`/`hiddennodes` fields of the
binding of the same key in `base`: the relation maintained by the
occupancy- and activity-only updates. -/
def FlagsFromL (base cur : List (String × NodeData)) : Prop :=
  ∀ k d', lget cur k = some d' → ∃ d, lget base k = some d ∧
    d'.lminreps = d.lminreps ∧ d'.hiddennodes = d.hiddennodes

theorem flagsFromL_refl (l : List (String × NodeData)) : FlagsFromL l l :=
  fun k d' h => ⟨d', h, rfl, rfl⟩

theorem flagsFromL_trans {l1 l2 l3 : List (String × NodeData)}
    (h12 : FlagsFromL l1 l2) (h23 : FlagsFromL l2 l3) : FlagsFromL l1 l3 := by
  intro k d3 h3
  obtain ⟨d2, h2, e1, e2⟩ := h23 k d3 h3
  obtain ⟨d1, h1, f1, f2⟩ := h12 k d2 h2
  exact ⟨d1, h1, e1.trans f1, e2.trans f2⟩

theorem flagsFromL_lset (f : NodeData → NodeData)
    (hf : ∀ v, (f v).lminreps = v.lminreps ∧ (f v).hiddennodes = v.hiddennodes)
    (l : List (String × NodeData)) (k : String) :
    FlagsFromL l (lset f l k) := by
  intro k' d' hd'
  by_cases hk : k' = k
  · subst hk
    rw [lget_lset_self] at hd'
    cases hl : lget l k' with
    | none => rw [hl] at hd'; cases hd'
    | some d =>
        rw [hl] at hd'
        injection hd' with hd'
        exact ⟨d, rfl, by rw [← hd']; exact (hf d).1, by rw [← hd']; exact (hf d).2⟩
  · rw [lget_lset_ne f l k k' hk] at hd'
    exact ⟨d', hd', rfl, rfl⟩

theorem exclusiveL_of_flagsFrom {base cur : List (String × NodeData)}
    (hb : ExclusiveL base) (hf : FlagsFromL base cur) : ExclusiveL cur := by
  intro k d' hd'
  obtain ⟨d, hd, e1, e2⟩ := hf k d' hd'
  rcases hb k d hd with h1 | h1
  · exact Or.inl (by rw [e1]; exact h1)
  · exact Or.inr (by rw [e2]; exact h1)

theorem clearedL_of_flagsFrom {base cur : List (String × NodeData)}
    (hb : ClearedL base) (hf : FlagsFromL base cur) : ClearedL cur := by
  intro k d' hd'
  obtain ⟨d, hd, e1, e2⟩ := hf k d' hd'
  obtain ⟨h1, h2⟩ := hb k d hd
  exact ⟨e1.trans h1, e2.trans h2⟩

theorem exclusiveL_ldel (l : List (String × NodeData)) (k : String)
    (hnd : (l.map Prod.fst).Nodup) (h : ExclusiveL l) : ExclusiveL (ldel l k) := by
  intro k' d' hd'
  by_cases hk : k' = k
  · subst hk
    rw [lget_ldel_self l k' hnd] at hd'
    cases hd'
  · rw [lget_ldel_ne l k k' hk] at hd'
    exact h k' d' hd'

theorem exclusiveL_append (l : List (String × NodeData)) (k : String) (d : NodeData)
    (hd : ExclND d) (h : ExclusiveL l) : ExclusiveL (l ++ [(k, d)]) := by
  intro k' d' hd'
  rw [lget_append] at hd'
  cases hl : lget l k' with
  | some v =>
      simp only [hl] at hd'
      injection hd' with hd'
      subst hd'
      exact h k' v hl
  | none =>
      simp only [hl, lget] at hd'
      by_cases hkk : k = k'
      · simp only [if_pos hkk] at hd'
        injection hd' with hd'
        subst hd'
        exact hd
      · simp only [if_neg hkk] at hd'
        cases hd'

theorem cgTransferTo_flags (n : String) (len : ℕ) (s s' : TrafoLandscape) (tn : String)
    (h : TrafoLandscape.cgTransferTo n len s tn = .ok s') :
    FlagsFromL s.nodes s'.nodes := by
  unfold TrafoLandscape.cgTransferTo at h
  cases hl : lget s.nodes tn with
  | none =>
      rw [hl] at h
      exact absurd h (by simp [exThrow])
  | some td =>
      simp only [hl] at h
      by_cases ha : ¬ td.active = true
      · rw [if_pos ha] at h
        exact absurd h (by simp [exThrow, exBind_error])
      · rw [if_neg ha] at h
        simp only [exPure, exBind_ok] at h
        injection h with h
        subst h
        exact flagsFromL_lset
          (fun d => { d with occupancy := d.occupancy + TrafoLandscape.occOf s n / (len : ℚ) })
          (fun v => ⟨rfl, rfl⟩) s.nodes tn

theorem cgTransferStep_flags (cur cur' : TrafoLandscape) (n : String)
    (h : TrafoLandscape.cgTransferStep cur n = .ok cur') :
    ∀ k d', lget cur'.nodes k = some d' →
      (d'.lminreps = some [] ∧ d'.hiddennodes = some []) ∨
      (k ≠ n ∧ ∃ d, lget cur.nodes k = some d ∧
        d'.lminreps = d.lminreps ∧ d'.hiddennodes = d.hiddennodes) := by
  have hS2 : ∀ k d', lget (TrafoLandscape.setHiddennodes
      (TrafoLandscape.setLminreps cur n (some [])) n (some [])).nodes k = some d' →
      (d'.lminreps = some [] ∧ d'.hiddennodes = some []) ∨
      (k ≠ n ∧ ∃ d, lget cur.nodes k = some d ∧
        d'.lminreps = d.lminreps ∧ d'.hiddennodes = d.hiddennodes) := by
    intro k d' hd'
    simp only [TrafoLandscape.setHiddennodes, TrafoLandscape.setLminreps] at hd'
    by_cases hk : k = n
    · subst hk
      rw [lget_lset_self, lget_lset_self] at hd'
      cases hl : lget cur.nodes k with
      | none => rw [hl] at hd'; cases hd'
      | some d =>
          rw [hl] at hd'
          injection hd' with hd'
          left
          rw [← hd']
          exact ⟨rfl, rfl⟩
    · rw [lget_lset_ne _ _ _ _ hk, lget_lset_ne _ _ _ _ hk] at hd'
      exact Or.inr ⟨hk, d', hd', rfl, rfl⟩
  simp only [TrafoLandscape.cgTransferStep] at h
  cases hl2 : lget (TrafoLandscape.setHiddennodes
      (TrafoLandscape.setLminreps cur n (some [])) n (some [])).nodes n with
  | none =>
      rw [hl2] at h
      exact absurd h (by simp [exThrow])
  | some d =>
      simp only [hl2] at h
      by_cases hc : ¬ d.active = true ∧ ¬ d.occupancy = 0
      · rw [if_pos hc] at h
        cases ho : d.occtransfer with
        | none =>
            rw [ho] at h
            exact absurd h (by simp [exThrow])
        | some ts =>
            simp only [ho] at h
            cases hf : ts.foldlM (TrafoLandscape.cgTransferTo n ts.length)
                (TrafoLandscape.setHiddennodes
                  (TrafoLandscape.setLminreps cur n (some [])) n (some [])) with
            | error e =>
                rw [hf, exBind_error] at h
                exact absurd h (by simp)
            | ok s3 =>
                rw [hf, exBind_ok] at h
                simp only [exPure] at h
                injection h with h
                subst h
                have hfold : FlagsFromL (TrafoLandscape.setHiddennodes
                    (TrafoLandscape.setLminreps cur n (some [])) n (some [])).nodes
                    s3.nodes := by
                  refine foldlM_inv_mem (TrafoLandscape.cgTransferTo n ts.length)
                    (fun t => FlagsFromL (TrafoLandscape.setHiddennodes
                      (TrafoLandscape.setLminreps cur n (some [])) n (some [])).nodes
                      t.nodes) ts ?_ _ s3 (flagsFromL_refl _) hf
                  intro t a t' _ hp hstep
                  exact flagsFromL_trans hp (cgTransferTo_flags n ts.length t t' a hstep)
                have htot : FlagsFromL (TrafoLandscape.setHiddennodes
                    (TrafoLandscape.setLminreps cur n (some [])) n (some [])).nodes
                    (s3.setOcc n 0).nodes :=
                  flagsFromL_trans hfold (flagsFromL_lset
                    (fun d => { d with occupancy := (0 : ℚ) })
                    (fun v => ⟨rfl, rfl⟩) s3.nodes n)
                intro k d' hd'
                obtain ⟨dm, hdm, e1, e2⟩ := htot k d' hd'
                rcases hS2 k dm hdm with ⟨c1, c2⟩ | ⟨hk, d0, hd0, f1, f2⟩
                · exact Or.inl ⟨e1.trans c1, e2.trans c2⟩
                · exact Or.inr ⟨hk, d0, hd0, e1.trans f1, e2.trans f2⟩
      · rw [if_neg hc] at h
        simp only [exPure] at h
        injection h with h
        subst h
        exact hS2

theorem cgPhase1_cleared (s s1 : TrafoLandscape)
    (h : TrafoLandscape.cgPhase1 s = .ok s1) : ClearedL s1.nodes := by
  unfold TrafoLandscape.cgPhase1 at h
  have hrem := foldlM_inv_rem TrafoLandscape.cgTransferStep
    (fun cur rem => ∀ k d, lget cur.nodes k = some d →
      k ∈ rem ∨ (d.lminreps = some [] ∧ d.hiddennodes = some []))
    (by
      intro cur a cur' rest hQ hstep k d' hd'
      rcases cgTransferStep_flags cur cur' a hstep k d' hd' with hc | ⟨hk, d, hd, f1, f2⟩
      · exact Or.inr hc
      · rcases hQ k d hd with hin | hcl
        · rcases List.mem_cons.mp hin with he | ht
          · exact absurd he hk
          · exact Or.inl ht
        · exact Or.inr ⟨f1.trans hcl.1, f2.trans hcl.2⟩)
    (s.nodes.map Prod.fst) s s1
    (by
      intro k d hk
      exact Or.inl ((lget_isSome_iff _ _).mp (by rw [hk]; rfl)))
    h
  intro k d hk
  rcases hrem k d hk with h' | h'
  · cases h'
  · exact h'

/-- Partial-progress invariant of the mapping loop (lines 329-334): any
truthy `lminreps` belongs to a node listed in some entry's hidden set, and
any truthy `hiddennodes` belongs to a representative key of the mapping. -/
def MapInv (m : List (String × List String)) (l : List (String × NodeData)) : Prop :=
  ∀ k d, lget l k = some d →
    (truthyL d.lminreps = true → ∃ q ∈ m, k ∈ q.2) ∧
    (truthyL d.hiddennodes = true → ∃ p ∈ m, p.1 = k)

theorem mapInv_of_cleared (m : List (String × List String))
    (l : List (String × NodeData)) (h : ClearedL l) : MapInv m l := by
  intro k d hd
  obtain ⟨h1, h2⟩ := h k d hd
  constructor
  · intro ht
    rw [h1] at ht
    cases ht
  · intro ht
    rw [h2] at ht
    cases ht

theorem mapInv_of_flagsFrom (m : List (String × List String))
    {base cur : List (String × NodeData)}
    (hb : MapInv m base) (hf : FlagsFromL base cur) : MapInv m cur := by
  intro k d' hd'
  obtain ⟨d, hd, e1, e2⟩ := hf k d' hd'
  obtain ⟨h1, h2⟩ := hb k d hd
  exact ⟨fun ht => h1 (by rw [← e1]; exact ht), fun ht => h2 (by rw [← e2]; exact ht)⟩

theorem exclusiveL_of_mapInv (m : List (String × List String))
    (l : List (String × NodeData))
    (hpart : ∀ p ∈ m, ∀ q ∈ m, p.1 ∉ q.2)
    (hinv : MapInv m l) : ExclusiveL l := by
  intro k d hd
  by_cases h1 : truthyL d.lminreps = true
  · by_cases h2 : truthyL d.hiddennodes = true
    · obtain ⟨q, hq, hkq⟩ := (hinv k d hd).1 h1
      obtain ⟨p, hp, hpk⟩ := (hinv k d hd).2 h2
      exact absurd (show p.1 ∈ q.2 from hpk ▸ hkq) (hpart p hp q hq)
    · exact Or.inr (Bool.eq_false_iff.mpr h2)
  · exact Or.inl (Bool.eq_false_iff.mpr h1)

theorem cgMapHiddenStep_mapinv (m : List (String × List String)) (lmin hn : String)
    (t t' : TrafoLandscape)
    (hhn : ∃ q ∈ m, hn ∈ q.2) (hinv : MapInv m t.nodes)
    (h : TrafoLandscape.cgMapHiddenStep lmin t hn = .ok t') : MapInv m t'.nodes := by
  simp only [TrafoLandscape.cgMapHiddenStep] at h
  cases hl : lget t.nodes hn with
  | none =>
      rw [hl] at h
      exact absurd h (by simp [exThrow])
  | some hd =>
      simp only [hl] at h
      by_cases ha : ¬ hd.active = true
      · rw [if_pos ha] at h
        exact absurd h (by simp [exThrow, exBind_error])
      · rw [if_neg ha] at h
        cases hlr : hd.lminreps with
        | none =>
            rw [hlr] at h
            exact absurd h (by simp [exThrow, exBind_error])
        | some lr =>
            simp only [hlr, exPure, exBind_ok] at h
            injection h with h
            subst h
            intro k d' hd'
            simp only [TrafoLandscape.setLminreps] at hd'
            by_cases hk : k = hn
            · subst hk
              rw [lget_lset_self, hl] at hd'
              injection hd' with hd'
              subst hd'
              refine ⟨fun _ => hhn, fun ht => (hinv k hd hl).2 ht⟩
            · rw [lget_lset_ne _ _ _ _ hk] at hd'
              exact hinv k d' hd'

theorem cgMapStep_mapinv (m : List (String × List String)) (t t' : TrafoLandscape)
    (p : String × List String) (hp : p ∈ m) (hinv : MapInv m t.nodes)
    (h : TrafoLandscape.cgMapStep t p = .ok t') : MapInv m t'.nodes := by
  simp only [TrafoLandscape.cgMapStep] at h
  cases hl : lget t.nodes p.1 with
  | none =>
      rw [hl] at h
      exact absurd h (by simp [exThrow])
  | some d =>
      simp only [hl] at h
      by_cases ha : ¬ d.active = true
      · rw [if_pos ha] at h
        exact absurd h (by simp [exThrow, exBind_error])
      · rw [if_neg ha] at h
        cases hf : p.2.foldlM (TrafoLandscape.cgMapHiddenStep p.1) t with
        | error e =>
            rw [hf, exBind_error] at h
            exact absurd h (by simp)
        | ok s3 =>
            rw [hf, exBind_ok] at h
            simp only [exPure] at h
            injection h with h
            subst h
            have hs3 : MapInv m s3.nodes := by
              refine foldlM_inv_mem (TrafoLandscape.cgMapHiddenStep p.1)
                (fun t => MapInv m t.nodes) p.2 ?_ t s3 hinv hf
              intro u a u' ha2 hpu hstep
              exact cgMapHiddenStep_mapinv m p.1 a u u' ⟨p, hp, ha2⟩ hpu hstep
            intro k d' hd'
            simp only [TrafoLandscape.setHiddennodes] at hd'
            by_cases hk : k = p.1
            · subst hk
              rw [lget_lset_self] at hd'
              cases hl3 : lget s3.nodes p.1 with
              | none => rw [hl3] at hd'; cases hd'
              | some d3 =>
                  rw [hl3] at hd'
                  injection hd' with hd'
                  subst hd'
                  refine ⟨fun ht => (hs3 p.1 d3 hl3).1 ht, fun _ => ⟨p, hp, rfl⟩⟩
            · rw [lget_lset_ne _ _ _ _ hk] at hd'
              exact hs3 k d' hd'

theorem cgHiddenTo_flags (hn : String) (len : ℕ) (s s' : TrafoLandscape) (lrep : String)
    (h : TrafoLandscape.cgHiddenTo hn len s lrep = .ok s') :
    FlagsFromL s.nodes s'.nodes := by
  unfold TrafoLandscape.cgHiddenTo at h
  cases hl : lget s.nodes lrep with
  | none =>
      rw [hl] at h
      exact absurd h (by simp [exThrow])
  | some td =>
      simp only [hl, exPure] at h
      injection h with h
      subst h
      exact flagsFromL_lset
        (fun d => { d with occupancy := d.occupancy + TrafoLandscape.occOf s hn / (len : ℚ) })
        (fun v => ⟨rfl, rfl⟩) s.nodes lrep

theorem cgHiddenStep_flags (nlast : String) (t t' : TrafoLandscape) (hn : String)
    (h : TrafoLandscape.cgHiddenStep nlast t hn = .ok t') :
    FlagsFromL t.nodes t'.nodes := by
  simp only [TrafoLandscape.cgHiddenStep] at h
  cases hl : lget t.nodes nlast with
  | none =>
      rw [hl] at h
      exact absurd h (by simp [exThrow])
  | some dl =>
      simp only [hl] at h
      by_cases hc : ¬ dl.active = true ∧ ¬ dl.occupancy = 0
      · rw [if_pos hc] at h
        exact absurd h (by simp [exThrow, exBind_error])
      · rw [if_neg hc] at h
        simp only [exPure, exBind_ok] at h
        cases hl2 : lget t.nodes hn with
        | none =>
            rw [hl2] at h
            exact absurd h (by simp [exThrow])
        | some hd =>
            simp only [hl2] at h
            have hfin : ∀ s3 : TrafoLandscape, FlagsFromL t.nodes s3.nodes →
                (Except.ok ((s3.setOcc hn 0).setActive hn false) :
                  Except Err TrafoLandscape) = .ok t' →
                FlagsFromL t.nodes t'.nodes := by
              intro s3 hs3 heq
              injection heq with heq
              subst heq
              have h1 : FlagsFromL s3.nodes (s3.setOcc hn 0).nodes :=
                flagsFromL_lset (fun d => { d with occupancy := (0 : ℚ) })
                  (fun v => ⟨rfl, rfl⟩) s3.nodes hn
              have h2 : FlagsFromL (s3.setOcc hn 0).nodes
                  ((s3.setOcc hn 0).setActive hn false).nodes :=
                flagsFromL_lset (fun d => { d with active := false })
                  (fun v => ⟨rfl, rfl⟩) (s3.setOcc hn 0).nodes hn
              exact flagsFromL_trans (flagsFromL_trans hs3 h1) h2
            by_cases ho : ¬ hd.occupancy = 0
            · rw [if_pos ho] at h
              cases hlr : hd.lminreps with
              | none =>
                  rw [hlr] at h
                  exact absurd h (by simp [exThrow, exBind_error])
              | some reps =>
                  simp only [hlr] at h
                  cases hf : reps.foldlM (TrafoLandscape.cgHiddenTo hn reps.length) t with
                  | error e =>
                      rw [hf, exBind_error] at h
                      exact absurd h (by simp)
                  | ok s3 =>
                      rw [hf, exBind_ok] at h
                      try simp only [exPure] at h
                      refine hfin s3 ?_ h
                      refine foldlM_inv_mem (TrafoLandscape.cgHiddenTo hn reps.length)
                        (fun u => FlagsFromL t.nodes u.nodes) reps ?_ t s3
                        (flagsFromL_refl _) hf
                      intro u a u' _ hpu hstep
                      exact flagsFromL_trans hpu (cgHiddenTo_flags hn reps.length u u' a hstep)
            · rw [if_neg ho] at h
              try simp only [exPure, exBind_ok] at h
              exact hfin t (flagsFromL_refl _) h

theorem cg_exclusive (o : Oracles) (s0 s' : TrafoLandscape) (cnt : ℕ × ℕ)
    (hpart : PartitionOracle o)
    (hok : TrafoLandscape.get_coarse_network o s0 = .ok (s', cnt)) :
    Exclusive s' := by
  simp only [TrafoLandscape.get_coarse_network] at hok
  cases hA : TrafoLandscape.cgPhase1 s0 with
  | error e =>
      rw [hA, exBind_error] at hok
      exact absurd hok (by simp)
  | ok sA =>
  rw [hA, exBind_ok] at hok
  cases hE : TrafoLandscape.cgActiveEdges sA with
  | error e =>
      rw [hE, exBind_error] at hok
      exact absurd hok (by simp)
  | ok ed =>
  rw [hE, exBind_ok] at hok
  set cgn := (o.coarse (sA.nodes.filter fun kd => kd.2.active) ed sA.minh).1 with hcgn
  set cge := (o.coarse (sA.nodes.filter fun kd => kd.2.active) ed sA.minh).2.1 with hcge
  set cgm := (o.coarse (sA.nodes.filter fun kd => kd.2.active) ed sA.minh).2.2 with hcgm
  by_cases hall : ¬ (cgn.all fun p => (lget (sA.nodes.filter fun kd => kd.2.active) p.1).isSome) = true
  · rw [if_pos hall] at hok
    exact absurd hok (by simp [exThrow, exBind_error])
  · rw [if_neg hall] at hok
    simp only [exPure, exBind_ok] at hok
    cases hB : TrafoLandscape.buildCgEdges cgn cge [] with
    | error e =>
        rw [hB, exBind_error] at hok
        exact absurd hok (by simp)
    | ok cg2 =>
    rw [hB, exBind_ok] at hok
    cases hM : List.foldlM TrafoLandscape.cgMapStep { sA with cg_edges := cg2 } cgm with
    | error e =>
        rw [hM, exBind_error] at hok
        exact absurd hok (by simp)
    | ok sM =>
    rw [hM, exBind_ok] at hok
    cases hH : List.foldlM
        (TrafoLandscape.cgHiddenIter ((List.map Prod.fst sM.nodes).getLast?))
        sM (TrafoLandscape.hiddenNodes sM) with
    | error e =>
        rw [hH, exBind_error] at hok
        exact absurd hok (by simp)
    | ok sH =>
    rw [hH, exBind_ok] at hok
    try simp only [exPure] at hok
    injection hok with hok
    have hs' : s' = sH := (congrArg Prod.fst hok).symm
    have hclear : ClearedL sA.nodes := cgPhase1_cleared s0 sA hA
    have hm0 : MapInv cgm ({ sA with cg_edges := cg2 } : TrafoLandscape).nodes :=
      mapInv_of_cleared cgm _ hclear
    have hmM : MapInv cgm sM.nodes := by
      refine foldlM_inv_mem TrafoLandscape.cgMapStep
        (fun u => MapInv cgm u.nodes) cgm ?_ _ sM hm0 hM
      intro u a u' ha hpu hstep
      exact cgMapStep_mapinv cgm u u' a ha hpu hstep
    have hmH : MapInv cgm sH.nodes := by
      refine mapInv_of_flagsFrom cgm hmM ?_
      refine foldlM_inv_mem
        (TrafoLandscape.cgHiddenIter ((List.map Prod.fst sM.nodes).getLast?))
        (fun u => FlagsFromL sM.nodes u.nodes) (TrafoLandscape.hiddenNodes sM) ?_ sM sH
        (flagsFromL_refl _) hH
      intro u a u' _ hpu hstep
      cases hnl : (List.map Prod.fst sM.nodes).getLast? with
      | none =>
          rw [hnl] at hstep
          exact absurd hstep (by simp [TrafoLandscape.cgHiddenIter, exThrow])
      | some nlast =>
          rw [hnl] at hstep
          exact flagsFromL_trans hpu (cgHiddenStep_flags nlast u u' a hstep)
    rw [show Exclusive s' = ExclusiveL s'.nodes from rfl, hs']
    exact exclusiveL_of_mapInv cgm sH.nodes
      (fun p hp q hq => hpart _ _ _ p q hp hq) hmH

theorem addnode_excl (o : Oracles) (s s' : TrafoLandscape) (key : String)
    (st : Option String) (occ : ℚ) (idn : Option String) (en : Option ℤ)
    (act : Bool) (pr : ℕ) (lr hd ot : Option (List String))
    (hflag : truthyL lr = false ∨ truthyL hd = false)
    (hx : Exclusive s)
    (h : TrafoLandscape.addnode o s key st occ idn en act pr lr hd ot = .ok s') :
    Exclusive s' := by
  simp only [TrafoLandscape.addnode] at h
  by_cases hp : (lget s.nodes key).isSome = true
  · rw [if_pos hp] at h
    exact absurd h (by simp [exThrow, exBind_error])
  · rw [if_neg hp] at h
    try simp only [exPure, exBind_ok] at h
    injection h with h
    subst h
    exact exclusiveL_append s.nodes key _ hflag hx

theorem addedge_nodes (s s' : TrafoLandscape) (n1 n2 : String) (se : ℤ)
    (h : TrafoLandscape.addedge s n1 n2 se = .ok s') : s'.nodes = s.nodes := by
  simp only [TrafoLandscape.addedge] at h
  by_cases h1 : (lget s.nodes n1).isNone = true
  · rw [if_pos h1] at h
    exact absurd h (by simp [exThrow, exBind_error])
  · rw [if_neg h1] at h
    try simp only [exPure, exBind_ok] at h
    by_cases h2 : (lget s.nodes n2).isNone = true
    · rw [if_pos h2] at h
      exact absurd h (by simp [exThrow, exBind_error])
    · rw [if_neg h2] at h
      try simp only [exPure, exBind_ok] at h
      cases he : lget s.edges (n1, n2) with
      | none =>
          simp only [he] at h
          try simp only [exPure] at h
          injection h with h
          subst h
          rfl
      | some ed =>
          simp only [he] at h
          try simp only [exPure] at h
          injection h with h
          subst h
          rfl

theorem mergeStructure_excl (o : Oracles) (s : TrafoLandscape) (nn ron : List String)
    (acc' : TrafoLandscape × List String × List String) (key : String)
    (hx : Exclusive s)
    (h : TrafoLandscape.mergeStructure o (s, nn, ron) key = .ok acc') :
    Exclusive acc'.1 := by
  simp only [TrafoLandscape.mergeStructure] at h
  cases hl : lget s.nodes key with
  | none =>
      simp only [hl] at h
      cases han : TrafoLandscape.addnode o s key (some key) 0 none none true 0
          none none none with
      | error e =>
          rw [han, exBind_error] at h
          exact absurd h (by simp)
      | ok s2 =>
          rw [han, exBind_ok] at h
          try simp only [exPure] at h
          injection h with h
          subst h
          exact addnode_excl o s s2 key (some key) 0 none none true 0
            none none none (Or.inl rfl) hx han
  | some d =>
      simp only [hl] at h
      by_cases hact : d.active = true
      · rw [if_pos hact] at h
        try simp only [exPure] at h
        injection h with h
        subst h
        exact hx
      · rw [if_neg hact] at h
        try simp only [exPure] at h
        injection h with h
        subst h
        exact exclusiveL_of_flagsFrom hx
          (flagsFromL_lset (fun d => { d with active := true })
            (fun v => ⟨rfl, rfl⟩) s.nodes key)

theorem mergeFloodNode_excl (o : Oracles) (s : TrafoLandscape) (nn ron : List String)
    (acc' : TrafoLandscape × List String × List String) (node : String) (en : ℤ)
    (hx : Exclusive s)
    (h : TrafoLandscape.mergeFloodNode o (s, nn, ron) (node, en) = .ok acc') :
    Exclusive acc'.1 := by
  simp only [TrafoLandscape.mergeFloodNode] at h
  have hfin : ∀ (s2 : TrafoLandscape) (nn2 ron2 : List String), Exclusive s2 →
      ((match lget s2.nodes node with
        | some d => if d.energy = some en then
            (pure (s2, nn2, ron2) : Except Err (TrafoLandscape × List String × List String))
          else throw Err.assertionError
        | none => throw Err.keyError) = .ok acc') →
      Exclusive acc'.1 := by
    intro s2 nn2 ron2 hx2 h2
    cases hl2 : lget s2.nodes node with
    | none =>
        rw [hl2] at h2
        exact absurd h2 (by simp [exThrow])
    | some d2 =>
        simp only [hl2] at h2
        by_cases he : d2.energy = some en
        · rw [if_pos he] at h2
          try simp only [exPure] at h2
          injection h2 with h2
          subst h2
          exact hx2
        · rw [if_neg he] at h2
          exact absurd h2 (by simp [exThrow])
  cases hl : lget s.nodes node with
  | none =>
      simp only [hl] at h
      cases han : TrafoLandscape.addnode o s node (some node) 0 none (some en) true 0
          none none none with
      | error e =>
          rw [han] at h
          exact absurd h (by simp [exBind_error])
      | ok s2 =>
          rw [han] at h
          try simp only [exPure, exBind_ok] at h
          exact hfin s2 (sinsert nn node) ron
            (addnode_excl o s s2 node (some node) 0 none (some en) true 0
              none none none (Or.inl rfl) hx han) h
  | some d =>
      simp only [hl] at h
      by_cases hact : d.active = true
      · rw [if_pos hact] at h
        try simp only [exPure, exBind_ok] at h
        exact hfin s nn ron hx h
      · rw [if_neg hact] at h
        try simp only [exPure, exBind_ok] at h
        exact hfin (s.setActive node true) nn (sinsert ron node)
          (exclusiveL_of_flagsFrom hx
            (flagsFromL_lset (fun d => { d with active := true })
              (fun v => ⟨rfl, rfl⟩) s.nodes node)) h

theorem expand_exclusive (o : Oracles) (s0 s' : TrafoLandscape) (nn ron : List String)
    (hx : Exclusive s0)
    (h : TrafoLandscape.expand o s0 = .ok (s', nn, ron)) : Exclusive s' := by
  simp only [TrafoLandscape.expand] at h
  set tl1 := min (s0.transcript_length + 1) s0.sequence.length with htl1
  set s1 : TrafoLandscape := { s0 with transcript_length := tl1 } with hs1
  have hx1 : Exclusive s1 := hx
  set future := String.mk (List.replicate (s0.sequence.length - tl1) '.') with hfut
  set mfess := o.mfe tl1 ++ future with hmfess
  by_cases hemp : s1.nodes.isEmpty = true
  · rw [if_pos hemp] at h
    cases han : TrafoLandscape.addnode o s1 mfess (some mfess) 1 none none true 0
        none none none with
    | error e =>
        rw [han, exBind_error] at h
        exact absurd h (by simp)
    | ok s2 =>
        rw [han, exBind_ok] at h
        try simp only [exPure] at h
        injection h with h
        have hs2 : s2 = s' := congrArg Prod.fst h
        rw [← hs2]
        exact addnode_excl o s1 s2 mfess (some mfess) 1 none none true 0
          none none none (Or.inl rfl) hx1 han
  · rw [if_neg hemp] at h
    set seq := s0.sequence.take tl1 with hseq
    set parents := (TrafoLandscape.activeLocalMins s1).map (fun x => x.take tl1)
      with hparents
    set fns := o.fraying seq parents with hfns
    cases hm1 : TrafoLandscape.mergeStructure o (s1, [], []) mfess with
    | error e =>
        rw [hm1, exBind_error] at h
        exact absurd h (by simp)
    | ok u =>
    rw [hm1, exBind_ok] at h
    obtain ⟨u1, u2, u3⟩ := u
    have hxu : Exclusive u1 := mergeStructure_excl o s1 [] [] (u1, u2, u3) mfess hx1 hm1
    cases hm2 : fns.foldlM
        (fun acc fn => TrafoLandscape.mergeStructure o acc (fn ++ future))
        (u1, u2, u3) with
    | error e =>
        rw [hm2, exBind_error] at h
        exact absurd h (by simp)
    | ok v =>
    rw [hm2, exBind_ok] at h
    obtain ⟨v1, v2, v3⟩ := v
    have hxv : Exclusive v1 := by
      refine foldlM_inv_mem
        (fun acc fn => TrafoLandscape.mergeStructure o acc (fn ++ future))
        (fun acc => Exclusive acc.1) fns ?_ (u1, u2, u3) (v1, v2, v3) hxu hm2
      intro w a w' _ hpw hstep
      obtain ⟨w1, w2, w3⟩ := w
      exact mergeStructure_excl o w1 w2 w3 w' (a ++ future) hpw hstep
    set trimmedActive := v1.nodes.filterMap fun kd =>
      if kd.2.active = true then some (kd.1.take tl1) else none with htrim
    set gnodes := (o.guide seq trimmedActive).1 with hgn
    set gedges := (o.guide seq trimmedActive).2 with hge
    by_cases hgb : (gnodes.any fun p => decide (p.1 = "")) = true
    · rw [if_pos hgb] at h
      exact absurd h (by simp [exThrow, exBind_error])
    · rw [if_neg hgb] at h
      try simp only [exPure, exBind_ok] at h
      cases hm3 : gnodes.foldlM
          (fun acc p => TrafoLandscape.mergeStructure o acc (p.1 ++ future))
          (v1, v2, v3) with
      | error e =>
          rw [hm3, exBind_error] at h
          exact absurd h (by simp)
      | ok w =>
      rw [hm3, exBind_ok] at h
      obtain ⟨w1, w2, w3⟩ := w
      have hxw : Exclusive w1 := by
        refine foldlM_inv_mem
          (fun acc p => TrafoLandscape.mergeStructure o acc (p.1 ++ future))
          (fun acc => Exclusive acc.1) gnodes ?_ (v1, v2, v3) (w1, w2, w3) hxv hm3
        intro z a z' _ hpz hstep
        obtain ⟨z1, z2, z3⟩ := z
        exact mergeStructure_excl o z1 z2 z3 z' (a.1 ++ future) hpz hstep
      cases hes : TrafoLandscape.activeEdgeSnapshot w1 with
      | error e =>
          rw [hes, exBind_error] at h
          exact absurd h (by simp)
      | ok edata0 =>
      rw [hes, exBind_ok] at h
      set gedges2 := gedges.map (fun p => (p.1 ++ future, p.2 ++ future)) with hge2
      set ndata0 := w1.nodes.filter (fun kd => kd.2.active) with hnd0
      set fdata := o.flooding s0.sequence w1.fpwm w1.minh ndata0 gedges2 edata0 with hfd
      cases hm4 : fdata.1.foldlM
          (fun acc p => TrafoLandscape.mergeFloodNode o acc p) (w1, w2, w3) with
      | error e =>
          rw [hm4, exBind_error] at h
          exact absurd h (by simp)
      | ok z =>
      rw [hm4, exBind_ok] at h
      obtain ⟨z1, z2, z3⟩ := z
      have hxz : Exclusive z1 := by
        refine foldlM_inv_mem
          (fun acc p => TrafoLandscape.mergeFloodNode o acc p)
          (fun acc => Exclusive acc.1) fdata.1 ?_ (w1, w2, w3) (z1, z2, z3) hxw hm4
        intro y a y' _ hpy hstep
        obtain ⟨y1, y2, y3⟩ := y
        obtain ⟨a1, a2⟩ := a
        exact mergeFloodNode_excl o y1 y2 y3 y' a1 a2 hpy hstep
      cases hm5 : fdata.2.foldlM
          (fun s e => TrafoLandscape.addedge s e.1.1 e.1.2 e.2) z1 with
      | error e =>
          rw [hm5, exBind_error] at h
          exact absurd h (by simp)
      | ok zf =>
      rw [hm5, exBind_ok] at h
      try simp only [exPure] at h
      injection h with h
      have hzf : zf = s' := congrArg Prod.fst h
      rw [← hzf]
      refine foldlM_inv_mem
        (fun s e => TrafoLandscape.addedge s e.1.1 e.1.2 e.2)
        (fun t => Exclusive t) fdata.2 ?_ z1 zf hxz hm5
      intro y a y' _ hpy hstep
      have := addedge_nodes y y' a.1.1 a.1.2 a.2 hstep
      rw [show Exclusive y' = ExclusiveL y'.nodes from rfl, this]
      exact hpy

theorem pruneHiddenStep_flags (t t' : TrafoLandscape) (hn : String)
    (h : TrafoLandscape.pruneHiddenStep t hn = .ok t') :
    FlagsFromL t.nodes t'.nodes := by
  unfold TrafoLandscape.pruneHiddenStep at h
  cases hl : lget t.nodes hn with
  | none =>
      rw [hl] at h
      exact absurd h (by simp [exThrow])
  | some hd =>
      simp only [hl] at h
      by_cases ho : ¬ hd.occupancy = 0
      · rw [if_pos ho] at h
        exact absurd h (by simp [exThrow, exBind_error])
      · rw [if_neg ho] at h
        try simp only [exPure, exBind_ok] at h
        injection h with h
        subst h
        exact flagsFromL_lset (fun d => { d with active := false })
          (fun v => ⟨rfl, rfl⟩) t.nodes hn

theorem prunePhase1_flags (pmin : ℚ) (keep : Option (List String)) :
    ∀ (lms : List String) (t : TrafoLandscape) (tot : ℚ) (acc : List String)
      (t' : TrafoLandscape) (ni : List String),
      TrafoLandscape.prunePhase1 pmin keep lms t tot acc = .ok (t', ni) →
      FlagsFromL t.nodes t'.nodes := by
  intro lms
  induction lms with
  | nil =>
      intro t tot acc t' ni h
      simp only [TrafoLandscape.prunePhase1, exPure] at h
      injection h with h
      rw [show t' = (t, ni).1 from (congrArg Prod.fst h).symm]
      exact flagsFromL_refl _
  | cons lm rest ih =>
      intro t tot acc t' ni h
      simp only [TrafoLandscape.prunePhase1] at h
      cases hk : keep with
      | none =>
          rw [hk] at h
          exact absurd h (by simp [exThrow, exBind_error])
      | some ks =>
          simp only [hk, exPure, exBind_ok] at h
          rw [← hk] at h
          by_cases hkept : decide (lm ∈ ks) = true
          · rw [if_pos hkept] at h
            exact ih t tot acc t' ni h
          · rw [if_neg hkept] at h
            have hflag1 : FlagsFromL t.nodes (t.setPruned lm 0).nodes :=
              flagsFromL_lset (fun d => { d with pruned := 0 })
                (fun v => ⟨rfl, rfl⟩) t.nodes lm
            by_cases hocc : tot + TrafoLandscape.occOf (t.setPruned lm 0) lm > pmin
            · rw [if_pos hocc] at h
              try simp only [exPure] at h
              injection h with h
              rw [show t' = ((t.setPruned lm 0), acc).1 from (congrArg Prod.fst h).symm]
              exact hflag1
            · rw [if_neg hocc] at h
              cases hl : lget (t.setPruned lm 0).nodes lm with
              | none =>
                  rw [hl] at h
                  exact absurd h (by simp [exThrow, exBind_error])
              | some d =>
                  simp only [hl] at h
                  cases hhn : d.hiddennodes with
                  | none =>
                      rw [hhn] at h
                      exact absurd h (by simp [exThrow, exBind_error])
                  | some hs =>
                      simp only [hhn, exPure, exBind_ok] at h
                      cases hf : hs.foldlM TrafoLandscape.pruneHiddenStep
                          (t.setPruned lm 0) with
                      | error e =>
                          rw [hf, exBind_error] at h
                          exact absurd h (by simp)
                      | ok t2 =>
                          rw [hf, exBind_ok] at h
                          have hflag2 : FlagsFromL t.nodes t2.nodes := by
                            refine flagsFromL_trans hflag1 ?_
                            refine foldlM_inv_mem TrafoLandscape.pruneHiddenStep
                              (fun u => FlagsFromL (t.setPruned lm 0).nodes u.nodes)
                              hs ?_ _ t2 (flagsFromL_refl _) hf
                            intro u a u' _ hpu hstep
                            exact flagsFromL_trans hpu (pruneHiddenStep_flags u u' a hstep)
                          have hflag3 : FlagsFromL t.nodes (t2.setActive lm false).nodes :=
                            flagsFromL_trans hflag2
                              (flagsFromL_lset (fun d => { d with active := false })
                                (fun v => ⟨rfl, rfl⟩) t2.nodes lm)
                          exact flagsFromL_trans hflag3
                            (ih (t2.setActive lm false) (tot + TrafoLandscape.occOf
                              (t.setPruned lm 0) lm) (acc ++ [lm]) t' ni h)

theorem prunePhase2Step_flags (t t' : TrafoLandscape) (lm : String)
    (h : TrafoLandscape.prunePhase2Step t lm = .ok t') :
    FlagsFromL t.nodes t'.nodes := by
  simp only [TrafoLandscape.prunePhase2Step] at h
  cases hl : lget t.nodes lm with
  | none =>
      rw [hl] at h
      exact absurd h (by simp [exThrow])
  | some d =>
      simp only [hl] at h
      by_cases ha : d.active = true
      · rw [if_pos ha] at h
        exact absurd h (by simp [exThrow, exBind_error])
      · rw [if_neg ha] at h
        try simp only [exPure, exBind_ok] at h
        cases hg : TrafoLandscape.get_active_nbrs t (t.nodes.length + 1) lm [] with
        | error e =>
            rw [hg, exBind_error] at h
            exact absurd h (by simp)
        | ok ys =>
            rw [hg, exBind_ok] at h
            obtain ⟨ys1, ys2⟩ := ys
            by_cases hz : (sdedup ys1).length = 0
            · rw [if_pos hz] at h
              exact absurd h (by simp [exThrow, exBind_error])
            · rw [if_neg hz] at h
              try simp only [exPure, exBind_ok] at h
              injection h with h
              subst h
              exact flagsFromL_lset (fun d => { d with occtransfer := some (sdedup ys1) })
                (fun v => ⟨rfl, rfl⟩) t.nodes lm

theorem pruneFinalStep_excl (delth : ℤ) (acc acc' : TrafoLandscape × List String × List String)
    (node : String)
    (hp : Exclusive acc.1 ∧ (acc.1.nodes.map Prod.fst).Nodup)
    (h : TrafoLandscape.pruneFinalStep delth acc node = .ok acc') :
    Exclusive acc'.1 ∧ (acc'.1.nodes.map Prod.fst).Nodup := by
  obtain ⟨t, pn, dn⟩ := acc
  obtain ⟨hx, hnd⟩ := hp
  simp only [TrafoLandscape.pruneFinalStep] at h
  cases hl : lget t.nodes node with
  | none =>
      rw [hl] at h
      exact absurd h (by simp [exThrow])
  | some d =>
      simp only [hl] at h
      have hset : ∀ (p : ℕ), Exclusive (t.setPruned node p) ∧
          (((t.setPruned node p).nodes.map Prod.fst)).Nodup := by
        intro p
        constructor
        · exact exclusiveL_of_flagsFrom hx
            (flagsFromL_lset (fun d => { d with pruned := p })
              (fun v => ⟨rfl, rfl⟩) t.nodes node)
        · rw [TrafoLandscape.setPruned, lset_map_fst]
          exact hnd
      by_cases ha : d.active = true
      · rw [if_pos ha] at h
        try simp only [exPure] at h
        injection h with h
        rw [show acc'.1 = (t.setPruned node 0, pn, dn).1 from congrArg Prod.fst h.symm]
        exact hset 0
      · rw [if_neg ha] at h
        by_cases hgt : ((d.pruned + 1 : ℕ) : ℤ) > delth
        · rw [if_pos hgt] at h
          try simp only [exPure] at h
          injection h with h
          rw [show acc'.1 = ({ t.setPruned node (d.pruned + 1) with
            edges := (t.setPruned node (d.pruned + 1)).edges.filter fun e =>
              decide (e.1.1 ≠ node) && decide (e.1.2 ≠ node),
            nodes := ldel (t.setPruned node (d.pruned + 1)).nodes node },
            if d.pruned + 1 = 1 then sinsert pn node else pn,
            sinsert dn node).1 from congrArg Prod.fst h.symm]
        
          constructor
          · exact exclusiveL_ldel _ node (hset (d.pruned + 1)).2 (hset (d.pruned + 1)).1
          · refine List.Nodup.sublist ?_ (hset (d.pruned + 1)).2
            exact List.Sublist.map Prod.fst (ldel_sublist _ node)
        · rw [if_neg hgt] at h
          try simp only [exPure] at h
          injection h with h
          rw [show acc'.1 = (t.setPruned node (d.pruned + 1),
            if d.pruned + 1 = 1 then sinsert pn node else pn, dn).1
            from congrArg Prod.fst h.symm]
          exact hset (d.pruned + 1)

theorem prune_exclusive (s : TrafoLandscape) (pmin : ℚ) (delth : ℤ)
    (keep : Option (List String)) (s' : TrafoLandscape) (pn dn : List String)
    (hnd : (s.nodes.map Prod.fst).Nodup) (hx : Exclusive s)
    (h : TrafoLandscape.prune s pmin delth keep = .ok (s', pn, dn)) :
    Exclusive s' := by
  simp only [TrafoLandscape.prune] at h
  cases h1 : TrafoLandscape.prunePhase1 pmin keep
      (stSort (fun a b => decide (TrafoLandscape.occOf s a ≤ TrafoLandscape.occOf s b))
        (TrafoLandscape.activeLocalMins s)) s 0 [] with
  | error e =>
      rw [h1, exBind_error] at h
      exact absurd h (by simp)
  | ok p1 =>
  obtain ⟨s1, ni⟩ := p1
  rw [h1, exBind_ok] at h
  have hf1 : FlagsFromL s.nodes s1.nodes :=
    prunePhase1_flags pmin keep _ s 0 [] s1 ni h1
  have hnd1 : (s1.nodes.map Prod.fst).Nodup := by
    obtain ⟨hk, _, _⟩ := prunePhase1_inv s pmin keep _ s 0 [] s1 ni
      (by
        intro lm hlm
        obtain ⟨d, hd, hact, _⟩ := activeLocalMins_mem s lm hnd ((mem_stSort _ _ _).mp hlm)
        exact ⟨d, hd, hact⟩) ⟨rfl, rfl, fun k d hk _ => hk⟩ h1 |>.1
    rw [hk]
    exact hnd
  cases h2 : TrafoLandscape.prunePhase2 s1 ni with
  | error e =>
      rw [h2, exBind_error] at h
      exact absurd h (by simp)
  | ok s2 =>
  rw [h2, exBind_ok] at h
  have hf2 : FlagsFromL s1.nodes s2.nodes := by
    unfold TrafoLandscape.prunePhase2 at h2
    refine foldlM_inv_mem TrafoLandscape.prunePhase2Step
      (fun u => FlagsFromL s1.nodes u.nodes) ni ?_ s1 s2 (flagsFromL_refl _) h2
    intro u a u' _ hpu hstep
    exact flagsFromL_trans hpu (prunePhase2Step_flags u u' a hstep)
  have hnd2 : (s2.nodes.map Prod.fst).Nodup := by
    have hk : s2.nodes.map Prod.fst = s1.nodes.map Prod.fst := by
      unfold TrafoLandscape.prunePhase2 at h2
      refine foldlM_proj_pres (fun u => u.nodes.map Prod.fst) _ ?_ ni s1 s2 h2
      intro u a u' hstep
      simp only [TrafoLandscape.prunePhase2Step] at hstep
      cases hl : lget u.nodes a with
      | none =>
          rw [hl] at hstep
          exact absurd hstep (by simp [exThrow])
      | some d =>
          simp only [hl] at hstep
          by_cases ha : d.active = true
          · rw [if_pos ha] at hstep
            exact absurd hstep (by simp [exThrow, exBind_error])
          · rw [if_neg ha] at hstep
            try simp only [exPure, exBind_ok] at hstep
            cases hg : TrafoLandscape.get_active_nbrs u (u.nodes.length + 1) a [] with
            | error e =>
                rw [hg, exBind_error] at hstep
                exact absurd hstep (by simp)
            | ok ys =>
                rw [hg, exBind_ok] at hstep
                obtain ⟨ys1, ys2⟩ := ys
                by_cases hz : (sdedup ys1).length = 0
                · rw [if_pos hz] at hstep
                  exact absurd hstep (by simp [exThrow, exBind_error])
                · rw [if_neg hz] at hstep
                  try simp only [exPure, exBind_ok] at hstep
                  injection hstep with hstep
                  subst hstep
                  exact lset_map_fst
                    (fun d => { d with occtransfer := some (sdedup ys1) }) u.nodes a
    rw [hk]
    exact hnd1
  have hx2 : Exclusive s2 :=
    exclusiveL_of_flagsFrom (exclusiveL_of_flagsFrom hx hf1) hf2
  have := foldlM_inv_mem (TrafoLandscape.pruneFinalStep delth)
    (fun acc => Exclusive acc.1 ∧ (acc.1.nodes.map Prod.fst).Nodup)
    (s2.nodes.map Prod.fst)
    (fun u a u' _ hpu hstep => pruneFinalStep_excl delth u u' a hpu hstep)
    (s2, [], []) (s', pn, dn) ⟨hx2, hnd2⟩ h
  exact this.1

/-- C6: assuming the coarse-graining collaborator returns a partition-shaped
mapping (no representative key occurs in any hidden set; the collaborator is
outside landscape.py), the exclusivity invariant — no node has `lminreps`
and `hiddennodes` simultaneously truthy — is established by every successful
`get_coarse_network` call regardless of the input state, and preserved by
every successful `expand` and (on landscapes with distinct node keys)
`prune` call, so it holds at every point between public operations. -/
theorem c6_partition_exclusive (o : Oracles) :
    (∀ (s s' : TrafoLandscape) (cnt : ℕ × ℕ), PartitionOracle o →
      TrafoLandscape.get_coarse_network o s = .ok (s', cnt) → Exclusive s') ∧
    (∀ (s s' : TrafoLandscape) (nn ron : List String), Exclusive s →
      TrafoLandscape.expand o s = .ok (s', nn, ron) → Exclusive s') ∧
    (∀ (s : TrafoLandscape) (pmin : ℚ) (delth : ℤ) (keep : Option (List String))
      (s' : TrafoLandscape) (pn dn : List String),
      (s.nodes.map Prod.fst).Nodup → Exclusive s →
      TrafoLandscape.prune s pmin delth keep = .ok (s', pn, dn) → Exclusive s') :=
  ⟨fun s s' cnt hp hok => cg_exclusive o s s' cnt hp hok,
   fun s s' nn ron hx hok => expand_exclusive o s s' nn ron hx hok,
   fun s pmin delth keep s' pn dn hnd hx hok =>
     prune_exclusive s pmin delth keep s' pn dn hnd hx hok⟩

/-- Single-active-node fixture for the C6 witness. -/
def c6nd : NodeData :=
  { structure_ := none, occupancy := 1, identity := "0", energy := some 0,
    active := true, pruned := 0, lminreps := none, hiddennodes := none,
    occtransfer := none }

def c6s : TrafoLandscape :=
  { sequence := "AA", temperature := 37, prefixStr := "", nodeID := 1,
    nodes := [("A", c6nd)], edges := [], cg_edges := [],
    k0 := 200000, minh := 0, fpwm := 0, mfree := 6, transcript_length := 2 }

def c6O : Oracles :=
  { mfe := fun _ => "x", eval_structure := fun _ => 0,
    fraying := fun _ _ => [], guide := fun _ _ => ([], []),
    flooding := fun _ _ _ _ _ _ => ([], []),
    coarse := fun _ _ _ => ([("A", 0)], [], [("A", [])]),
    mx_simulate := fun _ _ _ _ _ _ _ => [] }

def c6res : TrafoLandscape :=
  { c6s with nodes :=
      [("A", { c6nd with lminreps := some [], hiddennodes := some [] })] }

theorem c6_partition_exclusive_witness :
    PartitionOracle c6O ∧
    TrafoLandscape.get_coarse_network c6O c6s = .ok (c6res, 1, 0) ∧
    Exclusive c6res := by
  have hpart : PartitionOracle c6O := by
    intro nd ed mh p q hp hq
    have hp' : p = ("A", ([] : List String)) := by simpa [c6O] using hp
    have hq' : q = ("A", ([] : List String)) := by simpa [c6O] using hq
    subst hp'
    subst hq'
    simp
  have hok : TrafoLandscape.get_coarse_network c6O c6s = .ok (c6res, 1, 0) := by rfl
  exact ⟨hpart, hok,
    (c6_partition_exclusive c6O).1 c6s c6res (1, 0) hpart hok⟩

/-! ## C1: occupancy conservation -/

/-- Oracle for the C1 trace: fraying proposes `b`, and coarse graining of
the three-node graph hides `x.` under representatives `a` and `b`. -/
def c1O : Oracles :=
  { mfe := fun n => if n = 1 then "x" else "a",
    eval_structure := fun _ => 0,
    fraying := fun _ _ => ["b"],
    guide := fun _ _ => ([], []),
    flooding := fun _ _ _ _ _ _ => ([], []),
    coarse := fun nd _ _ =>
      match nd with
      | [p] => ([(p.1, 0)], [], [])
      | _ => ([("a", 0), ("b", 0)],
              [(("a", "b"), 0), (("b", "a"), 0)],
              [("a", ["x."]), ("b", ["x."])]),
    mx_simulate := fun _ _ _ _ _ _ _ => [] }

def c1s0 : TrafoLandscape :=
  { sequence := "AA", temperature := 37, prefixStr := "", nodeID := 0,
    nodes := [], edges := [], cg_edges := [],
    k0 := 200000, minh := 0, fpwm := 0, mfree := 6, transcript_length := 0 }

def c1x0 : NodeData :=
  { structure_ := some "x.", occupancy := 1, identity := "0", energy := some 0,
    active := true, pruned := 0, lminreps := none, hiddennodes := none,
    occtransfer := none }

def c1sE1 : TrafoLandscape :=
  { c1s0 with nodeID := 1, nodes := [("x.", c1x0)], transcript_length := 1 }

def c1x1 : NodeData := { c1x0 with lminreps := some [], hiddennodes := some [] }

def c1sC1 : TrafoLandscape :=
  { c1s0 with nodeID := 1, nodes := [("x.", c1x1)], transcript_length := 1 }

def c1na : NodeData :=
  { structure_ := some "a", occupancy := 0, identity := "1", energy := some 0,
    active := true, pruned := 0, lminreps := none, hiddennodes := none,
    occtransfer := none }

def c1nb : NodeData := { c1na with structure_ := some "b", identity := "2" }

def c1sE2 : TrafoLandscape :=
  { c1s0 with nodeID := 3, nodes := [("x.", c1x1), ("a", c1na), ("b", c1nb)], transcript_length := 2 }

def c1x2 : NodeData :=
  { c1x0 with occupancy := 0, active := false, lminreps := some ["a", "b"], hiddennodes := some [] }

def c1na2 : NodeData :=
  { c1na with occupancy := 1/2, lminreps := some [], hiddennodes := some ["x."] }

def c1nb2 : NodeData :=
  { c1nb with occupancy := 1/2, lminreps := some [], hiddennodes := some ["x."] }

def c1cgE : List ((String × String) × CgEdgeData) :=
  [(("a", "b"), { saddle_energy := 0, bar := 0 }),
   (("b", "a"), { saddle_energy := 0, bar := 0 })]

def c1sC2 : TrafoLandscape :=
  { c1s0 with nodeID := 3, nodes := [("x.", c1x2), ("a", c1na2), ("b", c1nb2)], cg_edges := c1cgE, transcript_length := 2 }

def c1sP2 : TrafoLandscape :=
  { c1s0 with nodeID := 3, nodes := [("b", c1nb2)], cg_edges := c1cgE, transcript_length := 2 }

theorem c1step1 : expand c1O c1s0 = .ok (c1sE1, ["x."], []) := by rfl

theorem c1step2 : get_coarse_network c1O c1sE1 = .ok (c1sC1, 1, 0) := by rfl

theorem c1step3 : prune c1sC1 0 10 (some []) = .ok (c1sC1, [], []) := by
  simp only [prune]
  rw [show stSort (fun a b => decide (occOf c1sC1 a ≤ occOf c1sC1 b))
        (activeLocalMins c1sC1) = ["x."] from by
    simp [stSort, stInsert, activeLocalMins, c1sC1, c1s0, c1x1, c1x0, truthyL]]
  rw [show prunePhase1 0 (some []) ["x."] c1sC1 0 [] = .ok (c1sC1, []) from by
    simp [prunePhase1, c1sC1, c1s0, c1x1, c1x0, occOf, lget, lset, setPruned,
      exPure, exBind_ok]]
  rw [exBind_ok]
  rw [show prunePhase2 c1sC1 [] = .ok c1sC1 from rfl]
  rw [exBind_ok]
  simp [pruneFinalStep, c1sC1, c1s0, c1x1, c1x0, lget, lset, setPruned,
    exPure, exBind_ok]

theorem c1step4 : expand c1O c1sC1 = .ok (c1sE2, ["a", "b"], []) := by rfl

def c1na1 : NodeData := { c1na with lminreps := some [], hiddennodes := some [] }

def c1nb1 : NodeData := { c1nb with lminreps := some [], hiddennodes := some [] }

def c1sE2c : TrafoLandscape :=
  { c1s0 with nodeID := 3, nodes := [("x.", c1x1), ("a", c1na1), ("b", c1nb1)], transcript_length := 2 }

theorem c1step5 : get_coarse_network c1O c1sE2 = .ok (c1sC2, 2, 2) := by
  simp only [get_coarse_network]
  rw [show cgPhase1 c1sE2 = .ok c1sE2c from by
    simp [cgPhase1, cgTransferStep, cgTransferTo, c1sE2, c1sE2c, c1s0, c1x1, c1x0,
      c1na, c1nb, c1na1, c1nb1, lget, lset, setLminreps, setHiddennodes,
      exPure, exBind_ok]]
  rw [exBind_ok]
  rw [show cgActiveEdges c1sE2c = .ok [] from rfl]
  rw [exBind_ok]
  simp [c1O, c1sE2c, c1sC2, c1s0, c1x1, c1x0, c1x2, c1na, c1nb, c1na1, c1nb1,
    c1na2, c1nb2, c1cgE, buildCgEdges, dinsert, cgMapStep, cgMapHiddenStep,
    cgHiddenIter, cgHiddenStep, cgHiddenTo, hiddenNodes, truthyL, occOf, lget,
    lset, sinsert, setLminreps, setHiddennodes, setOcc, setActive, addOcc,
    exPure, exBind_ok, exThrow]

def c1na3 : NodeData := { c1na2 with active := false }

def c1sD : TrafoLandscape :=
  { c1s0 with nodeID := 3, nodes := [("x.", c1x2), ("a", c1na3), ("b", c1nb2)], cg_edges := c1cgE, transcript_length := 2 }

def c1na4 : NodeData := { c1na3 with occtransfer := some ["b"] }

def c1sD2 : TrafoLandscape :=
  { c1s0 with nodeID := 3, nodes := [("x.", c1x2), ("a", c1na4), ("b", c1nb2)], cg_edges := c1cgE, transcript_length := 2 }

theorem c1step6 : prune c1sC2 (1/2) 0 (some []) = .ok (c1sP2, ["x.", "a"], ["x.", "a"]) := by
  simp only [prune]
  rw [show stSort (fun a b => decide (occOf c1sC2 a ≤ occOf c1sC2 b))
        (activeLocalMins c1sC2) = ["a", "b"] from by
    simp [stSort, stInsert, activeLocalMins, c1sC2, c1s0, c1x2, c1x0, c1na2,
      c1nb2, c1na, c1nb, truthyL, occOf, lget]]
  rw [show prunePhase1 (1/2) (some []) ["a", "b"] c1sC2 0 [] = .ok (c1sD, ["a"]) from by
    simp [prunePhase1, pruneHiddenStep, c1sC2, c1sD, c1s0, c1x2, c1x0, c1na2,
      c1na3, c1nb2, c1na, c1nb, occOf, lget, lset, setPruned, setActive,
      truthyL, exPure, exBind_ok]]
  rw [exBind_ok]
  rw [show prunePhase2 c1sD ["a"] = .ok c1sD2 from by
    simp [prunePhase2, prunePhase2Step, get_active_nbrs, c1sD, c1sD2, c1s0,
      c1x2, c1x0, c1na3, c1na4, c1na2, c1nb2, c1na, c1nb, c1cgE, lget, lset,
      setOcctransfer, sinsert, sdedup, exPure, exBind_ok]]
  rw [exBind_ok]
  simp [pruneFinalStep, c1sD2, c1sP2, c1s0, c1x2, c1x0, c1na4, c1na3, c1na2,
    c1nb2, c1na, c1nb, c1cgE, lget, lset, ldel, setPruned, sinsert,
    exPure, exBind_ok]

/-- The C1 trace: two rounds of the prescribed per-step order
expand / get_coarse_network / prune, the second prune with `delth = 0`,
returning the final total occupancy. -/
def c1run : Except Err ℚ := do
  let (s1, _, _) ← expand c1O c1s0
  let (s2, _) ← get_coarse_network c1O s1
  let (s3, _, _) ← prune s2 0 10 (some [])
  let (s4, _, _) ← expand c1O s3
  let (s5, _) ← get_coarse_network c1O s4
  let (s6, _, _) ← prune s5 (1/2) 0 (some [])
  pure (totOcc s6)

/-- C1 counterexample: a prescribed-order trace of the three public
operations (second prune with `delth = 0`) ends with total occupancy 1/2,
not 1 — the final prune deletes node `a` while it still holds occupancy
1/2. -/
theorem c1_conservation_cex : c1run = .ok (1/2) ∧ ¬ ((1/2 : ℚ) = 1) := by
  constructor
  · simp only [c1run, c1step1, c1step2, c1step3, c1step4, c1step5, c1step6,
      exBind_ok]
    simp [totOcc, c1sP2, c1nb2, c1na, c1s0, exPure]
  · norm_num

/-- Inactive nodes holding occupancy carry a usable (non-empty) transfer
target set; the state prune leaves behind and get_coarse_network consumes. -/
def Stranded (s : TrafoLandscape) : Prop :=
  ∀ k d, lget s.nodes k = some d → d.active = false → d.occupancy ≠ 0 →
    ∃ ts, d.occtransfer = some ts ∧ ts ≠ []

/-- Every inactive node holds zero occupancy; the state get_coarse_network
leaves behind. -/
def InactiveZero (s : TrafoLandscape) : Prop :=
  ∀ k d, lget s.nodes k = some d → d.active = false → d.occupancy = 0

theorem stranded_of_inactiveZero {s : TrafoLandscape} (h : InactiveZero s) :
    Stranded s :=
  fun k d hd ha ho => absurd (h k d hd ha) ho

/-- Conservation relation carried through non-bootstrap `expand`: occupancy
sum unchanged, key distinctness preserved, strandedness preserved. -/
def EPres (a b : TrafoLandscape) : Prop :=
  listOcc b.nodes = listOcc a.nodes ∧
  ((a.nodes.map Prod.fst).Nodup → (b.nodes.map Prod.fst).Nodup) ∧
  (Stranded a → Stranded b)

theorem ePres_refl (a : TrafoLandscape) : EPres a a :=
  ⟨rfl, id, id⟩

theorem ePres_trans {a b c : TrafoLandscape} (h1 : EPres a b) (h2 : EPres b c) :
    EPres a c :=
  ⟨h2.1.trans h1.1, fun h => h2.2.1 (h1.2.1 h), fun h => h2.2.2 (h1.2.2 h)⟩

theorem listOcc_append_zero (l : List (String × NodeData)) (key : String)
    (d : NodeData) (hd : d.occupancy = 0) :
    listOcc (l ++ [(key, d)]) = listOcc l := by
  rw [listOcc_append]
  simp [listOcc, hd]

theorem nodup_append_fresh (l : List (String × NodeData)) (key : String)
    (d : NodeData) (hnone : lget l key = none)
    (hnd : (l.map Prod.fst).Nodup) :
    (((l ++ [(key, d)]).map Prod.fst)).Nodup := by
  rw [List.map_append]
  refine List.Nodup.append hnd (List.nodup_singleton key) ?_
  intro a ha hb
  simp only [List.map_cons, List.map_nil, List.mem_singleton] at hb
  subst hb
  exact absurd ha ((lget_eq_none_iff l a).mp hnone)

theorem strandedL_append_active (l : List (String × NodeData)) (key : String)
    (d : NodeData) (hact : d.active = true)
    (hstr : ∀ k d0, lget l k = some d0 → d0.active = false → d0.occupancy ≠ 0 →
      ∃ ts, d0.occtransfer = some ts ∧ ts ≠ []) :
    ∀ k d0, lget (l ++ [(key, d)]) k = some d0 → d0.active = false →
      d0.occupancy ≠ 0 → ∃ ts, d0.occtransfer = some ts ∧ ts ≠ [] := by
  intro k d0 hd0 ha ho
  rw [lget_append] at hd0
  cases hl : lget l k with
  | some v =>
      simp only [hl] at hd0
      injection hd0 with hd0
      subst hd0
      exact hstr k v hl ha ho
  | none =>
      simp only [hl, lget] at hd0
      by_cases hkk : key = k
      · simp only [if_pos hkk] at hd0
        injection hd0 with hd0
        rw [← hd0] at ha
        rw [hact] at ha
        cases ha
      · simp only [if_neg hkk] at hd0
        cases hd0

theorem setActive_true_epres (s : TrafoLandscape) (k : String) :
    EPres s (s.setActive k true) := by
  refine ⟨listOcc_lset_pres (fun d => { d with active := true })
    (fun d => rfl) s.nodes k, ?_, ?_⟩
  · intro hnd
    rw [TrafoLandscape.setActive, lset_map_fst]
    exact hnd
  · intro hstr k' d' hd' ha' ho'
    simp only [TrafoLandscape.setActive] at hd'
    by_cases hk : k' = k
    · subst hk
      rw [lget_lset_self] at hd'
      cases hl : lget s.nodes k' with
      | none => rw [hl] at hd'; cases hd'
      | some d =>
          rw [hl] at hd'
          injection hd' with hd'
          rw [← hd'] at ha'
          cases ha'
    · rw [lget_lset_ne _ _ _ _ hk] at hd'
      exact hstr k' d' hd' ha' ho'

theorem addnode_epres (o : Oracles) (s s' : TrafoLandscape) (key : String)
    (st : Option String) (idn : Option String) (en : Option ℤ) (pr : ℕ)
    (lr hd ot : Option (List String))
    (h : TrafoLandscape.addnode o s key st 0 idn en true pr lr hd ot = .ok s') :
    EPres s s' := by
  simp only [TrafoLandscape.addnode] at h
  by_cases hp : (lget s.nodes key).isSome = true
  · rw [if_pos hp] at h
    exact absurd h (by simp [exThrow, exBind_error])
  · rw [if_neg hp] at h
    try simp only [exPure, exBind_ok] at h
    injection h with h
    subst h
    have hnone : lget s.nodes key = none := by
      cases hl : lget s.nodes key with
      | none => rfl
      | some v => rw [hl] at hp; exact absurd rfl hp
    refine ⟨listOcc_append_zero s.nodes key _ rfl, ?_, ?_⟩
    · exact fun hnd => nodup_append_fresh s.nodes key _ hnone hnd
    · exact fun hstr => strandedL_append_active s.nodes key _ rfl hstr

theorem mergeStructure_epres (o : Oracles) (s : TrafoLandscape) (nn ron : List String)
    (acc' : TrafoLandscape × List String × List String) (key : String)
    (h : TrafoLandscape.mergeStructure o (s, nn, ron) key = .ok acc') :
    EPres s acc'.1 := by
  simp only [TrafoLandscape.mergeStructure] at h
  cases hl : lget s.nodes key with
  | none =>
      simp only [hl] at h
      cases han : TrafoLandscape.addnode o s key (some key) 0 none none true 0
          none none none with
      | error e =>
          rw [han, exBind_error] at h
          exact absurd h (by simp)
      | ok s2 =>
          rw [han, exBind_ok] at h
          try simp only [exPure] at h
          injection h with h
          subst h
          exact addnode_epres o s s2 key (some key) none none 0 none none none han
  | some d =>
      simp only [hl] at h
      by_cases hact : d.active = true
      · rw [if_pos hact] at h
        try simp only [exPure] at h
        injection h with h
        subst h
        exact ePres_refl s
      · rw [if_neg hact] at h
        try simp only [exPure] at h
        injection h with h
        subst h
        exact setActive_true_epres s key

theorem mergeFloodNode_epres (o : Oracles) (s : TrafoLandscape) (nn ron : List String)
    (acc' : TrafoLandscape × List String × List String) (node : String) (en : ℤ)
    (h : TrafoLandscape.mergeFloodNode o (s, nn, ron) (node, en) = .ok acc') :
    EPres s acc'.1 := by
  simp only [TrafoLandscape.mergeFloodNode] at h
  have hfin : ∀ (s2 : TrafoLandscape) (nn2 ron2 : List String), EPres s s2 →
      ((match lget s2.nodes node with
        | some d => if d.energy = some en then
            (pure (s2, nn2, ron2) : Except Err (TrafoLandscape × List String × List String))
          else throw Err.assertionError
        | none => throw Err.keyError) = .ok acc') →
      EPres s acc'.1 := by
    intro s2 nn2 ron2 hp2 h2
    cases hl2 : lget s2.nodes node with
    | none =>
        rw [hl2] at h2
        exact absurd h2 (by simp [exThrow])
    | some d2 =>
        simp only [hl2] at h2
        by_cases he : d2.energy = some en
        · rw [if_pos he] at h2
          try simp only [exPure] at h2
          injection h2 with h2
          subst h2
          exact hp2
        · rw [if_neg he] at h2
          exact absurd h2 (by simp [exThrow])
  cases hl : lget s.nodes node with
  | none =>
      simp only [hl] at h
      cases han : TrafoLandscape.addnode o s node (some node) 0 none (some en) true 0
          none none none with
      | error e =>
          rw [han] at h
          exact absurd h (by simp [exBind_error])
      | ok s2 =>
          rw [han] at h
          try simp only [exPure, exBind_ok] at h
          exact hfin s2 (sinsert nn node) ron
            (addnode_epres o s s2 node (some node) none (some en) 0 none none none han) h
  | some d =>
      simp only [hl] at h
      by_cases hact : d.active = true
      · rw [if_pos hact] at h
        try simp only [exPure, exBind_ok] at h
        exact hfin s nn ron (ePres_refl s) h
      · rw [if_neg hact] at h
        try simp only [exPure, exBind_ok] at h
        exact hfin (s.setActive node true) nn (sinsert ron node)
          (setActive_true_epres s node) h

theorem addedge_epres (s s' : TrafoLandscape) (n1 n2 : String) (se : ℤ)
    (h : TrafoLandscape.addedge s n1 n2 se = .ok s') : EPres s s' := by
  have hn := addedge_nodes s s' n1 n2 se h
  refine ⟨by rw [hn], fun hnd => by rw [hn]; exact hnd, ?_⟩
  intro hstr k d hd ha ho
  rw [hn] at hd
  exact hstr k d hd ha ho

theorem expand_occ (o : Oracles) (s0 s' : TrafoLandscape) (nn ron : List String)
    (h : TrafoLandscape.expand o s0 = .ok (s', nn, ron)) :
    (s0.nodes = [] →
      listOcc s'.nodes = 1 ∧ (s'.nodes.map Prod.fst).Nodup ∧ Stranded s') ∧
    (s0.nodes ≠ [] → EPres s0 s') := by
  simp only [TrafoLandscape.expand] at h
  set tl1 := min (s0.transcript_length + 1) s0.sequence.length with htl1
  set s1 : TrafoLandscape := { s0 with transcript_length := tl1 } with hs1
  set future := String.mk (List.replicate (s0.sequence.length - tl1) '.') with hfut
  set mfess := o.mfe tl1 ++ future with hmfess
  have hep1 : EPres s0 s1 := ⟨rfl, id, fun hs k d hd => hs k d hd⟩
  by_cases hemp : s1.nodes.isEmpty = true
  · rw [if_pos hemp] at h
    have hnil : s0.nodes = [] := List.isEmpty_iff.mp hemp
    cases han : TrafoLandscape.addnode o s1 mfess (some mfess) 1 none none true 0
        none none none with
    | error e =>
        rw [han, exBind_error] at h
        exact absurd h (by simp)
    | ok s2 =>
        rw [han, exBind_ok] at h
        try simp only [exPure] at h
        injection h with h
        have hs2 : s2 = s' := congrArg Prod.fst h
        simp only [TrafoLandscape.addnode] at han
        by_cases hp : (lget s1.nodes mfess).isSome = true
        · rw [if_pos hp] at han
          exact absurd han (by simp [exThrow, exBind_error])
        · rw [if_neg hp] at han
          try simp only [exPure, exBind_ok] at han
          injection han with han
          constructor
          · intro _
            rw [← hs2, ← han]
            have hsn : s1.nodes = [] := hnil
            refine ⟨?_, ?_, ?_⟩
            · rw [show ((s1.nodes ++ [(mfess, _)] : List (String × NodeData))) =
                s1.nodes ++ [(mfess, _)] from rfl, listOcc_append, hsn]
              simp [listOcc]
            · rw [show (s1.nodes ++ [(mfess, _)] : List (String × NodeData)).map Prod.fst =
                (s1.nodes ++ [(mfess, _)] : List (String × NodeData)).map Prod.fst from rfl]
              rw [hsn]
              simp
            · intro k d hd ha ho
              rw [hsn] at hd
              simp only [List.nil_append, lget] at hd
              by_cases hkk : mfess = k
              · simp only [if_pos hkk] at hd
                injection hd with hd
                rw [← hd] at ha
                cases ha
              · simp only [if_neg hkk] at hd
                cases hd
          · intro hne
            exact absurd hnil hne
  · rw [if_neg hemp] at h
    have hne0 : s0.nodes ≠ [] := by
      intro hc
      rw [show s1.nodes = s0.nodes from rfl, hc] at hemp
      exact hemp rfl
    refine ⟨fun hc => absurd hc hne0, fun _ => ?_⟩
    set seq := s0.sequence.take tl1 with hseq
    set parents := (TrafoLandscape.activeLocalMins s1).map (fun x => x.take tl1)
      with hparents
    set fns := o.fraying seq parents with hfns
    cases hm1 : TrafoLandscape.mergeStructure o (s1, [], []) mfess with
    | error e =>
        rw [hm1, exBind_error] at h
        exact absurd h (by simp)
    | ok u =>
    rw [hm1, exBind_ok] at h
    obtain ⟨u1, u2, u3⟩ := u
    have hpu : EPres s0 u1 :=
      ePres_trans hep1 (mergeStructure_epres o s1 [] [] (u1, u2, u3) mfess hm1)
    cases hm2 : fns.foldlM
        (fun acc fn => TrafoLandscape.mergeStructure o acc (fn ++ future))
        (u1, u2, u3) with
    | error e =>
        rw [hm2, exBind_error] at h
        exact absurd h (by simp)
    | ok v =>
    rw [hm2, exBind_ok] at h
    obtain ⟨v1, v2, v3⟩ := v
    have hpv : EPres s0 v1 := by
      refine foldlM_inv_mem
        (fun acc fn => TrafoLandscape.mergeStructure o acc (fn ++ future))
        (fun acc => EPres s0 acc.1) fns ?_ (u1, u2, u3) (v1, v2, v3) hpu hm2
      intro w a w' _ hpw hstep
      obtain ⟨w1, w2, w3⟩ := w
      exact ePres_trans hpw (mergeStructure_epres o w1 w2 w3 w' (a ++ future) hstep)
    set trimmedActive := v1.nodes.filterMap fun kd =>
      if kd.2.active = true then some (kd.1.take tl1) else none with htrim
    set gnodes := (o.guide seq trimmedActive).1 with hgn
    set gedges := (o.guide seq trimmedActive).2 with hge
    by_cases hgb : (gnodes.any fun p => decide (p.1 = "")) = true
    · rw [if_pos hgb] at h
      exact absurd h (by simp [exThrow, exBind_error])
    · rw [if_neg hgb] at h
      try simp only [exPure, exBind_ok] at h
      cases hm3 : gnodes.foldlM
          (fun acc p => TrafoLandscape.mergeStructure o acc (p.1 ++ future))
          (v1, v2, v3) with
      | error e =>
          rw [hm3, exBind_error] at h
          exact absurd h (by simp)
      | ok w =>
      rw [hm3, exBind_ok] at h
      obtain ⟨w1, w2, w3⟩ := w
      have hpw : EPres s0 w1 := by
        refine foldlM_inv_mem
          (fun acc p => TrafoLandscape.mergeStructure o acc (p.1 ++ future))
          (fun acc => EPres s0 acc.1) gnodes ?_ (v1, v2, v3) (w1, w2, w3) hpv hm3
        intro z a z' _ hpz hstep
        obtain ⟨z1, z2, z3⟩ := z
        exact ePres_trans hpz (mergeStructure_epres o z1 z2 z3 z' (a.1 ++ future) hstep)
      cases hes : TrafoLandscape.activeEdgeSnapshot w1 with
      | error e =>
          rw [hes, exBind_error] at h
          exact absurd h (by simp)
      | ok edata0 =>
      rw [hes, exBind_ok] at h
      set gedges2 := gedges.map (fun p => (p.1 ++ future, p.2 ++ future)) with hge2
      set ndata0 := w1.nodes.filter (fun kd => kd.2.active) with hnd0
      set fdata := o.flooding s0.sequence w1.fpwm w1.minh ndata0 gedges2 edata0 with hfd
      cases hm4 : fdata.1.foldlM
          (fun acc p => TrafoLandscape.mergeFloodNode o acc p) (w1, w2, w3) with
      | error e =>
          rw [hm4, exBind_error] at h
          exact absurd h (by simp)
      | ok z =>
      rw [hm4, exBind_ok] at h
      obtain ⟨z1, z2, z3⟩ := z
      have hpz : EPres s0 z1 := by
        refine foldlM_inv_mem
          (fun acc p => TrafoLandscape.mergeFloodNode o acc p)
          (fun acc => EPres s0 acc.1) fdata.1 ?_ (w1, w2, w3) (z1, z2, z3) hpw hm4
        intro y a y' _ hpy hstep
        obtain ⟨y1, y2, y3⟩ := y
        obtain ⟨a1, a2⟩ := a
        exact ePres_trans hpy (mergeFloodNode_epres o y1 y2 y3 y' a1 a2 hstep)
      cases hm5 : fdata.2.foldlM
          (fun s e => TrafoLandscape.addedge s e.1.1 e.1.2 e.2) z1 with
      | error e =>
          rw [hm5, exBind_error] at h
          exact absurd h (by simp)
      | ok zf =>
      rw [hm5, exBind_ok] at h
      try simp only [exPure] at h
      injection h with h
      have hzf : zf = s' := congrArg Prod.fst h
      rw [← hzf]
      refine foldlM_inv_mem
        (fun s e => TrafoLandscape.addedge s e.1.1 e.1.2 e.2)
        (fun t => EPres s0 t) fdata.2 ?_ z1 zf hpz hm5
      intro y a y' _ hpy hstep
      exact ePres_trans hpy (addedge_epres y y' a.1.1 a.1.2 a.2 hstep)

/-- Relation maintained by the stranded-occupancy transfer loop of
`get_coarse_network` (lines 305-314): activity flags and transfer sets
unchanged, and an inactive node's occupancy is its original one or already
zeroed. -/
def CgRel (a b : List (String × NodeData)) : Prop :=
  ∀ k d', lget b k = some d' → ∃ d, lget a k = some d ∧
    d'.active = d.active ∧ d'.occtransfer = d.occtransfer ∧
    (d'.active = false → d'.occupancy = d.occupancy ∨ d'.occupancy = 0)

theorem cgRel_refl (l : List (String × NodeData)) : CgRel l l :=
  fun k d' h => ⟨d', h, rfl, rfl, fun _ => Or.inl rfl⟩

theorem cgRel_trans {a b c : List (String × NodeData)}
    (h1 : CgRel a b) (h2 : CgRel b c) : CgRel a c := by
  intro k d' hd'
  obtain ⟨dm, hdm, e1, e2, e3⟩ := h2 k d' hd'
  obtain ⟨d, hd, f1, f2, f3⟩ := h1 k dm hdm
  refine ⟨d, hd, e1.trans f1, e2.trans f2, ?_⟩
  intro ha
  rcases e3 ha with he | he
  · rcases f3 (by rw [← e1]; exact ha) with hf | hf
    · exact Or.inl (he.trans hf)
    · exact Or.inr (he.trans hf)
  · exact Or.inr he

/-- One step of the transfer loops only raises active occupancies:
inactive nodes keep their activity and occupancy exactly. -/
def IZStep (a b : List (String × NodeData)) : Prop :=
  ∀ k d', lget b k = some d' → d'.active = true ∨
    ∃ d, lget a k = some d ∧ d'.active = d.active ∧ d'.occupancy = d.occupancy

theorem iZStep_refl (l : List (String × NodeData)) : IZStep l l :=
  fun k d' h => Or.inr ⟨d', h, rfl, rfl⟩

theorem iZStep_trans {a b c : List (String × NodeData)}
    (h1 : IZStep a b) (h2 : IZStep b c) : IZStep a c := by
  intro k d' hd'
  rcases h2 k d' hd' with ha | ⟨dm, hdm, e1, e2⟩
  · exact Or.inl ha
  · rcases h1 k dm hdm with hb | ⟨d, hd, f1, f2⟩
    · exact Or.inl (by rw [e1]; exact hb)
    · exact Or.inr ⟨d, hd, e1.trans f1, e2.trans f2⟩

theorem cgTransferFold_occ (n : String) (len : ℕ) :
    ∀ (ts : List String) (u u' : TrafoLandscape) (dn : NodeData),
      lget u.nodes n = some dn → dn.active = false →
      ts.foldlM (TrafoLandscape.cgTransferTo n len) u = .ok u' →
      listOcc u'.nodes =
        listOcc u.nodes + (ts.length : ℚ) * (dn.occupancy / (len : ℚ)) ∧
      lget u'.nodes n = some dn ∧
      u'.nodes.map Prod.fst = u.nodes.map Prod.fst ∧
      CgRel u.nodes u'.nodes ∧ IZStep u.nodes u'.nodes := by
  intro ts
  induction ts with
  | nil =>
      intro u u' dn hdn hact h
      simp only [List.foldlM, exPure] at h
      injection h with h
      subst h
      refine ⟨by simp, hdn, rfl, cgRel_refl _, iZStep_refl _⟩
  | cons tn rest ih =>
      intro u u' dn hdn hact h
      rw [List.foldlM_cons] at h
      cases hstep : TrafoLandscape.cgTransferTo n len u tn with
      | error e =>
          rw [hstep, exBind_error] at h
          exact absurd h (by simp)
      | ok u2 =>
      rw [hstep, exBind_ok] at h
      unfold TrafoLandscape.cgTransferTo at hstep
      cases hl : lget u.nodes tn with
      | none =>
          rw [hl] at hstep
          exact absurd hstep (by simp [exThrow])
      | some td =>
          simp only [hl] at hstep
          by_cases ha : ¬ td.active = true
          · rw [if_pos ha] at hstep
            exact absurd hstep (by simp [exThrow, exBind_error])
          · rw [if_neg ha] at hstep
            try simp only [exPure, exBind_ok] at hstep
            injection hstep with hstep
            have htdact : td.active = true := by
              cases hc : td.active with
              | true => rfl
              | false => rw [hc] at ha; exact absurd (by simp) ha
            have hne : tn ≠ n := by
              intro hc
              subst hc
              rw [hl] at hdn
              injection hdn with hdn
              rw [hdn] at htdact
              rw [htdact] at hact
              cases hact
            have hu2n : lget u2.nodes n = some dn := by
              rw [← hstep, TrafoLandscape.addOcc,
                lget_lset_ne _ _ _ _ (fun hc => hne hc.symm)]
              exact hdn
            have hocc : TrafoLandscape.occOf u n = dn.occupancy := by
              rw [TrafoLandscape.occOf, hdn]
            have hsum : listOcc u2.nodes =
                listOcc u.nodes + dn.occupancy / (len : ℚ) := by
              rw [← hstep, TrafoLandscape.addOcc, hocc]
              exact listOcc_lset_add _ u.nodes tn td hl
            have hmf : u2.nodes.map Prod.fst = u.nodes.map Prod.fst := by
              rw [← hstep, TrafoLandscape.addOcc]
              exact lset_map_fst _ u.nodes tn
            have hrel : CgRel u.nodes u2.nodes := by
              intro k d' hd'
              rw [← hstep, TrafoLandscape.addOcc] at hd'
              by_cases hk : k = tn
              · subst hk
                rw [lget_lset_self, hl] at hd'
                injection hd' with hd'
                refine ⟨td, hl, by rw [← hd'], by rw [← hd'], ?_⟩
                intro hfa
                rw [← hd'] at hfa
                simp only at hfa
                rw [hfa] at htdact
                cases htdact
              · rw [lget_lset_ne _ _ _ _ hk] at hd'
                exact ⟨d', hd', rfl, rfl, fun _ => Or.inl rfl⟩
            have hiz : IZStep u.nodes u2.nodes := by
              intro k d' hd'
              rw [← hstep, TrafoLandscape.addOcc] at hd'
              by_cases hk : k = tn
              · subst hk
                rw [lget_lset_self, hl] at hd'
                injection hd' with hd'
                left
                rw [← hd']
                exact htdact
              · rw [lget_lset_ne _ _ _ _ hk] at hd'
                exact Or.inr ⟨d', hd', rfl, rfl⟩
            obtain ⟨s1, s2, s3, s4, s5⟩ := ih u2 u' dn hu2n hact h
            refine ⟨?_, s2, s3.trans hmf, cgRel_trans hrel s4, iZStep_trans hiz s5⟩
            rw [s1, hsum, List.length_cons]
            push_cast
            ring

theorem cgTransferStep_occ (s cur cur' : TrafoLandscape) (n : String)
    (hstr : Stranded s) (hrel : CgRel s.nodes cur.nodes)
    (h : TrafoLandscape.cgTransferStep cur n = .ok cur') :
    listOcc cur'.nodes = listOcc cur.nodes ∧
    cur'.nodes.map Prod.fst = cur.nodes.map Prod.fst ∧
    CgRel s.nodes cur'.nodes ∧
    (∀ k d', lget cur'.nodes k = some d' →
      (k = n → d'.active = false → d'.occupancy = 0) ∧
      (k ≠ n → d'.active = true ∨ ∃ d, lget cur.nodes k = some d ∧
        d'.active = d.active ∧ d'.occupancy = d.occupancy)) := by
  simp only [TrafoLandscape.cgTransferStep] at h
  set s2 : TrafoLandscape := TrafoLandscape.setHiddennodes
    (TrafoLandscape.setLminreps cur n (some [])) n (some []) with hs2def
  have hS2occ : listOcc s2.nodes = listOcc cur.nodes := by
    have h1 : listOcc (TrafoLandscape.setLminreps cur n (some [])).nodes =
        listOcc cur.nodes :=
      listOcc_lset_pres (fun d => { d with lminreps := some [] })
        (fun d => rfl) cur.nodes n
    have h2 : listOcc s2.nodes =
        listOcc (TrafoLandscape.setLminreps cur n (some [])).nodes :=
      listOcc_lset_pres (fun d => { d with hiddennodes := some [] })
        (fun d => rfl) (TrafoLandscape.setLminreps cur n (some [])).nodes n
    exact h2.trans h1
  have hS2mf : s2.nodes.map Prod.fst = cur.nodes.map Prod.fst := by
    have h1 : (TrafoLandscape.setLminreps cur n (some [])).nodes.map Prod.fst =
        cur.nodes.map Prod.fst := by
      show List.map Prod.fst
          (lset (fun d => { d with lminreps := some [] }) cur.nodes n) =
        List.map Prod.fst cur.nodes
      exact lset_map_fst _ cur.nodes n
    have h2 : s2.nodes.map Prod.fst =
        (TrafoLandscape.setLminreps cur n (some [])).nodes.map Prod.fst := by
      show List.map Prod.fst
          (lset (fun d => { d with hiddennodes := some [] })
            (TrafoLandscape.setLminreps cur n (some [])).nodes n) =
        List.map Prod.fst (TrafoLandscape.setLminreps cur n (some [])).nodes
      exact lset_map_fst _ _ n
    exact h2.trans h1
  have hS2pt : ∀ k d', lget s2.nodes k = some d' → ∃ d, lget cur.nodes k = some d ∧
      d'.active = d.active ∧ d'.occupancy = d.occupancy ∧
      d'.occtransfer = d.occtransfer := by
    intro k d' hd'
    rw [hs2def, TrafoLandscape.setHiddennodes, TrafoLandscape.setLminreps] at hd'
    by_cases hk : k = n
    · subst hk
      rw [lget_lset_self, lget_lset_self] at hd'
      cases hl : lget cur.nodes k with
      | none => rw [hl] at hd'; cases hd'
      | some d =>
          rw [hl] at hd'
          injection hd' with hd'
          exact ⟨d, rfl, by rw [← hd'], by rw [← hd'], by rw [← hd']⟩
    · rw [lget_lset_ne _ _ _ _ hk, lget_lset_ne _ _ _ _ hk] at hd'
      exact ⟨d', hd', rfl, rfl, rfl⟩
  have hS2rel : CgRel cur.nodes s2.nodes := by
    intro k d' hd'
    obtain ⟨d, hd, e1, e2, e3⟩ := hS2pt k d' hd'
    exact ⟨d, hd, e1, e3, fun _ => Or.inl e2⟩
  have hS2iz : IZStep cur.nodes s2.nodes := by
    intro k d' hd'
    obtain ⟨d, hd, e1, e2, e3⟩ := hS2pt k d' hd'
    exact Or.inr ⟨d, hd, e1, e2⟩
  cases hl2 : lget s2.nodes n with
  | none =>
      rw [hl2] at h
      exact absurd h (by simp [exThrow])
  | some d =>
      simp only [hl2] at h
      by_cases hc : ¬ d.active = true ∧ ¬ d.occupancy = 0
      · rw [if_pos hc] at h
        obtain ⟨d0, hd0, he1, he2, he3⟩ :=
          cgRel_trans hrel hS2rel n d hl2
        have hdact : d.active = false := by
          cases hca : d.active with
          | false => rfl
          | true => rw [hca] at hc; exact absurd rfl hc.1
        have hdocc : d.occupancy = d0.occupancy := by
          rcases he3 hdact with hh | hh
          · exact hh
          · exact absurd hh hc.2
        obtain ⟨ts0, hts0, hts0ne⟩ := hstr n d0 hd0 (by rw [← he1]; exact hdact)
          (by rw [← hdocc]; exact hc.2)
        cases ho : d.occtransfer with
        | none =>
            rw [ho] at h
            exact absurd h (by simp [exThrow, exBind_error])
        | some ts =>
            simp only [ho] at h
            have htseq : ts = ts0 := by
              have := he2.trans hts0
              rw [ho] at this
              injection this
            have htsne : ts ≠ [] := by rw [htseq]; exact hts0ne
            have hlen : ((ts.length : ℚ)) ≠ 0 := by
              rw [Nat.cast_ne_zero]
              intro hc2
              exact htsne (List.length_eq_zero.mp hc2)
            cases hf : ts.foldlM (TrafoLandscape.cgTransferTo n ts.length) s2 with
            | error e =>
                rw [hf, exBind_error] at h
                exact absurd h (by simp)
            | ok u3 =>
                rw [hf, exBind_ok] at h
                try simp only [exPure] at h
                injection h with h
                subst h
                obtain ⟨f1, f2, f3, f4, f5⟩ :=
                  cgTransferFold_occ n ts.length ts s2 u3 d hl2 hdact hf
                have hzero : listOcc (u3.setOcc n 0).nodes =
                    listOcc u3.nodes - d.occupancy := by
                  rw [TrafoLandscape.setOcc]
                  exact listOcc_lset_zero u3.nodes n d f2
                have hcancel : (ts.length : ℚ) * (d.occupancy / (ts.length : ℚ))
                    = d.occupancy := by
                  rw [mul_comm, div_mul_cancel₀ _ hlen]
                refine ⟨?_, ?_, ?_, ?_⟩
                · rw [hzero, f1, hcancel, hS2occ]
                  ring
                · rw [TrafoLandscape.setOcc, lset_map_fst, f3, hS2mf]
                · refine cgRel_trans hrel (cgRel_trans hS2rel (cgRel_trans f4 ?_))
                  intro k d' hd'
                  rw [TrafoLandscape.setOcc] at hd'
                  by_cases hk : k = n
                  · subst hk
                    rw [lget_lset_self, f2] at hd'
                    injection hd' with hd'
                    refine ⟨d, f2, by rw [← hd'], by rw [← hd'], fun _ => Or.inr (by rw [← hd'])⟩
                  · rw [lget_lset_ne _ _ _ _ hk] at hd'
                    exact ⟨d', hd', rfl, rfl, fun _ => Or.inl rfl⟩
                · intro k d' hd'
                  constructor
                  · intro hk _
                    subst hk
                    rw [TrafoLandscape.setOcc, lget_lset_self, f2] at hd'
                    injection hd' with hd'
                    rw [← hd']
                  · intro hk
                    have hd3 : lget u3.nodes k = some d' := by
                      rw [TrafoLandscape.setOcc, lget_lset_ne _ _ _ _ hk] at hd'
                      exact hd'
                    rcases iZStep_trans hS2iz f5 k d' hd3 with
                      hh | ⟨dd, hdd, g1, g2⟩
                    · exact Or.inl hh
                    · exact Or.inr ⟨dd, hdd, g1, g2⟩
      · rw [if_neg hc] at h
        try simp only [exPure] at h
        injection h with h
        subst h
        refine ⟨hS2occ, hS2mf, cgRel_trans hrel hS2rel, ?_⟩
        intro k d' hd'
        constructor
        · intro hk hact'
          subst hk
          rw [hd'] at hl2
          injection hl2 with hl2
          rw [hl2] at hact' ⊢
          by_cases hocc : d.occupancy = 0
          · exact hocc
          · exact absurd ⟨by rw [hact']; simp, hocc⟩ hc
        · intro hk
          rcases hS2iz k d' hd' with hh | ⟨dd, hdd, g1, g2⟩
          · exact Or.inl hh
          · exact Or.inr ⟨dd, hdd, g1, g2⟩

theorem cgPhase1_occ (s s1 : TrafoLandscape) (hstr : Stranded s)
    (h : TrafoLandscape.cgPhase1 s = .ok s1) :
    listOcc s1.nodes = listOcc s.nodes ∧
    s1.nodes.map Prod.fst = s.nodes.map Prod.fst ∧
    CgRel s.nodes s1.nodes ∧
    (∀ k d, lget s1.nodes k = some d → d.active = false → d.occupancy = 0) := by
  unfold TrafoLandscape.cgPhase1 at h
  have hrem := foldlM_inv_rem TrafoLandscape.cgTransferStep
    (fun cur rem => (listOcc cur.nodes = listOcc s.nodes ∧
      cur.nodes.map Prod.fst = s.nodes.map Prod.fst ∧
      CgRel s.nodes cur.nodes) ∧
      (∀ k d, lget cur.nodes k = some d →
        k ∈ rem ∨ (d.active = false → d.occupancy = 0)))
    (by
      intro cur a cur' rest hQ hstep
      obtain ⟨⟨q1, q2, q3⟩, q4⟩ := hQ
      obtain ⟨c1, c2, c3, c4⟩ := cgTransferStep_occ s cur cur' a hstr q3 hstep
      refine ⟨⟨c1.trans q1, c2.trans q2, c3⟩, ?_⟩
      intro k d' hd'
      obtain ⟨p1, p2⟩ := c4 k d' hd'
      by_cases hk : k = a
      · exact Or.inr (p1 hk)
      · rcases p2 hk with hact | ⟨d, hd, e1, e2⟩
        · exact Or.inr (fun hfa => absurd hact (by rw [hfa]; simp))
        · rcases q4 k d hd with hin | hiz
          · rcases List.mem_cons.mp hin with he | ht
            · exact absurd he hk
            · exact Or.inl ht
          · refine Or.inr (fun hfa => ?_)
            rw [e2]
            exact hiz (by rw [← e1]; exact hfa))
    (s.nodes.map Prod.fst) s s1
    ⟨⟨rfl, rfl, cgRel_refl _⟩,
      fun k d hk => Or.inl ((lget_isSome_iff _ _).mp (by rw [hk]; rfl))⟩ h
  refine ⟨hrem.1.1, hrem.1.2.1, hrem.1.2.2, ?_⟩
  intro k d hk hact
  rcases hrem.2 k d hk with h' | h'
  · cases h'
  · exact h' hact

/-- Pointwise activity/occupancy preservation (the mapping loop only
touches the partition fields). -/
def OccAct (a b : List (String × NodeData)) : Prop :=
  ∀ k d', lget b k = some d' → ∃ d, lget a k = some d ∧
    d'.active = d.active ∧ d'.occupancy = d.occupancy

theorem occAct_refl (l : List (String × NodeData)) : OccAct l l :=
  fun k d' h => ⟨d', h, rfl, rfl⟩

theorem occAct_trans {a b c : List (String × NodeData)}
    (h1 : OccAct a b) (h2 : OccAct b c) : OccAct a c := by
  intro k d' hd'
  obtain ⟨dm, hdm, e1, e2⟩ := h2 k d' hd'
  obtain ⟨d, hd, f1, f2⟩ := h1 k dm hdm
  exact ⟨d, hd, e1.trans f1, e2.trans f2⟩

theorem occAct_lset (f : NodeData → NodeData)
    (hf : ∀ v, (f v).active = v.active ∧ (f v).occupancy = v.occupancy)
    (l : List (String × NodeData)) (k : String) :
    OccAct l (lset f l k) := by
  intro k' d' hd'
  by_cases hk : k' = k
  · subst hk
    rw [lget_lset_self] at hd'
    cases hl : lget l k' with
    | none => rw [hl] at hd'; cases hd'
    | some d =>
        rw [hl] at hd'
        injection hd' with hd'
        exact ⟨d, rfl, by rw [← hd']; exact (hf d).1, by rw [← hd']; exact (hf d).2⟩
  · rw [lget_lset_ne _ _ _ _ hk] at hd'
    exact ⟨d', hd', rfl, rfl⟩

/-- Every representative key of the mapping is present and active. -/
def KeysActive (m : List (String × List String)) (u : TrafoLandscape) : Prop :=
  ∀ p ∈ m, ∃ d, lget u.nodes p.1 = some d ∧ d.active = true

/-- Every member of any node's `lminreps` set is a representative key of
the mapping. -/
def MapInv2 (m : List (String × List String)) (l : List (String × NodeData)) : Prop :=
  ∀ k d, lget l k = some d → ∀ ls, d.lminreps = some ls → ∀ x ∈ ls, ∃ p ∈ m, p.1 = x

theorem mapInv2_of_cleared (m : List (String × List String))
    (l : List (String × NodeData)) (h : ClearedL l) : MapInv2 m l := by
  intro k d hd ls hls x hx
  rw [(h k d hd).1] at hls
  injection hls with hls
  rw [← hls] at hx
  cases hx

theorem cgMapHiddenStep_occ (m : List (String × List String)) (lmin hn : String)
    (t t' : TrafoLandscape)
    (hkey : ∃ p ∈ m, p.1 = lmin) (hinv2 : MapInv2 m t.nodes)
    (h : TrafoLandscape.cgMapHiddenStep lmin t hn = .ok t') :
    listOcc t'.nodes = listOcc t.nodes ∧
    t'.nodes.map Prod.fst = t.nodes.map Prod.fst ∧
    OccAct t.nodes t'.nodes ∧ MapInv2 m t'.nodes := by
  simp only [TrafoLandscape.cgMapHiddenStep] at h
  cases hl : lget t.nodes hn with
  | none =>
      rw [hl] at h
      exact absurd h (by simp [exThrow])
  | some hd =>
      simp only [hl] at h
      by_cases ha : ¬ hd.active = true
      · rw [if_pos ha] at h
        exact absurd h (by simp [exThrow, exBind_error])
      · rw [if_neg ha] at h
        cases hlr : hd.lminreps with
        | none =>
            rw [hlr] at h
            exact absurd h (by simp [exThrow, exBind_error])
        | some lr =>
            simp only [hlr, exPure, exBind_ok] at h
            injection h with h
            subst h
            refine ⟨?_, ?_, ?_, ?_⟩
            · exact listOcc_lset_pres
                (fun d => { d with lminreps := some (sinsert lr lmin) })
                (fun d => rfl) t.nodes hn
            · exact lset_map_fst
                (fun d => { d with lminreps := some (sinsert lr lmin) }) t.nodes hn
            · exact occAct_lset
                (fun d => { d with lminreps := some (sinsert lr lmin) })
                (fun v => ⟨rfl, rfl⟩) t.nodes hn
            · intro k d' hd' ls hls x hx
              simp only [TrafoLandscape.setLminreps] at hd'
              by_cases hk : k = hn
              · subst hk
                rw [lget_lset_self, hl] at hd'
                injection hd' with hd'
                rw [← hd'] at hls
                simp only at hls
                injection hls with hls
                rw [← hls] at hx
                rcases (mem_sinsert lr lmin x).mp hx with hx2 | hx2
                · exact hinv2 k hd hl lr hlr x hx2
                · rw [hx2]
                  exact hkey
              · rw [lget_lset_ne _ _ _ _ hk] at hd'
                exact hinv2 k d' hd' ls hls x hx

theorem cgMapStep_occ (m : List (String × List String)) (t t' : TrafoLandscape)
    (p : String × List String) (hp : p ∈ m) (hinv2 : MapInv2 m t.nodes)
    (h : TrafoLandscape.cgMapStep t p = .ok t') :
    listOcc t'.nodes = listOcc t.nodes ∧
    t'.nodes.map Prod.fst = t.nodes.map Prod.fst ∧
    OccAct t.nodes t'.nodes ∧ MapInv2 m t'.nodes ∧
    (∃ d, lget t'.nodes p.1 = some d ∧ d.active = true) := by
  simp only [TrafoLandscape.cgMapStep] at h
  cases hl : lget t.nodes p.1 with
  | none =>
      rw [hl] at h
      exact absurd h (by simp [exThrow])
  | some d =>
      simp only [hl] at h
      by_cases ha : ¬ d.active = true
      · rw [if_pos ha] at h
        exact absurd h (by simp [exThrow, exBind_error])
      · rw [if_neg ha] at h
        cases hf : p.2.foldlM (TrafoLandscape.cgMapHiddenStep p.1) t with
        | error e =>
            rw [hf, exBind_error] at h
            exact absurd h (by simp)
        | ok s3 =>
            rw [hf, exBind_ok] at h
            simp only [exPure] at h
            injection h with h
            subst h
            have hdact : d.active = true := by
              cases hc : d.active with
              | true => rfl
              | false => rw [hc] at ha; exact absurd (by simp) ha
            have hs3 : (listOcc s3.nodes = listOcc t.nodes ∧
                s3.nodes.map Prod.fst = t.nodes.map Prod.fst) ∧
                OccAct t.nodes s3.nodes ∧ MapInv2 m s3.nodes := by
              refine foldlM_inv_mem (TrafoLandscape.cgMapHiddenStep p.1)
                (fun u => (listOcc u.nodes = listOcc t.nodes ∧
                  u.nodes.map Prod.fst = t.nodes.map Prod.fst) ∧
                  OccAct t.nodes u.nodes ∧ MapInv2 m u.nodes) p.2 ?_ t s3
                ⟨⟨rfl, rfl⟩, occAct_refl _, hinv2⟩ hf
              intro u a u' _ hpu hstep
              obtain ⟨c1, c2, c3, c4⟩ :=
                cgMapHiddenStep_occ m p.1 a u u' ⟨p, hp, rfl⟩ hpu.2.2 hstep
              exact ⟨⟨c1.trans hpu.1.1, c2.trans hpu.1.2⟩,
                occAct_trans hpu.2.1 c3, c4⟩
            have hps3 : ∃ d3, lget s3.nodes p.1 = some d3 ∧ d3.active = true := by
              have hmem : p.1 ∈ s3.nodes.map Prod.fst := by
                rw [hs3.1.2, ← lget_isSome_iff, hl]
                rfl
              obtain ⟨d3, hd3⟩ :=
                Option.isSome_iff_exists.mp ((lget_isSome_iff _ _).mpr hmem)
              obtain ⟨d4, hd4, e1, _⟩ := hs3.2.1 p.1 d3 hd3
              rw [hl] at hd4
              injection hd4 with hd4
              refine ⟨d3, hd3, ?_⟩
              rw [e1, ← hd4]
              exact hdact
            refine ⟨?_, ?_, ?_, ?_, ?_⟩
            · rw [show (s3.setHiddennodes p.1 (some p.2)).nodes =
                lset (fun d => { d with hiddennodes := some p.2 }) s3.nodes p.1
                from rfl]
              rw [listOcc_lset_pres (fun d => { d with hiddennodes := some p.2 })
                (fun d => rfl)]
              exact hs3.1.1
            · rw [show (s3.setHiddennodes p.1 (some p.2)).nodes =
                lset (fun d => { d with hiddennodes := some p.2 }) s3.nodes p.1
                from rfl]
              rw [lset_map_fst]
              exact hs3.1.2
            · exact occAct_trans hs3.2.1
                (occAct_lset (fun d => { d with hiddennodes := some p.2 })
                  (fun v => ⟨rfl, rfl⟩) s3.nodes p.1)
            · intro k d' hd' ls hls x hx
              simp only [TrafoLandscape.setHiddennodes] at hd'
              by_cases hk : k = p.1
              · subst hk
                rw [lget_lset_self] at hd'
                cases hl3 : lget s3.nodes p.1 with
                | none => rw [hl3] at hd'; cases hd'
                | some d3 =>
                    rw [hl3] at hd'
                    injection hd' with hd'
                    rw [← hd'] at hls
                    simp only at hls
                    exact hs3.2.2 p.1 d3 hl3 ls hls x hx
              · rw [lget_lset_ne _ _ _ _ hk] at hd'
                exact hs3.2.2 k d' hd' ls hls x hx
            · obtain ⟨d3, hd3, hd3act⟩ := hps3
              refine ⟨{ d3 with hiddennodes := some p.2 }, ?_, hd3act⟩
              rw [show (s3.setHiddennodes p.1 (some p.2)).nodes =
                lset (fun d => { d with hiddennodes := some p.2 }) s3.nodes p.1
                from rfl]
              rw [lget_lset_self, hd3]
              rfl

theorem cgMapFold_occ (m : List (String × List String)) (t0 t' : TrafoLandscape)
    (hinv2 : MapInv2 m t0.nodes)
    (h : List.foldlM TrafoLandscape.cgMapStep t0 m = .ok t') :
    listOcc t'.nodes = listOcc t0.nodes ∧
    t'.nodes.map Prod.fst = t0.nodes.map Prod.fst ∧
    OccAct t0.nodes t'.nodes ∧ MapInv2 m t'.nodes ∧ KeysActive m t' := by
  have hrem := foldlM_inv_rem TrafoLandscape.cgMapStep
    (fun u rem => (listOcc u.nodes = listOcc t0.nodes ∧
      u.nodes.map Prod.fst = t0.nodes.map Prod.fst ∧
      OccAct t0.nodes u.nodes ∧ MapInv2 m u.nodes) ∧
      (∀ x ∈ rem, x ∈ m) ∧
      (∀ p ∈ m, p ∉ rem → ∃ d, lget u.nodes p.1 = some d ∧ d.active = true))
    (by
      intro u a u' rest hQ hstep
      obtain ⟨⟨q1, q2, q3, q4⟩, qsub, qact⟩ := hQ
      have ham : a ∈ m := qsub a (List.mem_cons_self a rest)
      obtain ⟨c1, c2, c3, c4, c5⟩ := cgMapStep_occ m u u' a ham q4 hstep
      refine ⟨⟨c1.trans q1, c2.trans q2, occAct_trans q3 c3, c4⟩,
        fun x hx => qsub x (List.mem_cons_of_mem a hx), ?_⟩
      intro p hpm hpr
      by_cases hpa : p = a
      · rw [hpa]
        exact c5
      · have hpold : p ∉ a :: rest := by
          intro hc
          rcases List.mem_cons.mp hc with he | ht
          · exact hpa he
          · exact hpr ht
        obtain ⟨d, hd, hdact⟩ := qact p hpm hpold
        have hmem : p.1 ∈ u'.nodes.map Prod.fst := by
          rw [c2, ← lget_isSome_iff, hd]
          rfl
        obtain ⟨d', hd'⟩ :=
          Option.isSome_iff_exists.mp ((lget_isSome_iff _ _).mpr hmem)
        obtain ⟨d0, hd0, e1, _⟩ := c3 p.1 d' hd'
        rw [hd] at hd0
        injection hd0 with hd0
        refine ⟨d', hd', ?_⟩
        rw [e1, ← hd0]
        exact hdact)
    m t0 t'
    ⟨⟨rfl, rfl, occAct_refl _, hinv2⟩, fun x hx => hx,
      fun p hp hnp => absurd hp hnp⟩ h
  exact ⟨hrem.1.1, hrem.1.2.1, hrem.1.2.2.1, hrem.1.2.2.2,
    fun p hp => hrem.2.2 p hp (by simp)⟩

theorem hiddenNodes_mem (s : TrafoLandscape) (k : String)
    (hnd : (s.nodes.map Prod.fst).Nodup)
    (h : k ∈ TrafoLandscape.hiddenNodes s) :
    ∃ d, lget s.nodes k = some d ∧ truthyL d.lminreps = true := by
  unfold TrafoLandscape.hiddenNodes at h
  obtain ⟨⟨k1, d⟩, hmem, hcond⟩ := List.mem_filterMap.mp h
  by_cases hc : truthyL d.lminreps = true
  · rw [if_pos hc] at hcond
    injection hcond with hcond
    subst hcond
    exact ⟨d, lget_of_mem_nodup _ _ _ hnd hmem, hc⟩
  · rw [if_neg hc] at hcond
    exact absurd hcond (by simp)

theorem cgHiddenFold_occ (m : List (String × List String)) (hn : String) (len : ℕ) :
    ∀ (reps : List String) (u u' : TrafoLandscape) (dh : NodeData),
      lget u.nodes hn = some dh →
      hn ∉ reps →
      (∀ x ∈ reps, ∃ p ∈ m, p.1 = x) →
      KeysActive m u →
      (∀ k d, lget u.nodes k = some d → d.active = false → d.occupancy = 0) →
      reps.foldlM (TrafoLandscape.cgHiddenTo hn len) u = .ok u' →
      listOcc u'.nodes =
        listOcc u.nodes + (reps.length : ℚ) * (dh.occupancy / (len : ℚ)) ∧
      lget u'.nodes hn = some dh ∧
      u'.nodes.map Prod.fst = u.nodes.map Prod.fst ∧
      KeysActive m u' ∧
      (∀ k d, lget u'.nodes k = some d → d.active = false → d.occupancy = 0) := by
  intro reps
  induction reps with
  | nil =>
      intro u u' dh hdh hni hsub hka hiz h
      simp only [List.foldlM, exPure] at h
      injection h with h
      subst h
      exact ⟨by simp, hdh, rfl, hka, hiz⟩
  | cons lrep rest ih =>
      intro u u' dh hdh hni hsub hka hiz h
      rw [List.foldlM_cons] at h
      cases hstep : TrafoLandscape.cgHiddenTo hn len u lrep with
      | error e =>
          rw [hstep, exBind_error] at h
          exact absurd h (by simp)
      | ok u2 =>
      rw [hstep, exBind_ok] at h
      unfold TrafoLandscape.cgHiddenTo at hstep
      cases hl : lget u.nodes lrep with
      | none =>
          rw [hl] at hstep
          exact absurd hstep (by simp [exThrow])
      | some td =>
          simp only [hl, exPure] at hstep
          injection hstep with hstep
          have hne : lrep ≠ hn := by
            intro hc
            exact hni (by rw [← hc]; exact List.mem_cons_self lrep rest)
          have hocc : TrafoLandscape.occOf u hn = dh.occupancy := by
            rw [TrafoLandscape.occOf, hdh]
          have hu2n : lget u2.nodes hn = some dh := by
            rw [← hstep, TrafoLandscape.addOcc,
              lget_lset_ne _ _ _ _ (fun hc => hne hc.symm)]
            exact hdh
          have hsum : listOcc u2.nodes =
              listOcc u.nodes + dh.occupancy / (len : ℚ) := by
            rw [← hstep, TrafoLandscape.addOcc, hocc]
            exact listOcc_lset_add _ u.nodes lrep td hl
          have hmf : u2.nodes.map Prod.fst = u.nodes.map Prod.fst := by
            rw [← hstep, TrafoLandscape.addOcc]
            exact lset_map_fst _ u.nodes lrep
          have htdact : td.active = true := by
            obtain ⟨p, hp, hpe⟩ := hsub lrep (List.mem_cons_self lrep rest)
            obtain ⟨d2, hd2, hd2act⟩ := hka p hp
            rw [hpe, hl] at hd2
            injection hd2 with hd2
            rw [hd2]
            exact hd2act
          have hka2 : KeysActive m u2 := by
            intro p hp
            obtain ⟨d2, hd2, hd2act⟩ := hka p hp
            by_cases hk : p.1 = lrep
            · rw [hk, hl] at hd2
              injection hd2 with hd2
              refine ⟨{ td with occupancy := td.occupancy +
                TrafoLandscape.occOf u hn / (len : ℚ) }, ?_, htdact⟩
              rw [← hstep, TrafoLandscape.addOcc, hk, lget_lset_self, hl]
              rfl
            · refine ⟨d2, ?_, hd2act⟩
              rw [← hstep, TrafoLandscape.addOcc, lget_lset_ne _ _ _ _ hk]
              exact hd2
          have hiz2 : ∀ k d, lget u2.nodes k = some d → d.active = false →
              d.occupancy = 0 := by
            intro k d hd hact
            rw [← hstep, TrafoLandscape.addOcc] at hd
            by_cases hk : k = lrep
            · subst hk
              rw [lget_lset_self, hl] at hd
              injection hd with hd
              rw [← hd] at hact
              simp only at hact
              rw [hact] at htdact
              cases htdact
            · rw [lget_lset_ne _ _ _ _ hk] at hd
              exact hiz k d hd hact
          obtain ⟨s1, s2, s3, s4, s5⟩ := ih u2 u' dh hu2n
            (fun hc => hni (List.mem_cons_of_mem lrep hc))
            (fun x hx => hsub x (List.mem_cons_of_mem lrep hx)) hka2 hiz2 h
          refine ⟨?_, s2, s3.trans hmf, s4, s5⟩
          rw [s1, hsum, List.length_cons]
          push_cast
          ring

theorem cgHiddenStep_occ (m : List (String × List String)) (sM : TrafoLandscape)
    (hpart2 : ∀ p ∈ m, ∀ q ∈ m, p.1 ∉ q.2)
    (hmi : MapInv m sM.nodes) (hm2 : MapInv2 m sM.nodes)
    (hndM : (sM.nodes.map Prod.fst).Nodup)
    (nlast : String) (cur cur' : TrafoLandscape) (hn : String)
    (hhn : hn ∈ TrafoLandscape.hiddenNodes sM)
    (hfl : FlagsFromL sM.nodes cur.nodes)
    (hka : KeysActive m cur)
    (hiz : ∀ k d, lget cur.nodes k = some d → d.active = false → d.occupancy = 0)
    (h : TrafoLandscape.cgHiddenStep nlast cur hn = .ok cur') :
    listOcc cur'.nodes = listOcc cur.nodes ∧
    cur'.nodes.map Prod.fst = cur.nodes.map Prod.fst ∧
    KeysActive m cur' ∧
    (∀ k d, lget cur'.nodes k = some d → d.active = false → d.occupancy = 0) := by
  obtain ⟨dM, hdM, hdMtr⟩ := hiddenNodes_mem sM hn hndM hhn
  have hnkey : ∀ p ∈ m, p.1 ≠ hn := by
    obtain ⟨q, hq, hqm⟩ := (hmi hn dM hdM).1 hdMtr
    intro p hp hc
    exact hpart2 p hp q hq (by rw [hc]; exact hqm)
  simp only [TrafoLandscape.cgHiddenStep] at h
  cases hl : lget cur.nodes nlast with
  | none =>
      rw [hl] at h
      exact absurd h (by simp [exThrow])
  | some dl =>
      simp only [hl] at h
      by_cases hc : ¬ dl.active = true ∧ ¬ dl.occupancy = 0
      · rw [if_pos hc] at h
        exact absurd h (by simp [exThrow, exBind_error])
      · rw [if_neg hc] at h
        try simp only [exPure, exBind_ok] at h
        cases hl2 : lget cur.nodes hn with
        | none =>
            rw [hl2] at h
            exact absurd h (by simp [exThrow])
        | some hd =>
            simp only [hl2] at h
            obtain ⟨dM2, hdM2, hfle1, hfle2⟩ := hfl hn hd hl2
            rw [hdM] at hdM2
            injection hdM2 with hdM2
            have hlrtr : truthyL hd.lminreps = true := by
              rw [hfle1, ← hdM2]
              exact hdMtr
            have hfin : ∀ (u3 : TrafoLandscape),
                listOcc u3.nodes = listOcc cur.nodes + hd.occupancy →
                lget u3.nodes hn = some hd →
                u3.nodes.map Prod.fst = cur.nodes.map Prod.fst →
                KeysActive m u3 →
                (∀ k d, lget u3.nodes k = some d → d.active = false →
                  d.occupancy = 0) →
                (Except.ok ((u3.setOcc hn 0).setActive hn false) :
                  Except Err TrafoLandscape) = .ok cur' →
                listOcc cur'.nodes = listOcc cur.nodes ∧
                cur'.nodes.map Prod.fst = cur.nodes.map Prod.fst ∧
                KeysActive m cur' ∧
                (∀ k d, lget cur'.nodes k = some d → d.active = false →
                  d.occupancy = 0) := by
              intro u3 g1 g2 g3 g4 g5 heq
              injection heq with heq
              subst heq
              have hz1 : listOcc (u3.setOcc hn 0).nodes =
                  listOcc u3.nodes - hd.occupancy := by
                rw [TrafoLandscape.setOcc]
                exact listOcc_lset_zero u3.nodes hn hd g2
              have hz2 : lget (u3.setOcc hn 0).nodes hn =
                  some { hd with occupancy := 0 } := by
                rw [TrafoLandscape.setOcc, lget_lset_self, g2]
                rfl
              refine ⟨?_, ?_, ?_, ?_⟩
              · have hpres : listOcc ((u3.setOcc hn 0).setActive hn false).nodes =
                    listOcc (u3.setOcc hn 0).nodes :=
                  listOcc_lset_pres (fun d => { d with active := false })
                    (fun d => rfl) (u3.setOcc hn 0).nodes hn
                rw [hpres, hz1, g1]
                ring
              · have h1 : ((u3.setOcc hn 0).setActive hn false).nodes.map Prod.fst =
                    (u3.setOcc hn 0).nodes.map Prod.fst := by
                  show List.map Prod.fst
                      (lset (fun d => { d with active := false })
                        (u3.setOcc hn 0).nodes hn) =
                    List.map Prod.fst (u3.setOcc hn 0).nodes
                  exact lset_map_fst _ _ hn
                have h2 : (u3.setOcc hn 0).nodes.map Prod.fst =
                    u3.nodes.map Prod.fst := by
                  show List.map Prod.fst
                      (lset (fun d => { d with occupancy := (0 : ℚ) }) u3.nodes hn) =
                    List.map Prod.fst u3.nodes
                  exact lset_map_fst _ _ hn
                rw [h1, h2, g3]
              · intro p hp
                obtain ⟨d2, hd2, hd2act⟩ := g4 p hp
                refine ⟨d2, ?_, hd2act⟩
                rw [TrafoLandscape.setActive, lget_lset_ne _ _ _ _ (hnkey p hp),
                  TrafoLandscape.setOcc, lget_lset_ne _ _ _ _ (hnkey p hp)]
                exact hd2
              · intro k d hd2 hact
                by_cases hk : k = hn
                · subst hk
                  rw [TrafoLandscape.setActive, lget_lset_self,
                    TrafoLandscape.setOcc, lget_lset_self, g2] at hd2
                  simp only [Option.map_map, Option.map] at hd2
                  injection hd2 with hd2
                  rw [← hd2]
                · rw [TrafoLandscape.setActive, lget_lset_ne _ _ _ _ hk,
                    TrafoLandscape.setOcc, lget_lset_ne _ _ _ _ hk] at hd2
                  exact g5 k d hd2 hact
            by_cases ho : ¬ hd.occupancy = 0
            · rw [if_pos ho] at h
              cases hlr : hd.lminreps with
              | none =>
                  rw [hlr] at h
                  exact absurd h (by simp [exThrow, exBind_error])
              | some reps =>
                  simp only [hlr] at h
                  have hrne : reps ≠ [] := by
                    rw [hlr] at hlrtr
                    intro hc2
                    rw [hc2] at hlrtr
                    simp [truthyL] at hlrtr
                  have hsub : ∀ x ∈ reps, ∃ p ∈ m, p.1 = x := by
                    intro x hx
                    exact hm2 hn dM hdM reps (by rw [hdM2, ← hfle1]; exact hlr) x hx
                  have hni : hn ∉ reps := by
                    intro hc2
                    obtain ⟨p, hp, hpe⟩ := hsub hn hc2
                    exact hnkey p hp hpe
                  have hlen : ((reps.length : ℚ)) ≠ 0 := by
                    rw [Nat.cast_ne_zero]
                    intro hc2
                    exact hrne (List.length_eq_zero.mp hc2)
                  cases hf : reps.foldlM (TrafoLandscape.cgHiddenTo hn reps.length)
                      cur with
                  | error e =>
                      rw [hf, exBind_error] at h
                      exact absurd h (by simp)
                  | ok u3 =>
                      rw [hf, exBind_ok] at h
                      try simp only [exPure] at h
                      obtain ⟨f1, f2, f3, f4, f5⟩ := cgHiddenFold_occ m hn
                        reps.length reps cur u3 hd hl2 hni hsub hka hiz hf
                      refine hfin u3 ?_ f2 f3 f4 f5 h
                      rw [f1, mul_comm, div_mul_cancel₀ _ hlen]
            · rw [if_neg ho] at h
              try simp only [exPure, exBind_ok] at h
              have hocc0 : hd.occupancy = 0 := by
                by_cases hcc : hd.occupancy = 0
                · exact hcc
                · exact absurd hcc ho
              refine hfin cur ?_ hl2 rfl hka hiz h
              rw [hocc0]
              ring

theorem cg_occ (o : Oracles) (s0 s' : TrafoLandscape) (cnt : ℕ × ℕ)
    (hpart : PartitionOracle o) (hnd : (s0.nodes.map Prod.fst).Nodup)
    (hstr : Stranded s0)
    (hok : TrafoLandscape.get_coarse_network o s0 = .ok (s', cnt)) :
    listOcc s'.nodes = listOcc s0.nodes ∧
    s'.nodes.map Prod.fst = s0.nodes.map Prod.fst ∧
    InactiveZero s' := by
  simp only [TrafoLandscape.get_coarse_network] at hok
  cases hA : TrafoLandscape.cgPhase1 s0 with
  | error e =>
      rw [hA, exBind_error] at hok
      exact absurd hok (by simp)
  | ok sA =>
  rw [hA, exBind_ok] at hok
  cases hE : TrafoLandscape.cgActiveEdges sA with
  | error e =>
      rw [hE, exBind_error] at hok
      exact absurd hok (by simp)
  | ok ed =>
  rw [hE, exBind_ok] at hok
  set cgn := (o.coarse (sA.nodes.filter fun kd => kd.2.active) ed sA.minh).1 with hcgn
  set cge := (o.coarse (sA.nodes.filter fun kd => kd.2.active) ed sA.minh).2.1 with hcge
  set cgm := (o.coarse (sA.nodes.filter fun kd => kd.2.active) ed sA.minh).2.2 with hcgm
  obtain ⟨hA1, hA2, hA3, hA4⟩ := cgPhase1_occ s0 sA hstr hA
  have hclear : ClearedL sA.nodes := cgPhase1_cleared s0 sA hA
  by_cases hall : ¬ (cgn.all fun p =>
      (lget (sA.nodes.filter fun kd => kd.2.active) p.1).isSome) = true
  · rw [if_pos hall] at hok
    exact absurd hok (by simp [exThrow, exBind_error])
  · rw [if_neg hall] at hok
    simp only [exPure, exBind_ok] at hok
    cases hB : TrafoLandscape.buildCgEdges cgn cge [] with
    | error e =>
        rw [hB, exBind_error] at hok
        exact absurd hok (by simp)
    | ok cg2 =>
    rw [hB, exBind_ok] at hok
    cases hM : List.foldlM TrafoLandscape.cgMapStep { sA with cg_edges := cg2 } cgm with
    | error e =>
        rw [hM, exBind_error] at hok
        exact absurd hok (by simp)
    | ok sM =>
    rw [hM, exBind_ok] at hok
    obtain ⟨hM1, hM2, hM3, hM4, hM5⟩ := cgMapFold_occ cgm { sA with cg_edges := cg2 }
      sM (mapInv2_of_cleared cgm _ hclear) hM
    have hmiM : MapInv cgm sM.nodes := by
      refine foldlM_inv_mem TrafoLandscape.cgMapStep
        (fun u => MapInv cgm u.nodes) cgm ?_ { sA with cg_edges := cg2 } sM
        (mapInv_of_cleared cgm _ hclear) hM
      intro u a u' ha hpu hstep
      exact cgMapStep_mapinv cgm u u' a ha hpu hstep
    have hndM : (sM.nodes.map Prod.fst).Nodup := by
      rw [hM2]
      show (sA.nodes.map Prod.fst).Nodup
      rw [hA2]
      exact hnd
    have hizM : ∀ k d, lget sM.nodes k = some d → d.active = false →
        d.occupancy = 0 := by
      intro k d hd hact
      obtain ⟨d0, hd0, e1, e2⟩ := hM3 k d hd
      rw [e2]
      exact hA4 k d0 hd0 (by rw [← e1]; exact hact)
    cases hH : List.foldlM
        (TrafoLandscape.cgHiddenIter ((List.map Prod.fst sM.nodes).getLast?))
        sM (TrafoLandscape.hiddenNodes sM) with
    | error e =>
        rw [hH, exBind_error] at hok
        exact absurd hok (by simp)
    | ok sH =>
    rw [hH, exBind_ok] at hok
    try simp only [exPure] at hok
    injection hok with hok
    have hs' : s' = sH := (congrArg Prod.fst hok).symm
    have hpart2 : ∀ p ∈ cgm, ∀ q ∈ cgm, p.1 ∉ q.2 :=
      fun p hp q hq => hpart _ _ _ p q hp hq
    have hHinv := foldlM_inv_mem
      (TrafoLandscape.cgHiddenIter ((List.map Prod.fst sM.nodes).getLast?))
      (fun u => listOcc u.nodes = listOcc sM.nodes ∧
        u.nodes.map Prod.fst = sM.nodes.map Prod.fst ∧
        FlagsFromL sM.nodes u.nodes ∧ KeysActive cgm u ∧
        (∀ k d, lget u.nodes k = some d → d.active = false → d.occupancy = 0))
      (TrafoLandscape.hiddenNodes sM)
      (by
        intro u a u' ha hpu hstep
        cases hnl : (List.map Prod.fst sM.nodes).getLast? with
        | none =>
            rw [hnl] at hstep
            exact absurd hstep (by simp [TrafoLandscape.cgHiddenIter, exThrow])
        | some nlast =>
            rw [hnl] at hstep
            obtain ⟨c1, c2, c3, c4⟩ := cgHiddenStep_occ cgm sM hpart2 hmiM hM4
              hndM nlast u u' a ha hpu.2.2.1 hpu.2.2.2.1 hpu.2.2.2.2 hstep
            exact ⟨c1.trans hpu.1, c2.trans hpu.2.1,
              flagsFromL_trans hpu.2.2.1 (cgHiddenStep_flags nlast u u' a hstep),
              c3, c4⟩)
      sM sH ⟨rfl, rfl, flagsFromL_refl _, hM5, hizM⟩ hH
    refine ⟨?_, ?_, ?_⟩
    · rw [hs', hHinv.1, hM1]
      show listOcc sA.nodes = listOcc s0.nodes
      exact hA1
    · rw [hs', hHinv.2.1, hM2]
      show sA.nodes.map Prod.fst = s0.nodes.map Prod.fst
      exact hA2
    · intro k d hd hact
      rw [hs'] at hd
      exact hHinv.2.2.2.2 k d hd hact

/-- Pointwise relation maintained by the hidden-node deactivation inside
prune phase 1: occupancy, transfer set and counter unchanged; nodes only
get deactivated, and only with zero occupancy. -/
def PHRel (a b : List (String × NodeData)) : Prop :=
  ∀ k d', lget b k = some d' → ∃ d, lget a k = some d ∧
    d'.occupancy = d.occupancy ∧ d'.occtransfer = d.occtransfer ∧
    d'.pruned = d.pruned ∧
    (d'.active = true → d.active = true) ∧
    (d'.active = false → d.active = false ∨ d'.occupancy = 0)

theorem pHRel_refl (l : List (String × NodeData)) : PHRel l l :=
  fun k d' h => ⟨d', h, rfl, rfl, rfl, fun x => x, fun x => Or.inl x⟩

theorem pHRel_trans {a b c : List (String × NodeData)}
    (h1 : PHRel a b) (h2 : PHRel b c) : PHRel a c := by
  intro k d' hd'
  obtain ⟨dm, hdm, e1, e2, e3, e4, e5⟩ := h2 k d' hd'
  obtain ⟨d, hd, f1, f2, f3, f4, f5⟩ := h1 k dm hdm
  refine ⟨d, hd, e1.trans f1, e2.trans f2, e3.trans f3,
    fun ht => f4 (e4 ht), ?_⟩
  intro ha
  rcases e5 ha with hm | hm
  · rcases f5 hm with hh | hh
    · exact Or.inl hh
    · exact Or.inr (e1.trans hh)
  · exact Or.inr hm

theorem pruneHiddenStep_occ (t t' : TrafoLandscape) (hn : String)
    (h : TrafoLandscape.pruneHiddenStep t hn = .ok t') :
    listOcc t'.nodes = listOcc t.nodes ∧ PHRel t.nodes t'.nodes := by
  unfold TrafoLandscape.pruneHiddenStep at h
  cases hl : lget t.nodes hn with
  | none =>
      rw [hl] at h
      exact absurd h (by simp [exThrow])
  | some hd =>
      simp only [hl] at h
      by_cases ho : ¬ hd.occupancy = 0
      · rw [if_pos ho] at h
        exact absurd h (by simp [exThrow, exBind_error])
      · rw [if_neg ho] at h
        try simp only [exPure, exBind_ok] at h
        injection h with h
        subst h
        have hocc0 : hd.occupancy = 0 := by
          by_cases hcc : hd.occupancy = 0
          · exact hcc
          · exact absurd hcc ho
        refine ⟨listOcc_lset_pres (fun d => { d with active := false })
          (fun d => rfl) t.nodes hn, ?_⟩
        intro k d' hd'
        simp only [TrafoLandscape.setActive] at hd'
        by_cases hk : k = hn
        · subst hk
          rw [lget_lset_self, hl] at hd'
          injection hd' with hd'
          refine ⟨hd, hl, by rw [← hd'], by rw [← hd'], by rw [← hd'],
            ?_, ?_⟩
          · intro ht
            rw [← hd'] at ht
            cases ht
          · intro _
            exact Or.inr (by rw [← hd']; exact hocc0)
        · rw [lget_lset_ne _ _ _ _ hk] at hd'
          exact ⟨d', hd', rfl, rfl, rfl, fun x => x, fun x => Or.inl x⟩

theorem prunePhase1_occ (pmin : ℚ) (keep : Option (List String)) :
    ∀ (lms : List String) (t : TrafoLandscape) (tot : ℚ) (acc : List String)
      (t' : TrafoLandscape) (ni : List String),
      TrafoLandscape.prunePhase1 pmin keep lms t tot acc = .ok (t', ni) →
      listOcc t'.nodes = listOcc t.nodes ∧
      (∀ x ∈ acc, x ∈ ni) ∧
      (∀ k d', lget t'.nodes k = some d' → ∃ d, lget t.nodes k = some d ∧
        d'.occupancy = d.occupancy ∧ d'.occtransfer = d.occtransfer ∧
        (d'.pruned = d.pruned ∨ d'.pruned = 0) ∧
        (d'.active = true → d.active = true) ∧
        (d'.active = false → d.active = false ∨ (k ∈ ni ∧ d'.pruned = 0) ∨
          d'.occupancy = 0)) := by
  intro lms
  induction lms with
  | nil =>
      intro t tot acc t' ni h
      simp only [TrafoLandscape.prunePhase1, exPure] at h
      injection h with h
      have ht' : t' = t := (congrArg Prod.fst h).symm
      have hni : ni = acc := (congrArg Prod.snd h).symm
      subst ht'
      subst hni
      refine ⟨rfl, fun x hx => hx, ?_⟩
      intro k d' hd'
      exact ⟨d', hd', rfl, rfl, Or.inl rfl, fun x => x, fun x => Or.inl x⟩
  | cons lm rest ih =>
      intro t tot acc t' ni h
      simp only [TrafoLandscape.prunePhase1] at h
      cases hk : keep with
      | none =>
          rw [hk] at h
          exact absurd h (by simp [exThrow, exBind_error])
      | some ks =>
          simp only [hk, exPure, exBind_ok] at h
          rw [← hk] at h
          by_cases hkept : decide (lm ∈ ks) = true
          · rw [if_pos hkept] at h
            exact ih t tot acc t' ni h
          · rw [if_neg hkept] at h
            have ht1occ : listOcc (t.setPruned lm 0).nodes = listOcc t.nodes :=
              listOcc_lset_pres (fun d => { d with pruned := 0 })
                (fun d => rfl) t.nodes lm
            have ht1rel : ∀ k d', lget (t.setPruned lm 0).nodes k = some d' →
                ∃ d, lget t.nodes k = some d ∧ d'.occupancy = d.occupancy ∧
                  d'.occtransfer = d.occtransfer ∧ d'.active = d.active ∧
                  (d'.pruned = d.pruned ∨ d'.pruned = 0) := by
              intro k d' hd'
              simp only [TrafoLandscape.setPruned] at hd'
              by_cases hkk : k = lm
              · subst hkk
                rw [lget_lset_self] at hd'
                cases hl : lget t.nodes k with
                | none => rw [hl] at hd'; cases hd'
                | some d =>
                    rw [hl] at hd'
                    injection hd' with hd'
                    exact ⟨d, rfl, by rw [← hd'], by rw [← hd'], by rw [← hd'],
                      Or.inr (by rw [← hd'])⟩
              · rw [lget_lset_ne _ _ _ _ hkk] at hd'
                exact ⟨d', hd', rfl, rfl, rfl, Or.inl rfl⟩
            by_cases hocc : tot + TrafoLandscape.occOf (t.setPruned lm 0) lm > pmin
            · rw [if_pos hocc] at h
              try simp only [exPure] at h
              injection h with h
              have ht' : t' = t.setPruned lm 0 := (congrArg Prod.fst h).symm
              have hni : ni = acc := (congrArg Prod.snd h).symm
              subst ht'
              subst hni
              refine ⟨ht1occ, fun x hx => hx, ?_⟩
              intro k d' hd'
              obtain ⟨d, hd, e1, e2, e3, e4⟩ := ht1rel k d' hd'
              refine ⟨d, hd, e1, e2, e4, fun ht => by rw [← e3]; exact ht, ?_⟩
              intro ha
              exact Or.inl (by rw [← e3]; exact ha)
            · rw [if_neg hocc] at h
              cases hl : lget (t.setPruned lm 0).nodes lm with
              | none =>
                  rw [hl] at h
                  exact absurd h (by simp [exThrow, exBind_error])
              | some d =>
                  simp only [hl] at h
                  cases hhn : d.hiddennodes with
                  | none =>
                      rw [hhn] at h
                      exact absurd h (by simp [exThrow, exBind_error])
                  | some hs =>
                      simp only [hhn, exPure, exBind_ok] at h
                      cases hf : hs.foldlM TrafoLandscape.pruneHiddenStep
                          (t.setPruned lm 0) with
                      | error e =>
                          rw [hf, exBind_error] at h
                          exact absurd h (by simp)
                      | ok t2 =>
                          rw [hf, exBind_ok] at h
                          have hdpr : d.pruned = 0 := by
                            simp only [TrafoLandscape.setPruned] at hl
                            rw [lget_lset_self] at hl
                            cases hlt : lget t.nodes lm with
                            | none => rw [hlt] at hl; cases hl
                            | some dt =>
                                rw [hlt] at hl
                                injection hl with hl
                                rw [← hl]
                          have hfold : listOcc t2.nodes =
                              listOcc (t.setPruned lm 0).nodes ∧
                              PHRel (t.setPruned lm 0).nodes t2.nodes := by
                            refine foldlM_inv_mem TrafoLandscape.pruneHiddenStep
                              (fun u => listOcc u.nodes =
                                listOcc (t.setPruned lm 0).nodes ∧
                                PHRel (t.setPruned lm 0).nodes u.nodes) hs ?_
                              _ t2 ⟨rfl, pHRel_refl _⟩ hf
                            intro u a u' _ hpu hstep
                            obtain ⟨c1, c2⟩ := pruneHiddenStep_occ u u' a hstep
                            exact ⟨c1.trans hpu.1, pHRel_trans hpu.2 c2⟩
                          obtain ⟨ihocc, ihacc, ihrel⟩ := ih (t2.setActive lm false)
                            (tot + TrafoLandscape.occOf (t.setPruned lm 0) lm)
                            (acc ++ [lm]) t' ni h
                          have hlmni : lm ∈ ni :=
                            ihacc lm (List.mem_append.mpr (Or.inr (by simp)))
                          have ht3occ : listOcc (t2.setActive lm false).nodes =
                              listOcc t.nodes := by
                            rw [show listOcc (t2.setActive lm false).nodes =
                              listOcc t2.nodes from listOcc_lset_pres
                                (fun d => { d with active := false })
                                (fun d => rfl) t2.nodes lm, hfold.1, ht1occ]
                          have ht3rel : ∀ k d3,
                              lget (t2.setActive lm false).nodes k = some d3 →
                              ∃ dt, lget t.nodes k = some dt ∧
                                d3.occupancy = dt.occupancy ∧
                                d3.occtransfer = dt.occtransfer ∧
                                (d3.pruned = dt.pruned ∨ d3.pruned = 0) ∧
                                (d3.active = true → dt.active = true) ∧
                                (d3.active = false → dt.active = false ∨
                                  (k = lm ∧ d3.pruned = 0) ∨ d3.occupancy = 0) := by
                            intro k d3 hd3
                            simp only [TrafoLandscape.setActive] at hd3
                            by_cases hkk : k = lm
                            · subst hkk
                              rw [lget_lset_self] at hd3
                              cases hl2 : lget t2.nodes k with
                              | none => rw [hl2] at hd3; cases hd3
                              | some d2 =>
                                  rw [hl2] at hd3
                                  injection hd3 with hd3
                                  obtain ⟨d1, hd1, g1, g2, g3, _, _⟩ :=
                                    hfold.2 k d2 hl2
                                  rw [hl] at hd1
                                  injection hd1 with hd1
                                  subst hd1
                                  obtain ⟨dt, hdt, f1, f2, f3, f4⟩ := ht1rel k d hl
                                  refine ⟨dt, hdt, ?_, ?_, ?_, ?_, ?_⟩
                                  · rw [← hd3]
                                    exact g1.trans f1
                                  · rw [← hd3]
                                    exact g2.trans f2
                                  · refine Or.inr ?_
                                    rw [← hd3]
                                    exact g3.trans hdpr
                                  · intro ht
                                    rw [← hd3] at ht
                                    cases ht
                                  · intro _
                                    refine Or.inr (Or.inl ⟨rfl, ?_⟩)
                                    rw [← hd3]
                                    exact g3.trans hdpr
                            · rw [lget_lset_ne _ _ _ _ hkk] at hd3
                              obtain ⟨d1, hd1, g1, g2, g3, g4, g5⟩ :=
                                hfold.2 k d3 hd3
                              have hd1t : lget t.nodes k = some d1 := by
                                simp only [TrafoLandscape.setPruned] at hd1
                                rw [lget_lset_ne _ _ _ _ hkk] at hd1
                                exact hd1
                              refine ⟨d1, hd1t, g1, g2, Or.inl g3, g4, ?_⟩
                              intro ha
                              rcases g5 ha with hh | hh
                              · exact Or.inl hh
                              · exact Or.inr (Or.inr hh)
                          refine ⟨ihocc.trans ht3occ, ?_, ?_⟩
                          · intro x hx
                            exact ihacc x (List.mem_append.mpr (Or.inl hx))
                          · intro k d' hd'
                            obtain ⟨d3, hd3, e1, e2, e3, e4, e5⟩ := ihrel k d' hd'
                            obtain ⟨dt, hdt, f1, f2, f3, f4, f5⟩ := ht3rel k d3 hd3
                            refine ⟨dt, hdt, e1.trans f1, e2.trans f2, ?_, ?_, ?_⟩
                            · rcases e3 with he | he
                              · rcases f3 with hff | hff
                                · exact Or.inl (he.trans hff)
                                · exact Or.inr (he.trans hff)
                              · exact Or.inr he
                            · intro ht
                              exact f4 (e4 ht)
                            · intro ha
                              rcases e5 ha with hh | hh | hh
                              · rcases f5 hh with gg | gg | gg
                                · exact Or.inl gg
                                · refine Or.inr (Or.inl ⟨?_, ?_⟩)
                                  · rw [gg.1]
                                    exact hlmni
                                  · rcases e3 with he | he
                                    · rw [he]
                                      exact gg.2
                                    · exact he
                                · exact Or.inr (Or.inr (e1.trans gg))
                              · exact Or.inr (Or.inl hh)
                              · exact Or.inr (Or.inr hh)

theorem prunePhase2_occ (s1 s2 : TrafoLandscape) (ni : List String)
    (h : TrafoLandscape.prunePhase2 s1 ni = .ok s2) :
    listOcc s2.nodes = listOcc s1.nodes ∧
    s2.nodes.map Prod.fst = s1.nodes.map Prod.fst ∧
    (∀ k d', lget s2.nodes k = some d' → ∃ d, lget s1.nodes k = some d ∧
      d'.occupancy = d.occupancy ∧ d'.active = d.active ∧ d'.pruned = d.pruned ∧
      (d'.occtransfer = d.occtransfer ∨
        ∃ ts, d'.occtransfer = some ts ∧ ts ≠ [])) ∧
    (∀ x ∈ ni, ∀ d, lget s2.nodes x = some d →
      ∃ ts, d.occtransfer = some ts ∧ ts ≠ []) := by
  unfold TrafoLandscape.prunePhase2 at h
  have hstep : ∀ (u u' : TrafoLandscape) (a : String),
      TrafoLandscape.prunePhase2Step u a = .ok u' →
      listOcc u'.nodes = listOcc u.nodes ∧
      u'.nodes.map Prod.fst = u.nodes.map Prod.fst ∧
      (∀ k d', lget u'.nodes k = some d' → ∃ d, lget u.nodes k = some d ∧
        d'.occupancy = d.occupancy ∧ d'.active = d.active ∧
        d'.pruned = d.pruned ∧
        (d'.occtransfer = d.occtransfer ∨
          ∃ ts, d'.occtransfer = some ts ∧ ts ≠ [])) ∧
      (∀ d, lget u'.nodes a = some d →
        ∃ ts, d.occtransfer = some ts ∧ ts ≠ []) := by
    intro u u' a hs
    simp only [TrafoLandscape.prunePhase2Step] at hs
    cases hl : lget u.nodes a with
    | none =>
        rw [hl] at hs
        exact absurd hs (by simp [exThrow])
    | some d =>
        simp only [hl] at hs
        by_cases ha : d.active = true
        · rw [if_pos ha] at hs
          exact absurd hs (by simp [exThrow, exBind_error])
        · rw [if_neg ha] at hs
          try simp only [exPure, exBind_ok] at hs
          cases hg : TrafoLandscape.get_active_nbrs u (u.nodes.length + 1) a [] with
          | error e =>
              rw [hg, exBind_error] at hs
              exact absurd hs (by simp)
          | ok ys =>
              rw [hg, exBind_ok] at hs
              obtain ⟨ys1, ys2⟩ := ys
              by_cases hz : (sdedup ys1).length = 0
              · rw [if_pos hz] at hs
                exact absurd hs (by simp [exThrow, exBind_error])
              · rw [if_neg hz] at hs
                try simp only [exPure, exBind_ok] at hs
                injection hs with hs
                subst hs
                have htsne : sdedup ys1 ≠ [] := by
                  intro hc
                  rw [hc] at hz
                  exact hz rfl
                refine ⟨listOcc_lset_pres
                    (fun d => { d with occtransfer := some (sdedup ys1) })
                    (fun d => rfl) u.nodes a, ?_, ?_, ?_⟩
                · exact lset_map_fst _ u.nodes a
                · intro k d' hd'
                  simp only [TrafoLandscape.setOcctransfer] at hd'
                  by_cases hkk : k = a
                  · subst hkk
                    rw [lget_lset_self, hl] at hd'
                    injection hd' with hd'
                    exact ⟨d, hl, by rw [← hd'], by rw [← hd'], by rw [← hd'],
                      Or.inr ⟨sdedup ys1, by rw [← hd'], htsne⟩⟩
                  · rw [lget_lset_ne _ _ _ _ hkk] at hd'
                    exact ⟨d', hd', rfl, rfl, rfl, Or.inl rfl⟩
                · intro d2 hd2
                  simp only [TrafoLandscape.setOcctransfer] at hd2
                  rw [lget_lset_self, hl] at hd2
                  injection hd2 with hd2
                  exact ⟨sdedup ys1, by rw [← hd2], htsne⟩
  have hrem := foldlM_inv_rem TrafoLandscape.prunePhase2Step
    (fun u rem => (listOcc u.nodes = listOcc s1.nodes ∧
      u.nodes.map Prod.fst = s1.nodes.map Prod.fst ∧
      (∀ k d', lget u.nodes k = some d' → ∃ d, lget s1.nodes k = some d ∧
        d'.occupancy = d.occupancy ∧ d'.active = d.active ∧
        d'.pruned = d.pruned ∧
        (d'.occtransfer = d.occtransfer ∨
          ∃ ts, d'.occtransfer = some ts ∧ ts ≠ []))) ∧
      (∀ x ∈ ni, x ∉ rem → ∀ d, lget u.nodes x = some d →
        ∃ ts, d.occtransfer = some ts ∧ ts ≠ []))
    (by
      intro u a u' rest hQ hs
      obtain ⟨⟨q1, q2, q3⟩, q4⟩ := hQ
      obtain ⟨c1, c2, c3, c4⟩ := hstep u u' a hs
      refine ⟨⟨c1.trans q1, c2.trans q2, ?_⟩, ?_⟩
      · intro k d' hd'
        obtain ⟨dm, hdm, e1, e2, e3, e4⟩ := c3 k d' hd'
        obtain ⟨d, hd, f1, f2, f3, f4⟩ := q3 k dm hdm
        refine ⟨d, hd, e1.trans f1, e2.trans f2, e3.trans f3, ?_⟩
        rcases e4 with he | he
        · rcases f4 with hf | hf
          · exact Or.inl (he.trans hf)
          · obtain ⟨ts, hts, htsne⟩ := hf
            exact Or.inr ⟨ts, he.trans hts, htsne⟩
        · exact Or.inr he
      · intro x hx hxr d2 hd2
        by_cases hxa : x = a
        · subst hxa
          exact c4 d2 hd2
        · have hxold : x ∉ a :: rest := by
            intro hc
            rcases List.mem_cons.mp hc with he | ht
            · exact hxa he
            · exact hxr ht
          obtain ⟨dm, hdm, e1, e2, e3, e4⟩ := c3 x d2 hd2
          rcases e4 with he | he
          · obtain ⟨ts, hts, htsne⟩ := q4 x hx hxold dm hdm
            exact ⟨ts, by rw [he]; exact hts, htsne⟩
          · exact he)
    ni s1 s2
    ⟨⟨rfl, rfl, fun k d' hd' => ⟨d', hd', rfl, rfl, rfl, Or.inl rfl⟩⟩,
      fun x hx hnx => absurd hx hnx⟩ h
  exact ⟨hrem.1.1, hrem.1.2.1, hrem.1.2.2,
    fun x hx d hd => hrem.2 x hx (by simp) d hd⟩

theorem pruneFinal_occ (delth : ℤ) (s2 : TrafoLandscape)
    (hsafe : ∀ k d, lget s2.nodes k = some d → d.active = false →
      d.occupancy ≠ 0 → d.pruned = 0)
    (hdelth : 1 ≤ delth) :
    ∀ (keys : List String) (cur : TrafoLandscape) (pn dn : List String)
      (r : TrafoLandscape × List String × List String),
      keys.Nodup →
      (∀ k ∈ keys, lget cur.nodes k = lget s2.nodes k) →
      listOcc cur.nodes = listOcc s2.nodes →
      (cur.nodes.map Prod.fst).Nodup →
      (∀ k d', lget cur.nodes k = some d' → ∃ d, lget s2.nodes k = some d ∧
        d'.occupancy = d.occupancy ∧ d'.occtransfer = d.occtransfer ∧
        d'.active = d.active) →
      List.foldlM (TrafoLandscape.pruneFinalStep delth) (cur, pn, dn) keys = .ok r →
      listOcc r.1.nodes = listOcc s2.nodes ∧
      (r.1.nodes.map Prod.fst).Nodup ∧
      (∀ k d', lget r.1.nodes k = some d' → ∃ d, lget s2.nodes k = some d ∧
        d'.occupancy = d.occupancy ∧ d'.occtransfer = d.occtransfer ∧
        d'.active = d.active) := by
  intro keys
  induction keys with
  | nil =>
      intro cur pn dn r _ _ hocc hnd hrel h
      simp only [List.foldlM, exPure] at h
      injection h with h
      subst h
      exact ⟨hocc, hnd, hrel⟩
  | cons a rest ih =>
      intro cur pn dn r hknd hkeq hocc hnd hrel h
      rw [List.foldlM_cons] at h
      have hanr : a ∉ rest := (List.nodup_cons.mp hknd).1
      have hrnd : rest.Nodup := (List.nodup_cons.mp hknd).2
      cases hstep : TrafoLandscape.pruneFinalStep delth (cur, pn, dn) a with
      | error e =>
          rw [hstep, exBind_error] at h
          exact absurd h (by simp)
      | ok acc2 =>
      rw [hstep, exBind_ok] at h
      obtain ⟨cur2, pn2, dn2⟩ := acc2
      simp only [TrafoLandscape.pruneFinalStep] at hstep
      cases hl : lget cur.nodes a with
      | none =>
          rw [hl] at hstep
          exact absurd hstep (by simp [exThrow])
      | some d =>
          simp only [hl] at hstep
          have hs2a : lget s2.nodes a = some d := by
            rw [← hkeq a (List.mem_cons_self a rest)]
            exact hl
          have hsetfacts : ∀ (p : ℕ),
              listOcc (cur.setPruned a p).nodes = listOcc s2.nodes ∧
              ((cur.setPruned a p).nodes.map Prod.fst).Nodup ∧
              (∀ k ∈ rest, lget (cur.setPruned a p).nodes k = lget s2.nodes k) ∧
              (∀ k d', lget (cur.setPruned a p).nodes k = some d' →
                ∃ d0, lget s2.nodes k = some d0 ∧ d'.occupancy = d0.occupancy ∧
                d'.occtransfer = d0.occtransfer ∧ d'.active = d0.active) := by
            intro p
            refine ⟨?_, ?_, ?_, ?_⟩
            · rw [show (cur.setPruned a p).nodes =
                lset (fun d => { d with pruned := p }) cur.nodes a from rfl,
                listOcc_lset_pres (fun d => { d with pruned := p }) (fun d => rfl)]
              exact hocc
            · rw [show (cur.setPruned a p).nodes =
                lset (fun d => { d with pruned := p }) cur.nodes a from rfl,
                lset_map_fst]
              exact hnd
            · intro k hk
              rw [show (cur.setPruned a p).nodes =
                lset (fun d => { d with pruned := p }) cur.nodes a from rfl,
                lget_lset_ne _ _ _ _ (fun hc => hanr (by rw [← hc]; exact hk))]
              exact hkeq k (List.mem_cons_of_mem a hk)
            · intro k d' hd'
              rw [show (cur.setPruned a p).nodes =
                lset (fun d => { d with pruned := p }) cur.nodes a from rfl] at hd'
              by_cases hk : k = a
              · subst hk
                rw [lget_lset_self, hl] at hd'
                injection hd' with hd'
                obtain ⟨d0, hd0, e1, e2, e3⟩ := hrel k d hl
                exact ⟨d0, hd0, by rw [← hd']; exact e1, by rw [← hd']; exact e2,
                  by rw [← hd']; exact e3⟩
              · rw [lget_lset_ne _ _ _ _ hk] at hd'
                exact hrel k d' hd'
          by_cases ha : d.active = true
          · rw [if_pos ha] at hstep
            try simp only [exPure] at hstep
            injection hstep with hstep
            have hc2 : cur2 = cur.setPruned a 0 :=
              (congrArg Prod.fst hstep).symm
            subst hc2
            obtain ⟨g1, g2, g3, g4⟩ := hsetfacts 0
            exact ih (cur.setPruned a 0) pn2 dn2 r hrnd g3 g1 g2 g4 h
          · rw [if_neg ha] at hstep
            by_cases hgt : ((d.pruned + 1 : ℕ) : ℤ) > delth
            · rw [if_pos hgt] at hstep
              try simp only [exPure] at hstep
              injection hstep with hstep
              have hdact : d.active = false := by
                cases hca : d.active with
                | false => rfl
                | true => exact absurd hca ha
              have hdocc : d.occupancy = 0 := by
                by_contra hocc0
                have := hsafe a d hs2a hdact hocc0
                rw [this] at hgt
                push_cast at hgt
                exact absurd hgt (by omega)
              obtain ⟨g1, g2, g3, g4⟩ := hsetfacts (d.pruned + 1)
              have hdel1 : lget (cur.setPruned a (d.pruned + 1)).nodes a =
                  some { d with pruned := d.pruned + 1 } := by
                rw [show (cur.setPruned a (d.pruned + 1)).nodes =
                  lset (fun v => { v with pruned := d.pruned + 1 }) cur.nodes a
                  from rfl, lget_lset_self, hl]
                rfl
              have hc2 : cur2 = { cur.setPruned a (d.pruned + 1) with
                  edges := (cur.setPruned a (d.pruned + 1)).edges.filter fun e =>
                    decide (e.1.1 ≠ a) && decide (e.1.2 ≠ a),
                  nodes := ldel (cur.setPruned a (d.pruned + 1)).nodes a } :=
                (congrArg Prod.fst hstep).symm
              have hocc2 : listOcc cur2.nodes = listOcc s2.nodes := by
                rw [hc2]
                show listOcc (ldel (cur.setPruned a (d.pruned + 1)).nodes a) =
                  listOcc s2.nodes
                rw [listOcc_ldel _ a _ hdel1]
                show listOcc (cur.setPruned a (d.pruned + 1)).nodes -
                  ({ d with pruned := d.pruned + 1 } : NodeData).occupancy =
                  listOcc s2.nodes
                rw [g1]
                show listOcc s2.nodes - d.occupancy = listOcc s2.nodes
                rw [hdocc]
                ring
              have hnd2 : (cur2.nodes.map Prod.fst).Nodup := by
                rw [hc2]
                show ((ldel (cur.setPruned a (d.pruned + 1)).nodes a).map
                  Prod.fst).Nodup
                refine List.Nodup.sublist ?_ g2
                exact List.Sublist.map Prod.fst (ldel_sublist _ a)
              have hkeq2 : ∀ k ∈ rest, lget cur2.nodes k = lget s2.nodes k := by
                intro k hk
                rw [hc2]
                show lget (ldel (cur.setPruned a (d.pruned + 1)).nodes a) k =
                  lget s2.nodes k
                rw [lget_ldel_ne _ _ _ (fun hc => hanr (by rw [← hc]; exact hk))]
                exact g3 k hk
              have hrel2 : ∀ k d', lget cur2.nodes k = some d' →
                  ∃ d0, lget s2.nodes k = some d0 ∧ d'.occupancy = d0.occupancy ∧
                  d'.occtransfer = d0.occtransfer ∧ d'.active = d0.active := by
                intro k d' hd'
                rw [hc2] at hd'
                by_cases hk : k = a
                · rw [show ({ cur.setPruned a (d.pruned + 1) with
                      edges := (cur.setPruned a (d.pruned + 1)).edges.filter
                        fun e => decide (e.1.1 ≠ a) && decide (e.1.2 ≠ a),
                      nodes := ldel (cur.setPruned a (d.pruned + 1)).nodes a } :
                      TrafoLandscape).nodes =
                    ldel (cur.setPruned a (d.pruned + 1)).nodes a from rfl,
                    hk, lget_ldel_self _ _ g2] at hd'
                  cases hd'
                · rw [show ({ cur.setPruned a (d.pruned + 1) with
                      edges := (cur.setPruned a (d.pruned + 1)).edges.filter
                        fun e => decide (e.1.1 ≠ a) && decide (e.1.2 ≠ a),
                      nodes := ldel (cur.setPruned a (d.pruned + 1)).nodes a } :
                      TrafoLandscape).nodes =
                    ldel (cur.setPruned a (d.pruned + 1)).nodes a from rfl,
                    lget_ldel_ne _ _ _ hk] at hd'
                  exact g4 k d' hd'
              exact ih cur2 pn2 dn2 r hrnd hkeq2 hocc2 hnd2 hrel2 h
            · rw [if_neg hgt] at hstep
              try simp only [exPure] at hstep
              injection hstep with hstep
              have hc2 : cur2 = cur.setPruned a (d.pruned + 1) :=
                (congrArg Prod.fst hstep).symm
              subst hc2
              obtain ⟨g1, g2, g3, g4⟩ := hsetfacts (d.pruned + 1)
              exact ih (cur.setPruned a (d.pruned + 1)) pn2 dn2 r hrnd g3 g1 g2 g4 h

theorem prune_occ (s : TrafoLandscape) (pmin : ℚ) (delth : ℤ)
    (keep : Option (List String)) (s' : TrafoLandscape) (pn dn : List String)
    (hnd : (s.nodes.map Prod.fst).Nodup) (hiz : InactiveZero s)
    (hdelth : 1 ≤ delth)
    (h : TrafoLandscape.prune s pmin delth keep = .ok (s', pn, dn)) :
    listOcc s'.nodes = listOcc s.nodes ∧
    (s'.nodes.map Prod.fst).Nodup ∧ Stranded s' := by
  simp only [TrafoLandscape.prune] at h
  cases h1 : TrafoLandscape.prunePhase1 pmin keep
      (stSort (fun a b => decide (TrafoLandscape.occOf s a ≤ TrafoLandscape.occOf s b))
        (TrafoLandscape.activeLocalMins s)) s 0 [] with
  | error e =>
      rw [h1, exBind_error] at h
      exact absurd h (by simp)
  | ok p1 =>
  obtain ⟨s1, ni⟩ := p1
  rw [h1, exBind_ok] at h
  obtain ⟨h1occ, _, h1rel⟩ := prunePhase1_occ pmin keep _ s 0 [] s1 ni h1
  have h1mfst : s1.nodes.map Prod.fst = s.nodes.map Prod.fst := by
    obtain ⟨⟨hk, _, _⟩, _⟩ := prunePhase1_inv s pmin keep _ s 0 [] s1 ni
      (by
        intro lm hlm
        obtain ⟨d, hd, hact, _⟩ := activeLocalMins_mem s lm hnd
          ((mem_stSort _ _ _).mp hlm)
        exact ⟨d, hd, hact⟩) ⟨rfl, rfl, fun k d hk _ => hk⟩ h1
    exact hk
  cases h2 : TrafoLandscape.prunePhase2 s1 ni with
  | error e =>
      rw [h2, exBind_error] at h
      exact absurd h (by simp)
  | ok s2 =>
  rw [h2, exBind_ok] at h
  obtain ⟨h2occ, h2mfst, h2rel, h2ni⟩ := prunePhase2_occ s1 s2 ni h2
  have hnd2 : (s2.nodes.map Prod.fst).Nodup := by
    rw [h2mfst, h1mfst]
    exact hnd
  have hsafe : ∀ k d, lget s2.nodes k = some d → d.active = false →
      d.occupancy ≠ 0 → d.pruned = 0 := by
    intro k d hd hact hocc
    obtain ⟨d1, hd1, e1, e2, e3, _⟩ := h2rel k d hd
    obtain ⟨ds, hds, f1, f2, f3, f4, f5⟩ := h1rel k d1 hd1
    rcases f5 (by rw [← e2]; exact hact) with hh | hh | hh
    · exact absurd (e1.trans (f1.trans (hiz k ds hds hh)))
        hocc
    · rw [e3]
      exact hh.2
    · exact absurd (e1.trans hh) hocc
  have hfin := pruneFinal_occ delth s2 hsafe hdelth (s2.nodes.map Prod.fst)
    s2 [] [] (s', pn, dn) hnd2 (fun k _ => rfl) rfl hnd2
    (fun k d' hd' => ⟨d', hd', rfl, rfl, rfl⟩) h
  refine ⟨?_, hfin.2.1, ?_⟩
  · rw [hfin.1, h2occ, h1occ]
  · intro k d' hd' hact hocc
    obtain ⟨d2, hd2, e1, e2, e3⟩ := hfin.2.2 k d' hd'
    by_cases hkni : k ∈ ni
    · obtain ⟨ts, hts, htsne⟩ := h2ni k hkni d2 hd2
      exact ⟨ts, e2.trans hts, htsne⟩
    · obtain ⟨d1, hd1, g1, g2, g3, _⟩ := h2rel k d2 hd2
      obtain ⟨ds, hds, f1, f2, f3, f4, f5⟩ := h1rel k d1 hd1
      rcases f5 (by rw [← g2, ← e3]; exact hact) with hh | hh | hh
      · exact absurd (e1.trans (g1.trans (f1.trans (hiz k ds hds hh)))) hocc
      · exact absurd hh.1 hkni
      · exact absurd (e1.trans (g1.trans hh)) hocc

/-- Position in the prescribed per-step call order. -/
inductive Phase where
  | postExpand : Phase
  | postCG : Phase
  | postPrune : Phase

/-- Landscapes reachable by the prescribed per-step order: a bootstrap
`expand` on an empty graph, then cycles of
`expand` / `get_coarse_network` / `prune`, every `prune` with
`delth ≥ 1`. -/
inductive Reach (o : Oracles) : Phase → TrafoLandscape → Prop where
  | boot : ∀ (s0 s' : TrafoLandscape) (nn ron : List String), s0.nodes = [] →
      TrafoLandscape.expand o s0 = .ok (s', nn, ron) →
      Reach o Phase.postExpand s'
  | step_expand : ∀ (s s' : TrafoLandscape) (nn ron : List String),
      Reach o Phase.postPrune s →
      TrafoLandscape.expand o s = .ok (s', nn, ron) →
      Reach o Phase.postExpand s'
  | step_cg : ∀ (s s' : TrafoLandscape) (cnt : ℕ × ℕ),
      Reach o Phase.postExpand s →
      TrafoLandscape.get_coarse_network o s = .ok (s', cnt) →
      Reach o Phase.postCG s'
  | step_prune : ∀ (s : TrafoLandscape) (pmin : ℚ) (delth : ℤ)
      (keep : Option (List String)) (s' : TrafoLandscape) (pn dn : List String),
      Reach o Phase.postCG s → 1 ≤ delth →
      TrafoLandscape.prune s pmin delth keep = .ok (s', pn, dn) →
      Reach o Phase.postPrune s'

theorem reach_inv (o : Oracles) (hpart : PartitionOracle o) :
    ∀ (ph : Phase) (s : TrafoLandscape), Reach o ph s →
      TrafoLandscape.totOcc s = 1 ∧ (s.nodes.map Prod.fst).Nodup ∧
      (match ph with
       | Phase.postCG => InactiveZero s
       | _ => Stranded s) := by
  intro ph s hr
  induction hr with
  | boot s0 s' nn ron hnil hex =>
      obtain ⟨hb, _⟩ := expand_occ o s0 s' nn ron hex
      obtain ⟨b1, b2, b3⟩ := hb hnil
      exact ⟨b1, b2, b3⟩
  | step_expand s s' nn ron hre hex ih =>
      obtain ⟨i1, i2, i3⟩ := ih
      have hne : s.nodes ≠ [] := by
        intro hc
        rw [totOcc_eq_listOcc, hc] at i1
        simp [listOcc] at i1
      obtain ⟨_, hep⟩ := expand_occ o s s' nn ron hex
      obtain ⟨e1, e2, e3⟩ := hep hne
      refine ⟨?_, e2 i2, e3 i3⟩
      rw [totOcc_eq_listOcc, e1, ← totOcc_eq_listOcc]
      exact i1
  | step_cg s s' cnt hre hok ih =>
      obtain ⟨i1, i2, i3⟩ := ih
      obtain ⟨c1, c2, c3⟩ := cg_occ o s s' cnt hpart i2 i3 hok
      refine ⟨?_, ?_, c3⟩
      · rw [totOcc_eq_listOcc, c1, ← totOcc_eq_listOcc]
        exact i1
      · rw [c2]
        exact i2
  | step_prune s pmin delth keep s' pn dn hre hdelth hok ih =>
      obtain ⟨i1, i2, i3⟩ := ih
      obtain ⟨c1, c2, c3⟩ := prune_occ s pmin delth keep s' pn dn i2 i3 hdelth hok
      refine ⟨?_, c2, c3⟩
      rw [totOcc_eq_listOcc, c1, ← totOcc_eq_listOcc]
      exact i1

/-- C1 (amended): starting from the bootstrap `expand` on an empty graph,
along every sequence of `expand` / `get_coarse_network` / `prune` calls in
the prescribed per-step order in which every `prune` call uses
`delth ≥ 1`, and under the partition contract on the coarse-graining
collaborator, the total occupancy over all nodes is exactly the single
unit injected at bootstrap: it equals 1 after every call.  (Without the
`delth ≥ 1` restriction the statement is false: see the counterexample,
where a `delth = 0` prune deletes a node still holding occupancy 1/2.) -/
theorem c1_occupancy_conservation (o : Oracles) (hpart : PartitionOracle o)
    (ph : Phase) (s : TrafoLandscape) (hr : Reach o ph s) :
    TrafoLandscape.totOcc s = 1 :=
  (reach_inv o hpart ph s hr).1

theorem c1_occupancy_conservation_witness :
    PartitionOracle c1O ∧ c1s0.nodes = [] ∧
    expand c1O c1s0 = .ok (c1sE1, ["x."], []) ∧
    totOcc c1sE1 = 1 := by
  have hpart : PartitionOracle c1O := by
    intro nd ed mh p q hp hq
    rcases nd with _ | ⟨p0, nd1⟩
    · simp [c1O] at hp hq
      rcases hp with hp | hp <;> rcases hq with hq | hq <;>
        · subst hp
          subst hq
          simp
    · rcases nd1 with _ | ⟨p1, nd2⟩
      · simp [c1O] at hp
      · simp [c1O] at hp hq
        rcases hp with hp | hp <;> rcases hq with hq | hq <;>
          · subst hp
            subst hq
            simp
  refine ⟨hpart, rfl, c1step1, ?_⟩
  exact c1_occupancy_conservation c1O hpart Phase.postExpand c1sE1
    (Reach.boot c1s0 c1sE1 ["x."] [] rfl c1step1)
